import Mathlib

/-!
# Verification of the stochastic address manager of src/addrman.h

This file shallowly embeds the two components of `src/addrman.h`:

* `CAddrMan`, the stochastic address manager, in particular its custom
  serialization format (`IMPLEMENT_SERIALIZE`, write and read branches), and
* `CAddrStat`, the sliding-window address reputation tracker
  (`UpdatePos`, `AddAddress`, `ConnectedAddress`, `ResetHistory`,
  `GetAddrStat`, `Select`, and its serializer).

Byte streams are `List Nat` (one entry per byte).  The fixed-width integer
codecs live in `serialize.h`, which is not part of this repository snapshot;
per the specification all fixed-width integers are little-endian, and
signed integers use the two's complement form of their width.

C++ `int` / `int64_t` fields are embedded as `Int`; container sizes and
byte values as `Nat`.  C++ integer division/remainder truncate toward zero,
which is `Int.tdiv` / `Int.tmod`.
-/

/-! ## Little-endian integer byte codecs (modelled from the spec) -/

def u8Bytes (n : Nat) : List Nat := [n % 256]

def u16Bytes (n : Nat) : List Nat := [n % 256, n / 256 % 256]

def u32Bytes (n : Nat) : List Nat :=
  [n % 256, n / 256 % 256, n / 256 ^ 2 % 256, n / 256 ^ 3 % 256]

def u64Bytes (n : Nat) : List Nat :=
  [n % 256, n / 256 % 256, n / 256 ^ 2 % 256, n / 256 ^ 3 % 256,
   n / 256 ^ 4 % 256, n / 256 ^ 5 % 256, n / 256 ^ 6 % 256, n / 256 ^ 7 % 256]

/-- Two's complement 32-bit little-endian form of an `int`. -/
def i32Bytes (x : Int) : List Nat := u32Bytes (x % 2 ^ 32).toNat

/-- Two's complement 64-bit little-endian form of an `int64_t`. -/
def i64Bytes (x : Int) : List Nat := u64Bytes (x % 2 ^ 64).toNat

def readU8 : List Nat → Option (Nat × List Nat)
  | [] => none
  | b :: r => some (b, r)

def readU16 : List Nat → Option (Nat × List Nat)
  | b0 :: b1 :: r => some (b0 + 256 * b1, r)
  | _ => none

def readU32 : List Nat → Option (Nat × List Nat)
  | b0 :: b1 :: b2 :: b3 :: r =>
      some (b0 + 256 * b1 + 256 ^ 2 * b2 + 256 ^ 3 * b3, r)
  | _ => none

def readU64 : List Nat → Option (Nat × List Nat)
  | b0 :: b1 :: b2 :: b3 :: b4 :: b5 :: b6 :: b7 :: r =>
      some (b0 + 256 * b1 + 256 ^ 2 * b2 + 256 ^ 3 * b3 + 256 ^ 4 * b4 +
            256 ^ 5 * b5 + 256 ^ 6 * b6 + 256 ^ 7 * b7, r)
  | _ => none

def decodeI32 (n : Nat) : Int := if n < 2 ^ 31 then (n : Int) else (n : Int) - 2 ^ 32

def decodeI64 (n : Nat) : Int := if n < 2 ^ 63 then (n : Int) else (n : Int) - 2 ^ 64

def readI32 (s : List Nat) : Option (Int × List Nat) :=
  (readU32 s).map (fun p => (decodeI32 p.1, p.2))

def readI64 (s : List Nat) : Option (Int × List Nat) :=
  (readU64 s).map (fun p => (decodeI64 p.1, p.2))

def readNBytes (k : Nat) (s : List Nat) : Option (List Nat × List Nat) :=
  if s.length < k then none else some (s.take k, s.drop k)

/-! ## Association lists

`std::map` is modelled as an association list: lookups, updates and
erasures are by key.  The claims settled in this file do not depend on
`std::map`'s key-sorted iteration order, so iteration is list order. -/

def alFind {α β : Type} [DecidableEq α] : List (α × β) → α → Option β
  | [], _ => none
  | (k, v) :: t, a => if k = a then some v else alFind t a

/-- Assignment through `operator[]`: replace the mapped value, or append the
key if absent. -/
def alSet {α β : Type} [DecidableEq α] : List (α × β) → α → β → List (α × β)
  | [], a, v => [(a, v)]
  | (k, w) :: t, a, v => if k = a then (k, v) :: t else (k, w) :: alSet t a v

/-- `operator[]` used for its side effect: default-construct the mapped value
if the key is absent. -/
def alEnsure {α β : Type} [DecidableEq α] (d : β) (m : List (α × β)) (a : α) :
    List (α × β) :=
  match alFind m a with
  | some _ => m
  | none => m ++ [(a, d)]

def alErase {α β : Type} [DecidableEq α] (m : List (α × β)) (a : α) : List (α × β) :=
  m.filter (fun p => p.1 != a)

/-! ## CAddrStat: configuration constants -/

def ADDR_STATS_WND : Int := 6 * 3600

def ADDR_STATS_LEN : Nat := 56

def ADDR_STATS_MAX : Nat := 60000

def NODES_CHECK_INTERVAL : Int := 321

/-- The per-window observation cap `ADDR_STATS_WND / NODES_CHECK_INTERVAL`
(C++ integer division), i.e. `21600 / 321 = 67`. -/
def statCap : Int := ADDR_STATS_WND.tdiv NODES_CHECK_INTERVAL

/-! ## CAddrStat: state -/

structure CAddrHistory where
  vecHistory : List Int
  count : Int
deriving DecidableEq

/-- `CAddrHistory()`: count 0, ring of `ADDR_STATS_LEN` zeroes. -/
def CAddrHistory.init : CAddrHistory := ⟨List.replicate ADDR_STATS_LEN 0, 0⟩

/-- `CNetAddr` keys are abstracted as `Nat` (a 16-byte IP reads as a number
below `2 ^ 128`). -/
structure CAddrStat where
  setAddrStatic : List Nat
  mapAddrCounter : List (Nat × CAddrHistory)
  vecAddrSort : List Nat
  nVersion : Int
  nIndexPos : Int
  nIndexTime : Int
deriving DecidableEq

/-- `vecHistory[p]` for an `int` index. -/
def cellGet (h : CAddrHistory) (p : Int) : Int := h.vecHistory.getD p.toNat 0

/-- `std::multimap<int, CNetAddr>::insert`: the new pair is placed after all
existing pairs with an equal key. -/
def mmInsert (k : Int) (a : Nat) : List (Int × Nat) → List (Int × Nat)
  | [] => [(k, a)]
  | (k2, a2) :: t => if k < k2 then (k, a) :: (k2, a2) :: t else (k2, a2) :: mmInsert k a t

/-- `CAddrStat::UpdatePos`, with `GetTime()` passed explicitly as `now`.
Note the single ring step: `nIndexTime` advances by `rewrite` whole windows
while `nIndexPos` advances only once and a single ring cell per entry is
subtracted and zeroed. -/
def updatePos (now : Int) (s : CAddrStat) : CAddrStat :=
  let rewrite := (now - s.nIndexTime).tdiv ADDR_STATS_WND
  if 0 < rewrite then
    let it := s.nIndexTime + rewrite * ADDR_STATS_WND
    let ip := (s.nIndexPos + 1).tmod (ADDR_STATS_LEN : Int)
    let m := s.mapAddrCounter.filterMap (fun p =>
      let c := p.2.count - cellGet p.2 ip
      if c ≤ 0 then none
      else some (p.1, (⟨p.2.vecHistory.set ip.toNat 0, c⟩ : CAddrHistory)))
    let srt := (m.foldl (fun acc p => mmInsert p.2.count p.1 acc) []).map (fun p => p.2)
    { s with nIndexTime := it, nIndexPos := ip, mapAddrCounter := m, vecAddrSort := srt }
  else s

/-- `CAddrStat::AddAddress` (the returned `1` is dropped; only the state
effect matters to the claims). -/
def addAddress (now : Int) (a : Nat) (s : CAddrStat) : CAddrStat :=
  let s := updatePos now s
  let m := alEnsure CAddrHistory.init s.mapAddrCounter a
  let h := (alFind m a).getD CAddrHistory.init
  if h.count = 0 then
    { s with
      mapAddrCounter := alSet m a ⟨h.vecHistory.set s.nIndexPos.toNat 1, 1⟩,
      vecAddrSort := a :: s.vecAddrSort }
  else { s with mapAddrCounter := m }

/-- `CAddrStat::ConnectedAddress` (returns the updated running count and the
new state). -/
def connectedAddress (now : Int) (a : Nat) (n : Int) (s : CAddrStat) :
    Int × CAddrStat :=
  let s := updatePos now s
  let m := alEnsure CAddrHistory.init s.mapAddrCounter a
  let h0 := (alFind m a).getD CAddrHistory.init
  let h := if h0.count = 0 then (⟨h0.vecHistory.set s.nIndexPos.toNat 1, 1⟩ : CAddrHistory) else h0
  let vec := if h0.count = 0 then a :: s.vecAddrSort else s.vecAddrSort
  let h2 :=
    if cellGet h s.nIndexPos < statCap then
      (⟨h.vecHistory.set s.nIndexPos.toNat (cellGet h s.nIndexPos + n), h.count + n⟩ : CAddrHistory)
    else h
  (h2.count, { s with mapAddrCounter := alSet m a h2, vecAddrSort := vec })

/-- `CAddrStat::ResetHistory`.  Note that after zeroing the ring the current
window's cell is set to 2 (`vecHistory[nIndexPos] = 2`). -/
def resetHistory (a : Nat) (s : CAddrStat) : CAddrStat :=
  let m := alEnsure CAddrHistory.init s.mapAddrCounter a
  let h := (alFind m a).getD CAddrHistory.init
  if h.count ≤ 2 then { s with mapAddrCounter := m }
  else
    { s with mapAddrCounter :=
        alSet m a ⟨(List.replicate ADDR_STATS_LEN (0 : Int)).set s.nIndexPos.toNat 2, 2⟩ }

/-- `CAddrStat::GetAddrStat` (returns the score and the state mutated by the
embedded `UpdatePos`).  `INT_MAX/2 = 1073741823`. -/
def getAddrStat (now : Int) (a : Nat) (s : CAddrStat) : Int × CAddrStat :=
  let s := updatePos now s
  if a ∈ s.setAddrStatic then (1073741823, s)
  else
    match alFind s.mapAddrCounter a with
    | none => (0, s)
    | some h => (h.count, s)

/-- `CAddrStat::Select`.  The float draw `rn = rand()/RAND_MAX` is abstracted
as a rational `u ∈ [0,1)`; float arithmetic is idealized as exact rational
arithmetic and the float-to-int conversion as truncation (for the
non-negative quantities involved, the floor).  The below-quorum
default-constructed `CAddress()` return is modelled as `none`.
Note the first statement `nUnkBias = 100 - nUnkBias`. -/
def selectStat (nUnkBias : Int) (u : ℚ) (s : CAddrStat) : Option Nat :=
  let count := s.vecAddrSort.length
  if count < 3000 then none
  else
    let b : ℚ := 100 - (nUnkBias : ℚ)
    let i : Nat :=
      if 1 / 2 < u then
        ((((count : ℚ) - 1) * (b + (100 - b) * 2 * (u - 1 / 2)) / 100).floor).toNat
      else ((((count : ℚ) - 1) * (b * 2 * u) / 100).floor).toNat
    s.vecAddrSort.get? i

/-- The selection index exactly as the claim words it (no bias flip): weight
`(new_bias + (100-new_bias)·2·(u-1/2))/100` toward the high end for
`u > 1/2`, and `new_bias·2·u/100` toward the low end otherwise. -/
def selectIndexSpec (newBias : Int) (count : Nat) (u : ℚ) : Nat :=
  if 1 / 2 < u then
    ((((count : ℚ) - 1) * ((newBias : ℚ) + (100 - (newBias : ℚ)) * 2 * (u - 1 / 2)) / 100).floor).toNat
  else ((((count : ℚ) - 1) * ((newBias : ℚ) * 2 * u) / 100).floor).toNat

/-- The 16-byte serialized form of a `CNetAddr` key (modelled from the spec;
`netbase.h` is not in this snapshot): 16 little-endian bytes. -/
def natAddrBytes (a : Nat) : List Nat :=
  (List.range 16).map (fun k => a / 256 ^ k % 256)

def readNatAddr (s : List Nat) : Option (Nat × List Nat) :=
  match readNBytes 16 s with
  | none => none
  | some (bs, r) =>
      some ((List.range 16).foldr (fun k acc => bs.getD k 0 * 256 ^ k + acc) 0, r)

/-- Read `k` consecutive `i32` cells. -/
def readCells : Nat → List Nat → Option (List Int × List Nat)
  | 0, s => some ([], s)
  | k + 1, s =>
    match readI32 s with
    | none => none
    | some (c, s) =>
      match readCells k s with
      | none => none
      | some (cs, s) => some (c :: cs, s)

/-- `CAddrStat::IMPLEMENT_SERIALIZE`, write branch.  Returns the mutated
state and the produced byte stream: when more than `ADDR_STATS_MAX` entries
are tracked, the leading (lowest-scoring) excess of `vecAddrSort` is erased
from `mapAddrCounter` and from `vecAddrSort` before the entries are
written. -/
def writeAddrStat (s : CAddrStat) : CAddrStat × List Nat :=
  let nAddrCount : Nat := min s.vecAddrSort.length ADDR_STATS_MAX
  let k := s.vecAddrSort.length - nAddrCount
  let m := (s.vecAddrSort.take k).foldl (fun m a => alErase m a) s.mapAddrCounter
  let vec := s.vecAddrSort.drop k
  let step := fun (acc : List (Nat × CAddrHistory) × List Nat) (a : Nat) =>
    let m := alEnsure CAddrHistory.init acc.1 a
    let r := (alFind m a).getD CAddrHistory.init
    (m, acc.2 ++ natAddrBytes a ++
        ((List.range ADDR_STATS_LEN).map (fun i => i32Bytes (r.vecHistory.getD i 0))).flatten)
  let res := vec.foldl step (m, [])
  ({ s with mapAddrCounter := res.1, vecAddrSort := vec },
   i32Bytes s.nVersion ++ i32Bytes (nAddrCount : Int) ++ i32Bytes s.nIndexPos ++
     i64Bytes s.nIndexTime ++ res.2)

/-- The entry loop of the read branch: each streamed entry overwrites (or
creates) its key with `count` recomputed as the sum of the streamed ring
cells, and is inserted into the score multimap. -/
def readStatLoop :
    Nat → List (Nat × CAddrHistory) → List (Int × Nat) → List Nat →
    Option (List (Nat × CAddrHistory) × List (Int × Nat) × List Nat)
  | 0, m, srt, st => some (m, srt, st)
  | k + 1, m, srt, st =>
    match readNatAddr st with
    | none => none
    | some (a, st) =>
      match readCells ADDR_STATS_LEN st with
      | none => none
      | some (cells, st) =>
          readStatLoop k (alSet m a ⟨cells, cells.sum⟩) (mmInsert cells.sum a srt) st

/-- `CAddrStat::IMPLEMENT_SERIALIZE`, read branch, applied to an existing
state: the counter map is not cleared first, and `vecAddrSort` is rebuilt
from the streamed entries only. -/
def readAddrStat (s : CAddrStat) (stream : List Nat) : Option CAddrStat :=
  match readI32 stream with
  | none => none
  | some (ver, st) =>
  match readI32 st with
  | none => none
  | some (cnt, st) =>
  match readI32 st with
  | none => none
  | some (pos, st) =>
  match readI64 st with
  | none => none
  | some (tim, st) =>
  match readStatLoop cnt.toNat s.mapAddrCounter [] st with
  | none => none
  | some (m, srt, _) =>
      some { s with
        nVersion := ver
        nIndexPos := pos
        nIndexTime := tim
        mapAddrCounter := m
        vecAddrSort := srt.map (fun p => p.2) }

/-- `n` successive `UpdatePos` calls, each made exactly one window after the
state's current `nIndexTime`. -/
def advanceSteps : Nat → CAddrStat → CAddrStat
  | 0, s => s
  | k + 1, s => advanceSteps k (updatePos (s.nIndexTime + ADDR_STATS_WND) s)

/-- A run of `ConnectedAddress(a, 1)` calls at the given times. -/
def observeRun (a : Nat) (times : List Int) (s : CAddrStat) : CAddrStat :=
  times.foldl (fun s t => (connectedAddress t a 1 s).2) s

/-- Well-formedness of one tracked history: correct ring length,
non-negative cells bounded by the per-window cap, and the running count
equal to the sum of the ring cells. -/
def HistWF (h : CAddrHistory) : Prop :=
  h.vecHistory.length = ADDR_STATS_LEN ∧
  (∀ c ∈ h.vecHistory, 0 ≤ c ∧ c ≤ statCap) ∧
  h.count = h.vecHistory.sum

/-- State invariant for `CAddrStat`. -/
def StatInv (s : CAddrStat) : Prop :=
  0 ≤ s.nIndexPos ∧ s.nIndexPos < (ADDR_STATS_LEN : Int) ∧
  -2 ^ 31 ≤ s.nVersion ∧ s.nVersion < 2 ^ 31 ∧
  ∀ p ∈ s.mapAddrCounter, HistWF p.2

/-- States reachable from a fresh `CAddrStat` (constructed at time `t0` with
the hard-coded seeds) by the public operations; `ConnectedAddress` is used
with its default argument `n = 1`. -/
inductive ReachableStat : CAddrStat → Prop where
  | init (seeds : List Nat) (t0 : Int) : ReachableStat ⟨seeds, [], [], 1, 0, t0⟩
  | add (now : Int) (a : Nat) {s : CAddrStat} :
      ReachableStat s → ReachableStat (addAddress now a s)
  | conn (now : Int) (a : Nat) {s : CAddrStat} :
      ReachableStat s → ReachableStat (connectedAddress now a 1 s).2
  | reset (a : Nat) {s : CAddrStat} :
      ReachableStat s → ReachableStat (resetHistory a s)
  | stat (now : Int) (a : Nat) {s : CAddrStat} :
      ReachableStat s → ReachableStat (getAddrStat now a s).2
  | upd (now : Int) {s : CAddrStat} :
      ReachableStat s → ReachableStat (updatePos now s)
  | deser {s w s2 : CAddrStat} : ReachableStat s → ReachableStat w →
      readAddrStat s (writeAddrStat w).2 = some s2 → ReachableStat s2

/-! ## CAddrStat: concrete states for counterexamples and witnesses -/

/-- One tracked address with observations in two ring windows. -/
def statCexC2 : CAddrStat :=
  ⟨[], [(7, ⟨((List.replicate ADDR_STATS_LEN (0 : Int)).set 0 1).set 1 1, 2⟩)], [7], 1, 0, 0⟩

/-- One tracked address with three observations in the current window. -/
def statCexC6 : CAddrStat :=
  ⟨[], [(5, ⟨(List.replicate ADDR_STATS_LEN (0 : Int)).set 0 3, 3⟩)], [5], 1, 0, 0⟩

/-- A consistent state tracking 3000 addresses, each with one observation. -/
def statC5 : CAddrStat :=
  ⟨[], (List.range 3000).map (fun a => (a, ⟨(List.replicate ADDR_STATS_LEN (0 : Int)).set 0 1, 1⟩)),
   List.range 3000, 1, 0, 0⟩

/-! ## CAddrMan: configuration constants -/

def ADDRMAN_TRIED_BUCKET_COUNT : Nat := 64

def ADDRMAN_TRIED_BUCKET_SIZE : Nat := 64

def ADDRMAN_NEW_BUCKET_COUNT : Nat := 256

def ADDRMAN_NEW_BUCKET_SIZE : Nat := 64

def ADDRMAN_NEW_BUCKETS_PER_ADDRESS : Nat := 4

/-! ## CAddrMan: data model -/

/-- An endpoint (`CAddress` as serialized on the wire).  Modelled from the
spec: `protocol.h`/`netbase.h` are not part of this snapshot; the spec fixes
the 30-byte binary form as time `u32`, services `u64`, 16-byte IP, `u16`
port.  The in-memory `CAddress::nLastTry` field lives in `CAddrInfo` below
and is never serialized. -/
structure CAddress where
  nTime : Nat
  nServices : Nat
  ip : List Nat
  port : Nat
deriving DecidableEq

def addressBytes (a : CAddress) : List Nat :=
  u32Bytes a.nTime ++ u64Bytes a.nServices ++ a.ip ++ u16Bytes a.port

def readAddress (s : List Nat) : Option (CAddress × List Nat) :=
  match readU32 s with
  | none => none
  | some (t, s) =>
  match readU64 s with
  | none => none
  | some (sv, s) =>
  match readNBytes 16 s with
  | none => none
  | some (ip, s) =>
  match readU16 s with
  | none => none
  | some (p, s) => some (⟨t, sv, ip, p⟩, s)

/-- Extended statistics about a `CAddress` (`CAddrInfo`).  `source` is a
`CNetAddr`, serialized per the spec as its 16-byte IP. -/
structure CAddrInfo where
  addr : CAddress
  source : List Nat
  nLastSuccess : Int
  nLastTry : Int
  nAttempts : Int
  nRefCount : Int
  fInTried : Bool
  nRandomPos : Int
deriving DecidableEq

/-- `CAddrInfo::Init()` applied to a freshly constructed record. -/
def initFields (a : CAddress) (src : List Nat) : CAddrInfo :=
  ⟨a, src, 0, 0, 0, 0, false, -1⟩

/-- The default-constructed `CAddrInfo()` (endpoint contents abstracted as
zeroes; only ever created as a placeholder by `operator[]`). -/
def defaultAddrInfo : CAddrInfo := initFields ⟨0, 0, List.replicate 16 0, 0⟩ (List.replicate 16 0)

/-- `CAddrInfo::IMPLEMENT_SERIALIZE`, write direction: the `CAddress` base,
then `source`, `nLastSuccess`, `nAttempts`.  `nLastTry`, `nRefCount`,
`fInTried` and `nRandomPos` are not written. -/
def addrInfoBytes (i : CAddrInfo) : List Nat :=
  addressBytes i.addr ++ i.source ++ i64Bytes i.nLastSuccess ++ i32Bytes i.nAttempts

/-- `CAddrInfo::IMPLEMENT_SERIALIZE`, read direction, into a fresh
`Init()`ed record. -/
def readAddrInfo (s : List Nat) : Option (CAddrInfo × List Nat) :=
  match readAddress s with
  | none => none
  | some (a, s) =>
  match readNBytes 16 s with
  | none => none
  | some (src, s) =>
  match readI64 s with
  | none => none
  | some (ls, s) =>
  match readI32 s with
  | none => none
  | some (att, s) =>
      some ({ initFields a src with nLastSuccess := ls, nAttempts := att }, s)

/-- The record a reader reconstructs from `addrInfoBytes i`: the serialized
fields survive, the memory-only fields are re-`Init()`ed. -/
def readBase (i : CAddrInfo) : CAddrInfo :=
  { initFields i.addr i.source with nLastSuccess := i.nLastSuccess, nAttempts := i.nAttempts }

/-- Field ranges guaranteed by the C++ types. -/
def RecWF (i : CAddrInfo) : Prop :=
  i.addr.nTime < 2 ^ 32 ∧ i.addr.nServices < 2 ^ 64 ∧ i.addr.ip.length = 16 ∧
  i.addr.port < 2 ^ 16 ∧ i.source.length = 16 ∧
  -2 ^ 63 ≤ i.nLastSuccess ∧ i.nLastSuccess < 2 ^ 63 ∧
  -2 ^ 31 ≤ i.nAttempts ∧ i.nAttempts < 2 ^ 31

/-- The keyed hashes behind the bucket functions, abstracted.  Modelled from
the spec: `CAddrInfo::GetTriedBucket` and `CAddrInfo::GetNewBucket` are
declared in `src/addrman.h` but defined in `addrman.cpp`, which is not in
this snapshot; the spec fixes them as keyed double-SHA256 constructions
reduced by the final `mod`.  Only the ranges and determinism matter to the
claims, so the hash cores are parameters. -/
structure BucketHash where
  hTried : List Nat → CAddress → Nat
  hNew : List Nat → CAddress → List Nat → Nat

/-- Modelled from the spec: tried bucket of an endpoint, `... mod 64`. -/
def getTriedBucket (B : BucketHash) (key : List Nat) (a : CAddress) : Nat :=
  B.hTried key a % ADDRMAN_TRIED_BUCKET_COUNT

/-- Modelled from the spec: new bucket of an endpoint given a source,
`... mod 256`. -/
def getNewBucket (B : BucketHash) (key : List Nat) (a : CAddress) (src : List Nat) : Nat :=
  B.hNew key a src % ADDRMAN_NEW_BUCKET_COUNT

/-- The `CAddrMan` state.  `mapAddr` is keyed by the `CNetAddr` slice of the
entry, i.e. its IP. -/
structure CAddrMan where
  nKey : List Nat
  nIdCount : Int
  mapInfo : List (Int × CAddrInfo)
  mapAddr : List (List Nat × Int)
  vRandom : List Int
  nTried : Int
  nNew : Int
  vvTried : List (List Int)
  vvNew : List (List Int)
deriving DecidableEq

/-! ## CAddrMan: serialization, write branch -/

/-- First write loop: serialize the `new` records in `mapInfo` iteration
order, stopping once `nNew` records were written, and record each visited
id's prospective index (`mapUnkIds[(*it).first] = nIds` runs for every
visited entry, written or not). -/
def writeNewAux (nNew : Int) : List (Int × CAddrInfo) → Int → List (Int × Int) × List Nat
  | [], _ => ([], [])
  | (id, info) :: rest, nIds =>
    if nIds = nNew then ([], [])
    else
      if info.nRefCount != 0 then
        let r := writeNewAux nNew rest (nIds + 1)
        ((id, nIds) :: r.1, addrInfoBytes info ++ r.2)
      else
        let r := writeNewAux nNew rest nIds
        ((id, nIds) :: r.1, r.2)

/-- Second write loop: the `tried` records in `mapInfo` iteration order,
stopping once `nTried` records were written. -/
def writeTriedAux (nTried : Int) : List (Int × CAddrInfo) → Int → List Nat
  | [], _ => []
  | (_, info) :: rest, nIds =>
    if nIds = nTried then []
    else if info.fInTried then addrInfoBytes info ++ writeTriedAux nTried rest (nIds + 1)
    else writeTriedAux nTried rest nIds

/-- Third write loop: for each `new` bucket its size, then the `mapUnkIds`
index of each member (`operator[]` on `mapUnkIds` defaults to 0 for an
unvisited id). -/
def writeBucketsBytes (mu : List (Int × Int)) (vvNew : List (List Int)) : List Nat :=
  (vvNew.map (fun bkt =>
    i32Bytes (bkt.length : Int) ++
      (bkt.map (fun id => i32Bytes ((alFind mu id).getD 0))).flatten)).flatten

/-- `CAddrMan::IMPLEMENT_SERIALIZE`, write branch: version byte 0, the
32-byte key (`serialize.h` is not in this snapshot; per the spec the key is
written as its 32 raw bytes), `nNew`, `nTried`, the new-bucket count, the
`new` records, the `tried` records, then the per-bucket index lists. -/
def serializeAddrMan (s : CAddrMan) : List Nat :=
  u8Bytes 0 ++ s.nKey ++ i32Bytes s.nNew ++ i32Bytes s.nTried ++
  i32Bytes (ADDRMAN_NEW_BUCKET_COUNT : Int) ++
  (writeNewAux s.nNew s.mapInfo 0).2 ++
  writeTriedAux s.nTried s.mapInfo 0 ++
  writeBucketsBytes (writeNewAux s.nNew s.mapInfo 0).1 s.vvNew

/-! ## CAddrMan: serialization, read branch -/

/-- Deserialization outcomes distinguished by the total embedding: a
truncated stream, or a vector access out of bounds (the C++ undefined
behaviour). -/
inductive DeErr where
  | underrun
  | oob
deriving DecidableEq

/-- Checked `std::vector` indexing. -/
def getBucket (vv : List (List Int)) (b : Nat) : Except DeErr (List Int) :=
  match vv.get? b with
  | some l => Except.ok l
  | none => Except.error DeErr.oob

/-- Read loop over the `nNew` records (`n` is the id counter).  When the
stored bucket count differs from `ADDRMAN_NEW_BUCKET_COUNT` each record is
inserted into the bucket freshly computed from its own source and its
reference count is incremented. -/
def readNewLoop (B : BucketHash) (nUB : Int) :
    Nat → CAddrMan → Int → List Nat → Except DeErr (CAddrMan × List Nat)
  | 0, st, _, stream => Except.ok (st, stream)
  | k + 1, st, n, stream =>
    match readAddrInfo stream with
    | none => Except.error DeErr.underrun
    | some (info0, stream) =>
      let info1 := { info0 with nRandomPos := (st.vRandom.length : Int) }
      let st1 := { st with
        mapInfo := alSet st.mapInfo n info1,
        mapAddr := alSet st.mapAddr info1.addr.ip n,
        vRandom := st.vRandom ++ [n] }
      if nUB = (ADDRMAN_NEW_BUCKET_COUNT : Int) then
        readNewLoop B nUB k st1 (n + 1) stream
      else
        let b := getNewBucket B st1.nKey info1.addr info1.source
        match getBucket st1.vvNew b with
        | Except.error e => Except.error e
        | Except.ok bkt =>
          let st2 := { st1 with
            vvNew := st1.vvNew.set b (if n ∈ bkt then bkt else bkt ++ [n]),
            mapInfo := alSet st1.mapInfo n { info1 with nRefCount := info1.nRefCount + 1 } }
          readNewLoop B nUB k st2 (n + 1) stream

/-- Read loop over the `nTried` records: a record whose (recomputed) tried
bucket is already full is dropped and counted in `nLost`. -/
def readTriedLoop (B : BucketHash) :
    Nat → CAddrMan → Nat → List Nat → Except DeErr (CAddrMan × Nat × List Nat)
  | 0, st, nLost, stream => Except.ok (st, nLost, stream)
  | k + 1, st, nLost, stream =>
    match readAddrInfo stream with
    | none => Except.error DeErr.underrun
    | some (info0, stream) =>
      let b := getTriedBucket B st.nKey info0.addr
      match getBucket st.vvTried b with
      | Except.error e => Except.error e
      | Except.ok bkt =>
        if bkt.length < ADDRMAN_TRIED_BUCKET_SIZE then
          let info1 := { info0 with nRandomPos := (st.vRandom.length : Int), fInTried := true }
          let st1 := { st with
            vRandom := st.vRandom ++ [st.nIdCount],
            mapInfo := alSet st.mapInfo st.nIdCount info1,
            mapAddr := alSet st.mapAddr info1.addr.ip st.nIdCount,
            vvTried := st.vvTried.set b (bkt ++ [st.nIdCount]),
            nIdCount := st.nIdCount + 1 }
          readTriedLoop B k st1 nLost stream
        else readTriedLoop B k st (nLost + 1) stream

/-- Inner read loop over one persisted bucket list: `mapInfo[nIndex]` is
looked up through `operator[]` (default-constructing a placeholder for an
unknown index), and the membership is applied only when the stored bucket
count equals the current constant and the entry's reference count is below
`ADDRMAN_NEW_BUCKETS_PER_ADDRESS`. -/
def readBucketInner (nUB : Int) :
    Nat → CAddrMan → Nat → List Nat → Except DeErr (CAddrMan × List Nat)
  | 0, st, _, stream => Except.ok (st, stream)
  | k + 1, st, b, stream =>
    match readI32 stream with
    | none => Except.error DeErr.underrun
    | some (idx, stream) =>
      let m0 := alEnsure defaultAddrInfo st.mapInfo idx
      let info := (alFind m0 idx).getD defaultAddrInfo
      if nUB = (ADDRMAN_NEW_BUCKET_COUNT : Int) ∧
          info.nRefCount < (ADDRMAN_NEW_BUCKETS_PER_ADDRESS : Nat) then
        match getBucket st.vvNew b with
        | Except.error e => Except.error e
        | Except.ok bkt =>
          readBucketInner nUB k
            { st with
              mapInfo := alSet m0 idx { info with nRefCount := info.nRefCount + 1 },
              vvNew := st.vvNew.set b (if idx ∈ bkt then bkt else bkt ++ [idx]) }
            b stream
      else readBucketInner nUB k { st with mapInfo := m0 } b stream

/-- Outer read loop over the stored bucket count: the bucket reference
`vvNew[b]` is taken before the size is read. -/
def readBucketLoop (nUB : Int) :
    Nat → CAddrMan → Nat → List Nat → Except DeErr (CAddrMan × List Nat)
  | 0, st, _, stream => Except.ok (st, stream)
  | k + 1, st, b, stream =>
    match getBucket st.vvNew b with
    | Except.error e => Except.error e
    | Except.ok _ =>
      match readI32 stream with
      | none => Except.error DeErr.underrun
      | some (sz, stream) =>
        match readBucketInner nUB sz.toNat st b stream with
        | Except.error e => Except.error e
        | Except.ok (st1, stream) => readBucketLoop nUB k st1 (b + 1) stream

/-- `CAddrMan::IMPLEMENT_SERIALIZE`, read branch. -/
def deserializeAddrMan (B : BucketHash) (stream : List Nat) : Except DeErr CAddrMan :=
  match readU8 stream with
  | none => Except.error DeErr.underrun
  | some (_, s1) =>
  match readNBytes 32 s1 with
  | none => Except.error DeErr.underrun
  | some (key, s2) =>
  match readI32 s2 with
  | none => Except.error DeErr.underrun
  | some (nNew, s3) =>
  match readI32 s3 with
  | none => Except.error DeErr.underrun
  | some (nTried, s4) =>
  match readI32 s4 with
  | none => Except.error DeErr.underrun
  | some (nUB, s5) =>
    let st0 : CAddrMan :=
      { nKey := key, nIdCount := 0, mapInfo := [], mapAddr := [], vRandom := [],
        nTried := nTried, nNew := nNew,
        vvTried := List.replicate ADDRMAN_TRIED_BUCKET_COUNT [],
        vvNew := List.replicate ADDRMAN_NEW_BUCKET_COUNT [] }
    match readNewLoop B nUB nNew.toNat st0 0 s5 with
    | Except.error e => Except.error e
    | Except.ok (st1, s6) =>
      match readTriedLoop B nTried.toNat { st1 with nIdCount := st1.nNew } 0 s6 with
      | Except.error e => Except.error e
      | Except.ok (st2, nLost, s7) =>
        match readBucketLoop nUB nUB.toNat { st2 with nTried := st2.nTried - (nLost : Int) } 0 s7 with
        | Except.error e => Except.error e
        | Except.ok (st3, _) => Except.ok st3

/-! ## CAddrMan: derived views and well-formedness -/

/-- The `new`-tier records, in `mapInfo` iteration order. -/
def newInfos (s : CAddrMan) : List (Int × CAddrInfo) :=
  s.mapInfo.filter (fun p => p.2.nRefCount != 0)

/-- The `tried`-tier records, in `mapInfo` iteration order. -/
def triedInfos (s : CAddrMan) : List (Int × CAddrInfo) :=
  s.mapInfo.filter (fun p => p.2.fInTried)

def newIdsOf (s : CAddrMan) : List Int := (newInfos s).map (fun p => p.1)

/-- The persisted record fields of an entry: endpoint, source,
`nLastSuccess`, `nAttempts`. -/
def infoTuple (i : CAddrInfo) : CAddress × List Nat × Int × Int :=
  (i.addr, i.source, i.nLastSuccess, i.nAttempts)

def triedTuples (s : CAddrMan) : List (CAddress × List Nat × Int × Int) :=
  (triedInfos s).map (fun p => infoTuple p.2)

def newTuples (s : CAddrMan) : List (CAddress × List Nat × Int × Int) :=
  (newInfos s).map (fun p => infoTuple p.2)

/-- The endpoints reachable through the `new` buckets. -/
def newReachableAddrs (s : CAddrMan) : List CAddress :=
  s.vvNew.flatten.filterMap (fun id => (alFind s.mapInfo id).map (fun i => i.addr))

/-- Total occurrences of an id across the `new` buckets. -/
def bucketOccurrences (vv : List (List Int)) (id : Int) : Nat :=
  (vv.map (fun b => b.count id)).sum

/-- The serialized stream exactly as the claim lays it out: version byte 0,
the 32-byte key, `n_new`, `n_tried`, the bucket count 256, the `new`
records, the `tried` records, then for each of the 256 new buckets its size
followed by that many 0-based indices into the new records array.  Each
record is the endpoint wire form, the 16-byte source, `last_success` as
`i64` and `attempts` as `i32` — and nothing else. -/
def claimLayoutBytes (s : CAddrMan) : List Nat :=
  u8Bytes 0 ++ s.nKey ++ i32Bytes s.nNew ++ i32Bytes s.nTried ++ i32Bytes 256 ++
  ((newInfos s).map (fun p =>
    addressBytes p.2.addr ++ p.2.source ++ i64Bytes p.2.nLastSuccess ++
      i32Bytes p.2.nAttempts)).flatten ++
  ((triedInfos s).map (fun p =>
    addressBytes p.2.addr ++ p.2.source ++ i64Bytes p.2.nLastSuccess ++
      i32Bytes p.2.nAttempts)).flatten ++
  (s.vvNew.map (fun bkt =>
    i32Bytes (bkt.length : Int) ++
      (bkt.map (fun id => i32Bytes (((newIdsOf s).indexOf id : Nat) : Int))).flatten)).flatten

/-- The invariants of spec section 3 that the serialization claims rest on
(stated as the consequences actually used; each follows from invariants
1-6 of the spec).  Together with the C++ type ranges. -/
def AddrManWF (B : BucketHash) (s : CAddrMan) : Prop :=
  s.nKey.length = 32 ∧
  s.vvNew.length = ADDRMAN_NEW_BUCKET_COUNT ∧
  s.vvTried.length = ADDRMAN_TRIED_BUCKET_COUNT ∧
  s.mapInfo.length < 2 ^ 31 ∧
  s.nNew = ((newInfos s).length : Int) ∧
  s.nTried = ((triedInfos s).length : Int) ∧
  (s.mapInfo.map (fun p => p.1)).Nodup ∧
  (∀ p ∈ s.mapInfo, RecWF p.2) ∧
  (∀ p ∈ s.mapInfo, ¬(p.2.nRefCount != 0 ∧ p.2.fInTried)) ∧
  (∀ p ∈ s.mapInfo, p.2.nRefCount != 0 →
      (bucketOccurrences s.vvNew p.1 : Int) = p.2.nRefCount) ∧
  (∀ bkt ∈ s.vvNew, bkt.Nodup ∧ ∀ id ∈ bkt,
      ∃ info, alFind s.mapInfo id = some info ∧ info.nRefCount != 0) ∧
  (∀ b, ((triedInfos s).filter
      (fun p => getTriedBucket B s.nKey p.2.addr = b)).length ≤ ADDRMAN_TRIED_BUCKET_SIZE) ∧
  (∀ bkt ∈ s.vvNew, bkt.length ≤ ADDRMAN_NEW_BUCKET_SIZE) ∧
  (∀ p ∈ s.mapInfo, 0 ≤ p.2.nRefCount ∧
      p.2.nRefCount ≤ ((ADDRMAN_NEW_BUCKETS_PER_ADDRESS : Nat) : Int))

/-! ## Auxiliary predicates and pure phase functions used by the proofs -/

/-- The last `r` ring positions ending at `p` (cyclically) hold 0. -/
def zeroRun (h : CAddrHistory) (p : Int) (r : Nat) : Prop :=
  ∀ j < r, cellGet h ((p - (j : Int)) % (ADDR_STATS_LEN : Int)) = 0

/-- The sorted view lists each tracked address once. -/
def StatVecWF (s : CAddrStat) : Prop :=
  s.vecAddrSort.Nodup ∧ ∀ a ∈ s.vecAddrSort, (alFind s.mapAddrCounter a).isSome

/-- Pure form of the `new`-record read loop for an unchanged bucket count
(the `nUBuckets == ADDRMAN_NEW_BUCKET_COUNT` path). -/
def newPhase (st : CAddrMan) (n : Int) : List CAddrInfo → CAddrMan
  | [] => st
  | rec :: rest =>
    newPhase { st with
      mapInfo := alSet st.mapInfo n { readBase rec with nRandomPos := (st.vRandom.length : Int) },
      mapAddr := alSet st.mapAddr rec.addr.ip n,
      vRandom := st.vRandom ++ [n] } (n + 1) rest

/-- The `mapInfo` segment produced by `newPhase` starting at id `n` and
random position `r`. -/
def enumNew : Int → Nat → List CAddrInfo → List (Int × CAddrInfo)
  | _, _, [] => []
  | n, r, rec :: rest =>
      (n, { readBase rec with nRandomPos := (r : Int) }) :: enumNew (n + 1) (r + 1) rest

/-- Pure form of the `tried`-record read loop when no record is lost. -/
def triedPhase (B : BucketHash) (st : CAddrMan) : List CAddrInfo → CAddrMan
  | [] => st
  | rec :: rest =>
    let b := getTriedBucket B st.nKey rec.addr
    let bkt := st.vvTried.getD b []
    triedPhase B { st with
      vRandom := st.vRandom ++ [st.nIdCount],
      mapInfo := alSet st.mapInfo st.nIdCount
        { readBase rec with nRandomPos := (st.vRandom.length : Int), fInTried := true },
      mapAddr := alSet st.mapAddr rec.addr.ip st.nIdCount,
      vvTried := st.vvTried.set b (bkt ++ [st.nIdCount]),
      nIdCount := st.nIdCount + 1 } rest

/-- The `mapInfo` segment produced by `triedPhase` starting at id `n` and
random position `r`. -/
def enumTried : Int → Nat → List CAddrInfo → List (Int × CAddrInfo)
  | _, _, [] => []
  | n, r, rec :: rest =>
      (n, { readBase rec with nRandomPos := (r : Int), fInTried := true }) ::
        enumTried (n + 1) (r + 1) rest

/-- Pure form of the inner bucket-list read loop when every index is known,
below its reference cap and not yet in the bucket. -/
def bucketApply (st : CAddrMan) (b : Nat) : List Int → CAddrMan
  | [] => st
  | idx :: rest =>
      let info := (alFind st.mapInfo idx).getD defaultAddrInfo
      bucketApply { st with
        mapInfo := alSet st.mapInfo idx { info with nRefCount := info.nRefCount + 1 },
        vvNew := st.vvNew.set b ((st.vvNew.getD b []) ++ [idx]) } b rest

/-- Pure form of the outer bucket read loop. -/
def bucketPhase (st : CAddrMan) : List (List Int) → Nat → CAddrMan
  | [], _ => st
  | L :: rest, b => bucketPhase (bucketApply st b L) rest (b + 1)

/-- Total occurrences of an index across a list of bucket lists. -/
def occAll (LL : List (List Int)) (idx : Int) : Nat :=
  (LL.map (fun L => L.count idx)).sum

/-- The serialized per-bucket section for given bucket lists. -/
def bucketBytesOf (LL : List (List Int)) : List Nat :=
  (LL.map (fun L => i32Bytes (L.length : Int) ++ (L.map i32Bytes).flatten)).flatten

/-- A concrete bucket-hash instance for witnesses. -/
def bhW : BucketHash := ⟨fun _ a => a.port, fun _ a _ => a.port + 7⟩

/-- A concrete `new`-tier record for witnesses. -/
def infoW0 : CAddrInfo :=
  { initFields ⟨11, 1, List.replicate 16 3, 5⟩ (List.replicate 16 9) with
    nRefCount := 1, nLastSuccess := 42, nAttempts := 2 }

/-- A concrete `tried`-tier record for witnesses. -/
def infoW1 : CAddrInfo :=
  { initFields ⟨12, 1, List.replicate 16 4, 6⟩ (List.replicate 16 9) with
    fInTried := true, nLastSuccess := 99 }

/-- A small well-formed `CAddrMan` state (one `new` entry, one `tried`
entry) for witnesses. -/
def addrManW : CAddrMan :=
  { nKey := List.replicate 32 1, nIdCount := 2,
    mapInfo := [(0, infoW0), (1, infoW1)],
    mapAddr := [(List.replicate 16 3, 0), (List.replicate 16 4, 1)],
    vRandom := [0, 1], nTried := 1, nNew := 1,
    vvTried := (List.replicate ADDRMAN_TRIED_BUCKET_COUNT ([] : List Int)).set
      (getTriedBucket bhW (List.replicate 32 1) infoW1.addr) [1],
    vvNew := (List.replicate ADDRMAN_NEW_BUCKET_COUNT ([] : List Int)).set
      (getNewBucket bhW (List.replicate 32 1) infoW0.addr infoW0.source) [0] }

/-- The shape produced by the fresh-rebucket read path (stored bucket count
different from 256): every record with a nonzero reference count has
reference count exactly 1 and occurs exactly once across the new buckets,
namely in the bucket freshly computed from its own stored source, and every
bucket member is a tracked record with nonzero reference count. -/
def FreshInv (B : BucketHash) (st : CAddrMan) : Prop :=
  (∀ p ∈ st.mapInfo, p.2.nRefCount ≠ 0 → p.2.nRefCount = 1 ∧
    (st.vvNew.getD (getNewBucket B st.nKey p.2.addr p.2.source) []).count p.1 = 1 ∧
    bucketOccurrences st.vvNew p.1 = 1) ∧
  (∀ bkt ∈ st.vvNew, ∀ id ∈ bkt, ∃ info, alFind st.mapInfo id = some info ∧ info.nRefCount ≠ 0)

/-- The `new`-tier records themselves, in serialization order. -/
def newRecsOf (s : CAddrMan) : List CAddrInfo := (newInfos s).map (fun p => p.2)

/-- The `tried`-tier records themselves, in serialization order. -/
def triedRecsOf (s : CAddrMan) : List CAddrInfo := (triedInfos s).map (fun p => p.2)

/-- The persisted bucket lists: each member id replaced by its 0-based rank
in the `new` records array. -/
def rankBucketsOf (s : CAddrMan) : List (List Int) :=
  s.vvNew.map (fun bkt => bkt.map (fun id => (((newIdsOf s).indexOf id : Nat) : Int)))

/-- The record produced by re-reading `infoW0`'s serialized form. -/
def recW4 : CAddrInfo :=
  { addr := ⟨11, 1, List.replicate 16 3, 5⟩, source := List.replicate 16 9,
    nLastSuccess := 42, nLastTry := 0, nAttempts := 2, nRefCount := 1,
    fInTried := false, nRandomPos := 0 }

/-- The state obtained by deserializing one `new` record under a stored
bucket count of 0 (fresh-rebucket path). -/
def addrManW4 : CAddrMan :=
  { nKey := List.replicate 32 0, nIdCount := 1, mapInfo := [(0, recW4)],
    mapAddr := [(List.replicate 16 3, 0)], vRandom := [0], nTried := 0, nNew := 1,
    vvTried := List.replicate 64 [], vvNew := (List.replicate 256 []).set 12 [0] }

/-! # Theorems

General helper lemmas, then the claims in order. -/

theorem getD_set_self {α : Type} (l : List α) (i : Nat) (v d : α) (h : i < l.length) :
    (l.set i v).getD i d = v := by
  rw [List.getD, List.get?_eq_getElem?, List.getElem?_set_self', List.getElem?_eq_getElem h]
  simp [Function.const]

theorem getD_set_ne {α : Type} (l : List α) (i j : Nat) (v d : α) (h : i ≠ j) :
    (l.set i v).getD j d = l.getD j d := by
  rw [List.getD, List.getD, List.get?_eq_getElem?, List.get?_eq_getElem?,
    List.getElem?_set_ne h]

theorem getD_mem {α : Type} (l : List α) (i : Nat) (d : α) (h : i < l.length) :
    l.getD i d ∈ l := by
  rw [List.getD, List.get?_eq_getElem?, List.getElem?_eq_getElem h]
  exact List.getElem_mem h

theorem intSum_set (l : List Int) (i : Nat) (v : Int) (h : i < l.length) :
    (l.set i v).sum = l.sum - l.getD i 0 + v := by
  induction l generalizing i with
  | nil => simp at h
  | cons x t ih =>
    cases i with
    | zero => simp [List.getD]; ring
    | succ j =>
      have hj : j < t.length := by simpa using h
      simp only [List.set, List.sum_cons, ih j hj]
      rw [List.getD_cons_succ]
      ring

theorem intSum_zero_all (l : List Int) (h : ∀ x ∈ l, x = 0) : l.sum = 0 := by
  induction l with
  | nil => rfl
  | cons x t ih =>
    rw [List.sum_cons, h x (by simp), ih (fun y hy => h y (by simp [hy]))]
    ring

theorem all_zero_of_sum_zero (l : List Int) (hpos : ∀ x ∈ l, 0 ≤ x) (hsum : l.sum = 0) :
    ∀ x ∈ l, x = 0 := by
  induction l with
  | nil => simp
  | cons x t ih =>
    have hts : 0 ≤ t.sum := List.sum_nonneg (fun y hy => hpos y (by simp [hy]))
    have hx0 : 0 ≤ x := hpos x (by simp)
    rw [List.sum_cons] at hsum
    have hx : x = 0 := by omega
    intro y hy
    rcases List.mem_cons.mp hy with rfl | hy2
    · exact hx
    · exact ih (fun z hz => hpos z (by simp [hz])) (by omega) y hy2

/-! ## Codec roundtrips -/

theorem readU8_roundtrip (v : Nat) (r : List Nat) (h : v < 256) :
    readU8 (u8Bytes v ++ r) = some (v, r) := by
  simp [readU8, u8Bytes, Nat.mod_eq_of_lt h]

theorem readU16_roundtrip (v : Nat) (r : List Nat) (h : v < 2 ^ 16) :
    readU16 (u16Bytes v ++ r) = some (v, r) := by
  simp only [u16Bytes, List.cons_append, List.nil_append, readU16]
  congr 1
  congr 1
  omega

theorem readU32_roundtrip (v : Nat) (r : List Nat) (h : v < 2 ^ 32) :
    readU32 (u32Bytes v ++ r) = some (v, r) := by
  simp only [u32Bytes, List.cons_append, List.nil_append, readU32]
  congr 1
  congr 1
  omega

theorem readU64_roundtrip (v : Nat) (r : List Nat) (h : v < 2 ^ 64) :
    readU64 (u64Bytes v ++ r) = some (v, r) := by
  simp only [u64Bytes, List.cons_append, List.nil_append, readU64]
  congr 1
  congr 1
  omega

theorem readI32_roundtrip (x : Int) (r : List Nat) (h1 : -2 ^ 31 ≤ x) (h2 : x < 2 ^ 31) :
    readI32 (i32Bytes x ++ r) = some (x, r) := by
  have hm0 : 0 ≤ x % 2 ^ 32 := Int.emod_nonneg x (by norm_num)
  have hm1 : x % 2 ^ 32 < 2 ^ 32 := Int.emod_lt_of_pos x (by norm_num)
  have hd : decodeI32 (x % 2 ^ 32).toNat = x := by
    unfold decodeI32
    split
    all_goals omega
  rw [readI32, i32Bytes, readU32_roundtrip _ _ (by omega)]
  simp only [Option.map_some']
  rw [hd]

theorem readI64_roundtrip (x : Int) (r : List Nat) (h1 : -2 ^ 63 ≤ x) (h2 : x < 2 ^ 63) :
    readI64 (i64Bytes x ++ r) = some (x, r) := by
  have hm0 : 0 ≤ x % 2 ^ 64 := Int.emod_nonneg x (by norm_num)
  have hm1 : x % 2 ^ 64 < 2 ^ 64 := Int.emod_lt_of_pos x (by norm_num)
  have hd : decodeI64 (x % 2 ^ 64).toNat = x := by
    unfold decodeI64
    split
    all_goals omega
  rw [readI64, i64Bytes, readU64_roundtrip _ _ (by omega)]
  simp only [Option.map_some']
  rw [hd]

theorem readI64_consumes (x : Int) (r : List Nat) :
    ∃ y, readI64 (i64Bytes x ++ r) = some (y, r) := by
  have hm0 : 0 ≤ x % 2 ^ 64 := Int.emod_nonneg x (by norm_num)
  have hm1 : x % 2 ^ 64 < 2 ^ 64 := Int.emod_lt_of_pos x (by norm_num)
  rw [readI64, i64Bytes, readU64_roundtrip _ _ (by omega)]
  simp only [Option.map_some']
  exact ⟨decodeI64 (x % 2 ^ 64).toNat, rfl⟩

theorem readNBytes_roundtrip (k : Nat) (bs r : List Nat) (h : bs.length = k) :
    readNBytes k (bs ++ r) = some (bs, r) := by
  rw [readNBytes, if_neg (by simp [h]), List.take_left' h, List.drop_left' h]

theorem readNatAddr_consumes (a : Nat) (r : List Nat) :
    ∃ a2, readNatAddr (natAddrBytes a ++ r) = some (a2, r) := by
  have hlen : (natAddrBytes a).length = 16 := by simp [natAddrBytes]
  rw [readNatAddr, readNBytes_roundtrip 16 _ _ hlen]
  exact ⟨_, rfl⟩

/-! ## Association list lemmas -/

theorem alFind_mem {α β : Type} [DecidableEq α] (m : List (α × β)) (a : α) (v : β)
    (h : alFind m a = some v) : (a, v) ∈ m := by
  induction m with
  | nil => simp [alFind] at h
  | cons p t ih =>
    obtain ⟨k, w⟩ := p
    rw [alFind] at h
    split at h
    · rename_i hk
      cases h
      subst hk
      exact List.mem_cons_self _ _
    · exact List.mem_cons_of_mem _ (ih h)

theorem alFind_alSet_self {α β : Type} [DecidableEq α] (m : List (α × β)) (a : α) (v : β) :
    alFind (alSet m a v) a = some v := by
  induction m with
  | nil => simp [alSet, alFind]
  | cons p t ih =>
    obtain ⟨k, w⟩ := p
    rw [alSet]
    split
    · rename_i hk
      rw [alFind, if_pos hk]
    · rw [alFind]
      split
      · rename_i hk2
        exact absurd hk2 (by assumption)
      · exact ih

theorem alFind_alSet_ne {α β : Type} [DecidableEq α] (m : List (α × β)) (a b : α) (v : β)
    (h : b ≠ a) : alFind (alSet m a v) b = alFind m b := by
  induction m with
  | nil =>
    rw [alSet]
    simp only [alFind]
    rw [if_neg (fun hh => h (Eq.symm hh))]
  | cons p t ih =>
    obtain ⟨k, w⟩ := p
    rw [alSet]
    split
    · rename_i hk
      subst hk
      rw [alFind, alFind, if_neg (fun hh => h (Eq.symm hh)), if_neg (fun hh => h (Eq.symm hh))]
    · rw [alFind, alFind]
      split
      · rfl
      · exact ih

theorem mem_alSet {α β : Type} [DecidableEq α] (m : List (α × β)) (a : α) (v : β)
    (p : α × β) (h : p ∈ alSet m a v) : p = (a, v) ∨ p ∈ m := by
  induction m with
  | nil => simpa [alSet] using h
  | cons q t ih =>
    obtain ⟨k, w⟩ := q
    rw [alSet] at h
    split at h
    · rename_i hk
      subst hk
      rcases List.mem_cons.mp h with rfl | h2
      · exact Or.inl rfl
      · exact Or.inr (List.mem_cons_of_mem _ h2)
    · rcases List.mem_cons.mp h with rfl | h2
      · exact Or.inr (List.mem_cons_self _ _)
      · rcases ih h2 with h3 | h3
        · exact Or.inl h3
        · exact Or.inr (List.mem_cons_of_mem _ h3)

theorem alSet_of_not_found {α β : Type} [DecidableEq α] (m : List (α × β)) (a : α) (v : β)
    (h : alFind m a = none) : alSet m a v = m ++ [(a, v)] := by
  induction m with
  | nil => simp [alSet]
  | cons q t ih =>
    obtain ⟨k, w⟩ := q
    rw [alFind] at h
    split at h
    · cases h
    · rw [alSet, if_neg (by assumption), List.cons_append, ih h]

theorem mem_alEnsure {α β : Type} [DecidableEq α] (d : β) (m : List (α × β)) (a : α)
    (p : α × β) (h : p ∈ alEnsure d m a) : p = (a, d) ∨ p ∈ m := by
  rw [alEnsure] at h
  split at h
  · exact Or.inr h
  · rcases List.mem_append.mp h with h2 | h2
    · exact Or.inr h2
    · exact Or.inl (by simpa using h2)

theorem alFind_alEnsure_getD {α β : Type} [DecidableEq α] (d : β) (m : List (α × β)) (a b : α) :
    (alFind (alEnsure d m a) b).getD d = (alFind m b).getD d := by
  rw [alEnsure]
  split
  · rfl
  · rename_i hnone
    induction m with
    | nil =>
      rw [List.nil_append, alFind, alFind]
      split
      · rfl
      · rfl
    | cons q t ih =>
      obtain ⟨k, w⟩ := q
      rw [alFind] at hnone
      split at hnone
      · cases hnone
      · rw [List.cons_append, alFind, alFind]
        split
        · rfl
        · exact ih hnone

theorem alFind_alEnsure_self {α β : Type} [DecidableEq α] (d : β) (m : List (α × β)) (a : α) :
    alFind (alEnsure d m a) a = some ((alFind m a).getD d) := by
  rw [alEnsure]
  cases hf : alFind m a with
  | some v => simp [hf]
  | none =>
    simp only [Option.getD_none]
    induction m with
    | nil => simp [alFind]
    | cons q t ih =>
      obtain ⟨k, w⟩ := q
      rw [alFind] at hf
      split at hf
      · cases hf
      · rw [List.cons_append, alFind, if_neg (by assumption)]
        exact ih hf

theorem alErase_find {α β : Type} [DecidableEq α] (m : List (α × β)) (a b : α) :
    alFind (alErase m a) b = if b = a then none else alFind m b := by
  induction m with
  | nil => simp [alErase, alFind]
  | cons q t ih =>
    obtain ⟨k, w⟩ := q
    rw [alErase] at ih ⊢
    rw [List.filter_cons]
    by_cases hk : k = a
    · rw [if_neg (by simp [hk]), ih]
      by_cases hba : b = a
      · rw [if_pos hba, if_pos hba]
      · rw [if_neg hba, if_neg hba, alFind, if_neg (fun hkb2 => hba (hkb2.symm.trans hk))]
    · rw [if_pos (by simpa using hk), alFind]
      by_cases hkb : k = b
      · rw [if_pos hkb, if_neg (fun h => hk (hkb.trans h)), alFind, if_pos hkb]
      · rw [if_neg hkb, ih]
        by_cases hba : b = a
        · rw [if_pos hba, if_pos hba]
        · rw [if_neg hba, if_neg hba, alFind, if_neg hkb]

theorem mem_alErase {α β : Type} [DecidableEq α] (m : List (α × β)) (a : α)
    (p : α × β) (h : p ∈ alErase m a) : p ∈ m :=
  List.mem_of_mem_filter h

theorem alFind_append_left {α β : Type} [DecidableEq α] (A B : List (α × β)) (a : α) (v : β)
    (h : alFind A a = some v) : alFind (A ++ B) a = some v := by
  induction A with
  | nil => cases h
  | cons q t ih =>
    obtain ⟨k, w⟩ := q
    rw [alFind] at h
    rw [List.cons_append, alFind]
    split at h
    · rw [if_pos (by assumption)]
      exact h
    · rw [if_neg (by assumption)]
      exact ih h

theorem alFind_append_right {α β : Type} [DecidableEq α] (A B : List (α × β)) (a : α)
    (h : alFind A a = none) : alFind (A ++ B) a = alFind B a := by
  induction A with
  | nil => rfl
  | cons q t ih =>
    obtain ⟨k, w⟩ := q
    rw [alFind] at h
    split at h
    · cases h
    · rw [List.cons_append, alFind, if_neg (by assumption)]
      exact ih h

theorem alSet_append_left {α β : Type} [DecidableEq α] (A B : List (α × β)) (a : α) (v : β)
    (h : (alFind A a).isSome) : alSet (A ++ B) a v = alSet A a v ++ B := by
  induction A with
  | nil => simp [alFind] at h
  | cons q t ih =>
    obtain ⟨k, w⟩ := q
    rw [alFind] at h
    rw [List.cons_append, alSet, alSet]
    split
    · rfl
    · rw [List.cons_append, ih]
      rw [if_neg (by assumption)] at h
      exact h

theorem alSet_eq_map {α β : Type} [DecidableEq α] (m : List (α × β)) (a : α) (v : β)
    (hnd : (m.map (fun p => p.1)).Nodup) (hs : (alFind m a).isSome) :
    alSet m a v = m.map (fun p => if p.1 = a then (p.1, v) else p) := by
  induction m with
  | nil => simp [alFind] at hs
  | cons q t ih =>
    obtain ⟨k, w⟩ := q
    rw [List.map_cons, List.nodup_cons] at hnd
    rw [alFind] at hs
    rw [alSet, List.map_cons]
    split
    · rename_i hk
      subst hk
      have hall : ∀ p ∈ t, (if p.1 = k then (p.1, v) else p) = p := by
        intro p hp
        rw [if_neg]
        intro hpk
        have hmem : p.1 ∈ List.map (fun p => p.1) t := List.mem_map_of_mem (fun p => p.1) hp
        rw [hpk] at hmem
        exact hnd.1 hmem
      have h2 : List.map (fun p => if p.1 = k then (p.1, v) else p) t = t := by
        rw [List.map_congr_left hall, List.map_id']
      rw [h2]
    · rename_i hk
      congr 1
      rw [if_neg (by assumption)] at hs
      exact ih hnd.2 hs

theorem alSet_keys {α β : Type} [DecidableEq α] (m : List (α × β)) (a : α) (v : β)
    (hs : (alFind m a).isSome) :
    (alSet m a v).map (fun p => p.1) = m.map (fun p => p.1) := by
  induction m with
  | nil => simp [alFind] at hs
  | cons q t ih =>
    obtain ⟨k, w⟩ := q
    rw [alFind] at hs
    rw [alSet]
    split
    · simp
    · rw [List.map_cons, List.map_cons, ih]
      rw [if_neg (by assumption)] at hs
      exact hs

/-! ## Integer division helpers (C++ truncating division) -/

theorem ratFloor_eq_floor (q : ℚ) : q.floor = ⌊q⌋ := rfl

theorem tdiv_nonpos_of_lt (x w : Int) (hw : 0 < w) (h : x < w) : x.tdiv w ≤ 0 := by
  rcases le_or_lt 0 x with h0 | h0
  · rw [Int.tdiv_eq_ediv h0 (le_of_lt hw)]
    have h1 : x / w < 1 := by
      apply Int.ediv_lt_of_lt_mul hw
      omega
    omega
  · have h1 : 0 ≤ (-x).tdiv w := Int.tdiv_nonneg (by omega) (by omega)
    have h2 : (-x).tdiv w = -(x.tdiv w) := Int.neg_tdiv x w
    omega

theorem tdiv_pos_of_le (x w : Int) (hw : 0 < w) (h : w ≤ x) : 0 < x.tdiv w := by
  rw [Int.tdiv_eq_ediv (by omega) (by omega)]
  have h1 : 1 ≤ x / w := by
    rw [Int.le_ediv_iff_mul_le hw]
    omega
  omega

/-- `UpdatePos` is a no-op while the current window has not elapsed. -/
theorem updatePos_noop (now : Int) (s : CAddrStat)
    (h : now - s.nIndexTime < ADDR_STATS_WND) : updatePos now s = s := by
  rw [updatePos, if_neg]
  intro hpos
  have := tdiv_nonpos_of_lt (now - s.nIndexTime) ADDR_STATS_WND (by decide) h
  omega

/-! ## Claim C2 (counterexample part)

The claim asserts that `advance` loops one ring step per elapsed window, so
that a single call rolling past `WINDOW_COUNT * WINDOW_SECONDS` leaves no
tracked entries.  The code advances `nIndexTime` by all elapsed windows but
performs exactly one ring step, so one call spanning 56 windows leaves the
`statCexC2` entry alive with count 1. -/

/-- Counterexample to C2: a single `UpdatePos` call at a time a full
`ADDR_STATS_LEN * ADDR_STATS_WND` past `nIndexTime` (56 windows with no
observations) leaves the tracked entry in place, contradicting the claimed
consequence that no tracked entries remain. -/
theorem claim2_counterexample :
    (ADDR_STATS_LEN : Int) * ADDR_STATS_WND - statCexC2.nIndexTime ≥
      (ADDR_STATS_LEN : Int) * ADDR_STATS_WND ∧
    statCexC2.mapAddrCounter ≠ [] ∧
    (updatePos ((ADDR_STATS_LEN : Int) * ADDR_STATS_WND) statCexC2).mapAddrCounter ≠ [] := by
  refine ⟨by decide, by decide, ?_⟩
  decide

/-! ## Claim C5 -/

/-- Counterexample to C5: the code flips the bias first
(`nUnkBias = 100 - nUnkBias`), so with bias 0 and `u = 3/5` it selects the
top entry (index 2999) while the claimed formula gives index 599. -/
theorem claim5_counterexample :
    3000 ≤ statC5.vecAddrSort.length ∧
    selectIndexSpec 0 3000 (3 / 5) = 599 ∧
    selectStat 0 (3 / 5) statC5 = some 2999 ∧
    selectStat 0 (3 / 5) statC5 ≠
      statC5.vecAddrSort.get? (selectIndexSpec 0 statC5.vecAddrSort.length (3 / 5)) := by
  have hvec : statC5.vecAddrSort = List.range 3000 := by simp only [statC5]
  have hlen : statC5.vecAddrSort.length = 3000 := by
    rw [hvec, List.length_range]
  have hspec : selectIndexSpec 0 3000 (3 / 5) = 599 := by
    rw [selectIndexSpec, if_pos (by norm_num), ratFloor_eq_floor]
    have h : ⌊(((3000 : Nat) : ℚ) - 1) *
        (((0 : Int) : ℚ) + (100 - ((0 : Int) : ℚ)) * 2 * ((3 / 5 : ℚ) - 1 / 2)) / 100⌋ =
        (599 : Int) := by
      rw [Int.floor_eq_iff]
      norm_num
    rw [h]
    rfl
  have hsel : selectStat 0 (3 / 5) statC5 = some 2999 := by
    simp only [selectStat]
    rw [hlen, if_neg (by norm_num), if_pos (by norm_num), ratFloor_eq_floor]
    have h : ⌊(((3000 : Nat) : ℚ) - 1) *
        ((100 - ((0 : Int) : ℚ)) + (100 - (100 - ((0 : Int) : ℚ))) * 2 * ((3 / 5 : ℚ) - 1 / 2)) /
          100⌋ = (2999 : Int) := by
      rw [Int.floor_eq_iff]
      norm_num
    rw [h, show ((2999 : Int)).toNat = 2999 from rfl, hvec, List.get?_eq_getElem?,
      List.getElem?_range (by norm_num)]
  refine ⟨by omega, hspec, hsel, ?_⟩
  rw [hsel, hlen, hspec, hvec, List.get?_eq_getElem?, List.getElem?_range (by norm_num)]
  simp

/-- C5 amended: `Select` first replaces `new_bias` by `100 - new_bias`; with
the flipped weight formulas it returns the entry of the sorted view at the
truncated index, and below the 3000-entry quorum it returns nothing. -/
theorem selectStat_spec (s : CAddrStat) (bias : Int) (u : ℚ)
    (hb0 : 0 ≤ bias) (hb1 : bias ≤ 100) (hu0 : 0 ≤ u) (hu1 : u < 1) :
    (s.vecAddrSort.length < 3000 → selectStat bias u s = none) ∧
    (3000 ≤ s.vecAddrSort.length →
      ∃ i : Nat, i < s.vecAddrSort.length ∧
        i = (if 1 / 2 < u then
              ((((s.vecAddrSort.length : ℚ) - 1) *
                ((100 - (bias : ℚ)) + (bias : ℚ) * 2 * (u - 1 / 2)) / 100).floor).toNat
            else
              ((((s.vecAddrSort.length : ℚ) - 1) *
                ((100 - (bias : ℚ)) * 2 * u) / 100).floor).toNat) ∧
        selectStat bias u s = s.vecAddrSort.get? i ∧
        (s.vecAddrSort.get? i).isSome) := by
  constructor
  · intro hlt
    simp only [selectStat]
    rw [if_pos hlt]
  · intro hge
    have hc1 : (1 : ℚ) ≤ (s.vecAddrSort.length : ℚ) := by
      exact_mod_cast Nat.one_le_iff_ne_zero.mpr (by omega)
    have hbq0 : (0 : ℚ) ≤ (bias : ℚ) := by exact_mod_cast hb0
    have hbq1 : (bias : ℚ) ≤ 100 := by exact_mod_cast hb1
    have hkey : ∀ w : ℚ, 0 ≤ w → w ≤ 100 →
        ((((s.vecAddrSort.length : ℚ) - 1) * w / 100).floor).toNat < s.vecAddrSort.length := by
      intro w hw0 hw1
      have hle : ((s.vecAddrSort.length : ℚ) - 1) * w / 100 ≤ (s.vecAddrSort.length : ℚ) - 1 := by
        rw [div_le_iff₀ (by norm_num : (0 : ℚ) < 100)]
        have : ((s.vecAddrSort.length : ℚ) - 1) * w ≤ ((s.vecAddrSort.length : ℚ) - 1) * 100 :=
          mul_le_mul_of_nonneg_left hw1 (by linarith)
        linarith
      have hfl : ((((s.vecAddrSort.length : ℚ) - 1) * w / 100).floor) ≤
          (s.vecAddrSort.length : Int) - 1 := by
        rw [ratFloor_eq_floor]
        have h1 := Int.floor_le_floor hle
        have h2 : ⌊(s.vecAddrSort.length : ℚ) - 1⌋ = (s.vecAddrSort.length : Int) - 1 := by
          rw [show ((s.vecAddrSort.length : ℚ) - 1) =
            (((s.vecAddrSort.length : Int) - 1 : Int) : ℚ) by push_cast; ring]
          exact Int.floor_intCast _
        omega
      omega
    by_cases hu : 1 / 2 < u
    · have hw0 : (0 : ℚ) ≤ (100 - (bias : ℚ)) + (bias : ℚ) * 2 * (u - 1 / 2) := by
        have : (0 : ℚ) ≤ (bias : ℚ) * 2 * (u - 1 / 2) := by
          apply mul_nonneg (by linarith) (by linarith)
        linarith
      have hw1 : (100 - (bias : ℚ)) + (bias : ℚ) * 2 * (u - 1 / 2) ≤ 100 := by
        have : (bias : ℚ) * (2 * (u - 1 / 2)) ≤ (bias : ℚ) * 1 :=
          mul_le_mul_of_nonneg_left (by linarith) hbq0
        linarith
      have hlt := hkey _ hw0 hw1
      refine ⟨_, hlt, by rw [if_pos hu], ?_, ?_⟩
      · simp only [selectStat]
        rw [if_neg (by omega), if_pos hu]
        congr 3
        ring
      · rw [List.get?_eq_getElem?, List.getElem?_eq_getElem hlt]
        rfl
    · have hu2 : u ≤ 1 / 2 := by linarith
      have hw0 : (0 : ℚ) ≤ (100 - (bias : ℚ)) * 2 * u := by
        apply mul_nonneg (by linarith) hu0
      have hw1 : (100 - (bias : ℚ)) * 2 * u ≤ 100 := by
        have h3 : (100 - (bias : ℚ)) * (2 * u) ≤ (100 - (bias : ℚ)) * 1 :=
          mul_le_mul_of_nonneg_left (by linarith) (by linarith)
        linarith
      have hlt := hkey _ hw0 hw1
      refine ⟨_, hlt, by rw [if_neg hu], ?_, ?_⟩
      · simp only [selectStat]
        rw [if_neg (by omega), if_neg hu]
      · rw [List.get?_eq_getElem?, List.getElem?_eq_getElem hlt]
        rfl


/-- Witness for C5: the amended select specification instantiated at the
3000-entry state `statC5`, bias 50 and u = 3/4. -/
theorem selectStat_spec_witness :
    (statC5.vecAddrSort.length < 3000 → selectStat 50 (3 / 4) statC5 = none) ∧
    (3000 ≤ statC5.vecAddrSort.length →
      ∃ i : Nat, i < statC5.vecAddrSort.length ∧
        i = (if 1 / 2 < (3 / 4 : ℚ) then
              ((((statC5.vecAddrSort.length : ℚ) - 1) *
                ((100 - ((50 : Int) : ℚ)) +
                  ((50 : Int) : ℚ) * 2 * ((3 / 4 : ℚ) - 1 / 2)) / 100).floor).toNat
            else
              ((((statC5.vecAddrSort.length : ℚ) - 1) *
                ((100 - ((50 : Int) : ℚ)) * 2 * (3 / 4 : ℚ)) / 100).floor).toNat) ∧
        selectStat 50 (3 / 4) statC5 = statC5.vecAddrSort.get? i ∧
        (statC5.vecAddrSort.get? i).isSome) :=
  selectStat_spec statC5 50 (3 / 4) (by norm_num) (by norm_num) (by norm_num) (by norm_num)

/-! ## Claim C6 -/

/-- Counterexample to C6: `ResetHistory` on an entry with count 3 does not
zero every ring cell — after clearing it writes 2 into the current window's
cell (`vecHistory[nIndexPos] = 2`), so the resulting entry differs from the
claimed all-zero ring with count 2. -/
theorem claim6_counterexample :
    (∃ h, alFind statCexC6.mapAddrCounter 5 = some h ∧ 2 < h.count) ∧
    alFind (resetHistory 5 statCexC6).mapAddrCounter 5 ≠
      some ⟨List.replicate ADDR_STATS_LEN (0 : Int), 2⟩ ∧
    alFind (resetHistory 5 statCexC6).mapAddrCounter 5 =
      some ⟨(List.replicate ADDR_STATS_LEN (0 : Int)).set 0 2, 2⟩ := by
  refine ⟨⟨⟨(List.replicate ADDR_STATS_LEN (0 : Int)).set 0 3, 3⟩, by decide, by decide⟩, ?_, ?_⟩
  · decide
  · decide

/-- C6 amended: for a tracked endpoint with count above 2, `ResetHistory`
zeroes every ring cell except the current index position, which is set
to 2, and sets the count to 2; for a tracked endpoint with count at most 2
the state is unchanged. -/
theorem resetHistory_spec (s : CAddrStat) (a : Nat) (h : CAddrHistory)
    (hf : alFind s.mapAddrCounter a = some h) :
    (2 < h.count →
      resetHistory a s =
        { s with
          mapAddrCounter :=
            alSet s.mapAddrCounter a
              ⟨(List.replicate ADDR_STATS_LEN (0 : Int)).set s.nIndexPos.toNat 2, 2⟩ }) ∧
    (h.count ≤ 2 → resetHistory a s = s) := by
  have hens : alEnsure CAddrHistory.init s.mapAddrCounter a = s.mapAddrCounter := by
    rw [alEnsure, hf]
  constructor
  · intro hgt
    simp only [resetHistory, hens, hf, Option.getD_some]
    rw [if_neg (by omega)]
  · intro hle
    simp only [resetHistory, hens, hf, Option.getD_some]
    rw [if_pos hle]

/-- Witness for C6's amended theorem at a concrete tracked entry. -/
theorem resetHistory_spec_witness :
    (2 < (3 : Int) →
      resetHistory 5 statCexC6 =
        { statCexC6 with
          mapAddrCounter :=
            alSet statCexC6.mapAddrCounter 5
              ⟨(List.replicate ADDR_STATS_LEN (0 : Int)).set statCexC6.nIndexPos.toNat 2, 2⟩ }) ∧
    ((3 : Int) ≤ 2 → resetHistory 5 statCexC6 = statCexC6) :=
  resetHistory_spec statCexC6 5 ⟨(List.replicate ADDR_STATS_LEN (0 : Int)).set 0 3, 3⟩
    (by decide)

/-! ## Claim C9 -/

theorem foldl_step_fst {γ : Type} (vec : List Nat) (f : List (Nat × CAddrHistory) → Nat → List (Nat × CAddrHistory))
    (g : List (Nat × CAddrHistory) × γ → Nat → γ)
    (m : List (Nat × CAddrHistory)) (bs : γ) :
    (vec.foldl (fun acc a => (f acc.1 a, g acc a)) (m, bs)).1 = vec.foldl f m := by
  induction vec generalizing m bs with
  | nil => rfl
  | cons a t ih => exact ih (f m a) (g (m, bs) a)

theorem foldl_ensure_id (vec : List Nat) (m : List (Nat × CAddrHistory))
    (hall : ∀ a ∈ vec, (alFind m a).isSome) :
    vec.foldl (fun m a => alEnsure CAddrHistory.init m a) m = m := by
  induction vec with
  | nil => rfl
  | cons a t ih =>
    have h1 : alEnsure CAddrHistory.init m a = m := by
      rw [alEnsure]
      cases hfa : alFind m a with
      | some v => rfl
      | none =>
        have := hall a (by simp)
        rw [hfa] at this
        cases this
    rw [List.foldl_cons, h1]
    exact ih (fun b hb => hall b (by simp [hb]))

theorem foldl_erase_find_ne (l : List Nat) (m : List (Nat × CAddrHistory)) (b : Nat)
    (hb : b ∉ l) :
    alFind (l.foldl (fun m a => alErase m a) m) b = alFind m b := by
  induction l generalizing m with
  | nil => rfl
  | cons a t ih =>
    rw [List.foldl_cons, ih (alErase m a) (fun hbt => hb (List.mem_cons_of_mem _ hbt)),
      alErase_find, if_neg (fun hba => hb (by rw [hba]; exact List.mem_cons_self a t))]

/-- C9: the write branch of `CAddrStat`'s serializer mutates the state iff
more than `ADDR_STATS_MAX` entries are tracked: the leading (lowest-scoring,
since `vecAddrSort` ascends by score) excess entries of the sorted view are
erased from the counter map and from the view; with at most
`ADDR_STATS_MAX` entries every field is left unchanged. -/
theorem writeAddrStat_state (s : CAddrStat) (hwf : StatVecWF s) :
    (writeAddrStat s).1 =
      if s.vecAddrSort.length ≤ ADDR_STATS_MAX then s
      else { s with
        mapAddrCounter := (s.vecAddrSort.take (s.vecAddrSort.length - ADDR_STATS_MAX)).foldl
          (fun m a => alErase m a) s.mapAddrCounter
        vecAddrSort := s.vecAddrSort.drop (s.vecAddrSort.length - ADDR_STATS_MAX) } := by
  obtain ⟨hnd, hsome⟩ := hwf
  by_cases hle : s.vecAddrSort.length ≤ ADDR_STATS_MAX
  · rw [if_pos hle]
    have hmin : min s.vecAddrSort.length ADDR_STATS_MAX = s.vecAddrSort.length :=
      min_eq_left hle
    simp only [writeAddrStat, hmin, Nat.sub_self, List.take_zero, List.foldl_nil,
      List.drop_zero]
    rw [foldl_step_fst, foldl_ensure_id _ _ (fun a ha => hsome a ha)]
  · rw [if_neg hle]
    have hmin : min s.vecAddrSort.length ADDR_STATS_MAX = ADDR_STATS_MAX :=
      min_eq_right (by omega)
    simp only [writeAddrStat, hmin]
    rw [foldl_step_fst]
    set k := s.vecAddrSort.length - ADDR_STATS_MAX with hk
    have hdisj : List.Disjoint (s.vecAddrSort.take k) (s.vecAddrSort.drop k) :=
      List.disjoint_take_drop hnd (le_refl k)
    rw [foldl_ensure_id]
    intro a ha
    rw [foldl_erase_find_ne _ _ _ (fun hmem => hdisj hmem ha)]
    exact hsome a (List.mem_of_mem_drop ha)

/-- Witness for C9's theorem at a concrete small state. -/
theorem writeAddrStat_state_witness :
    (writeAddrStat statCexC6).1 =
      if statCexC6.vecAddrSort.length ≤ ADDR_STATS_MAX then statCexC6
      else { statCexC6 with
        mapAddrCounter := (statCexC6.vecAddrSort.take
          (statCexC6.vecAddrSort.length - ADDR_STATS_MAX)).foldl
          (fun m a => alErase m a) statCexC6.mapAddrCounter
        vecAddrSort := statCexC6.vecAddrSort.drop
          (statCexC6.vecAddrSort.length - ADDR_STATS_MAX) } :=
  writeAddrStat_state statCexC6 (by constructor <;> decide)

/-! ## Claim C7 -/

/-- One `ConnectedAddress(a, 1)` call inside the current window preserves the
window state and leaves the entry's count equal to its current ring cell and
at most the cap. -/
theorem mkHist_vec (L : List Int) (c : Int) : (⟨L, c⟩ : CAddrHistory).vecHistory = L := rfl

theorem mkHist_count (L : List Int) (c : Int) : (⟨L, c⟩ : CAddrHistory).count = c := rfl

theorem init_hist_len : CAddrHistory.init.vecHistory.length = ADDR_STATS_LEN := by
  simp [CAddrHistory.init]

/-- One `ConnectedAddress(a, 1)` call inside the current window preserves the
window state and leaves the entry's count equal to its current ring cell and
at most the cap. -/
theorem connected_step (s : CAddrStat) (a : Nat) (t : Int)
    (hp0 : 0 ≤ s.nIndexPos) (hp1 : s.nIndexPos < (ADDR_STATS_LEN : Int))
    (ht : t - s.nIndexTime < ADDR_STATS_WND)
    (hinv : alFind s.mapAddrCounter a = none ∨
      ∃ h, alFind s.mapAddrCounter a = some h ∧ h.vecHistory.length = ADDR_STATS_LEN ∧
        h.count = cellGet h s.nIndexPos ∧ h.count ≤ statCap) :
    (connectedAddress t a 1 s).2.nIndexTime = s.nIndexTime ∧
    (connectedAddress t a 1 s).2.nIndexPos = s.nIndexPos ∧
    (connectedAddress t a 1 s).2.setAddrStatic = s.setAddrStatic ∧
    ∃ h, alFind (connectedAddress t a 1 s).2.mapAddrCounter a = some h ∧
      h.vecHistory.length = ADDR_STATS_LEN ∧ h.count = cellGet h s.nIndexPos ∧
      h.count ≤ statCap := by
  have hplt : s.nIndexPos.toNat < ADDR_STATS_LEN := by
    rw [show ADDR_STATS_LEN = 56 from rfl]
    rw [show (ADDR_STATS_LEN : Int) = 56 from rfl] at hp1
    omega
  simp only [connectedAddress, updatePos_noop t s ht]
  rcases hinv with hnone | ⟨h, hf, hlen, hcell, hcap⟩
  · rw [alFind_alEnsure_self, hnone]
    simp only [Option.getD_none, Option.getD_some]
    have hif1 : (if CAddrHistory.init.count = 0 then
        (⟨CAddrHistory.init.vecHistory.set s.nIndexPos.toNat 1, 1⟩ : CAddrHistory)
        else CAddrHistory.init) =
        ⟨CAddrHistory.init.vecHistory.set s.nIndexPos.toNat 1, 1⟩ := if_pos rfl
    rw [hif1]
    have hcell1 : cellGet (⟨CAddrHistory.init.vecHistory.set s.nIndexPos.toNat 1, 1⟩ :
        CAddrHistory) s.nIndexPos = 1 :=
      getD_set_self _ _ _ _ (by rw [init_hist_len]; exact hplt)
    rw [if_pos (by rw [hcell1]; decide), hcell1]
    refine ⟨trivial, trivial, trivial, _, alFind_alSet_self _ _ _, ?_, ?_, ?_⟩
    · simp only [mkHist_vec, List.length_set]
      exact init_hist_len
    · simp only [mkHist_vec, mkHist_count, cellGet]
      rw [getD_set_self _ _ _ _ (by rw [List.length_set, init_hist_len]; exact hplt)]
    · simp only [mkHist_count]
      decide
  · have hens : alEnsure CAddrHistory.init s.mapAddrCounter a = s.mapAddrCounter := by
      rw [alEnsure, hf]
    rw [hens, hf]
    simp only [Option.getD_some]
    by_cases hc0 : h.count = 0
    · have hif1 : (if h.count = 0 then
          (⟨h.vecHistory.set s.nIndexPos.toNat 1, 1⟩ : CAddrHistory) else h) =
          ⟨h.vecHistory.set s.nIndexPos.toNat 1, 1⟩ := if_pos hc0
      rw [hif1]
      have hcell1 : cellGet (⟨h.vecHistory.set s.nIndexPos.toNat 1, 1⟩ :
          CAddrHistory) s.nIndexPos = 1 :=
        getD_set_self _ _ _ _ (by rw [hlen]; exact hplt)
      rw [if_pos (by rw [hcell1]; decide), hcell1]
      refine ⟨trivial, trivial, trivial, _, alFind_alSet_self _ _ _, ?_, ?_, ?_⟩
      · simp only [mkHist_vec, List.length_set]
        exact hlen
      · simp only [mkHist_vec, mkHist_count, cellGet]
        rw [getD_set_self _ _ _ _ (by rw [List.length_set, hlen]; exact hplt)]
      · simp only [mkHist_count]
        decide
    · have hif1 : (if h.count = 0 then
          (⟨h.vecHistory.set s.nIndexPos.toNat 1, 1⟩ : CAddrHistory) else h) = h := if_neg hc0
      rw [hif1]
      by_cases hlt : cellGet h s.nIndexPos < statCap
      · rw [if_pos hlt]
        refine ⟨trivial, trivial, trivial, _, alFind_alSet_self _ _ _, ?_, ?_, ?_⟩
        · simp only [mkHist_vec, List.length_set]
          exact hlen
        · simp only [mkHist_vec, mkHist_count, cellGet]
          rw [getD_set_self _ _ _ _ (by rw [hlen]; exact hplt)]
          rw [cellGet] at hcell
          omega
        · simp only [mkHist_count]
          rw [cellGet] at hlt
          rw [cellGet] at hcell
          omega
      · rw [if_neg hlt]
        exact ⟨trivial, trivial, trivial, h, alFind_alSet_self _ _ _, hlen, hcell, hcap⟩

/-- The window state and the cap invariant survive any run of observes made
within the current window. -/
theorem observeRun_inv (a : Nat) (times : List Int) : ∀ s : CAddrStat,
    0 ≤ s.nIndexPos → s.nIndexPos < (ADDR_STATS_LEN : Int) →
    (∀ t ∈ times, t - s.nIndexTime < ADDR_STATS_WND) →
    (alFind s.mapAddrCounter a = none ∨
      ∃ h, alFind s.mapAddrCounter a = some h ∧ h.vecHistory.length = ADDR_STATS_LEN ∧
        h.count = cellGet h s.nIndexPos ∧ h.count ≤ statCap) →
    (observeRun a times s).nIndexTime = s.nIndexTime ∧
    (observeRun a times s).nIndexPos = s.nIndexPos ∧
    (observeRun a times s).setAddrStatic = s.setAddrStatic ∧
    (alFind (observeRun a times s).mapAddrCounter a = none ∨
      ∃ h, alFind (observeRun a times s).mapAddrCounter a = some h ∧
        h.vecHistory.length = ADDR_STATS_LEN ∧
        h.count = cellGet h (observeRun a times s).nIndexPos ∧ h.count ≤ statCap) := by
  induction times with
  | nil =>
    intro s _ _ _ hinv
    exact ⟨rfl, rfl, rfl, by simpa [observeRun] using hinv⟩
  | cons t ts ih =>
    intro s hp0 hp1 ht hinv
    obtain ⟨he1, he2, he3, he4⟩ :=
      connected_step s a t hp0 hp1 (ht t (by simp)) hinv
    have hrun : observeRun a (t :: ts) s = observeRun a ts (connectedAddress t a 1 s).2 := by
      rw [observeRun, observeRun, List.foldl_cons]
    obtain ⟨hi1, hi2, hi3, hi4⟩ := ih (connectedAddress t a 1 s).2
      (by rw [he2]; exact hp0) (by rw [he2]; exact hp1)
      (by intro t2 ht2; rw [he1]; exact ht t2 (by simp [ht2]))
      (Or.inr (by rw [← he2] at he4; exact he4))
    rw [hrun]
    refine ⟨by rw [hi1, he1], by rw [hi2, he2], by rw [hi3, he3], ?_⟩
    rcases hi4 with hnone | ⟨h, hf, hl, hc, hcap⟩
    · exact Or.inl hnone
    · exact Or.inr ⟨h, hf, hl, by rw [hc, hi2, he2], hcap⟩

/-- C7: any number of `ConnectedAddress(X, 1)` calls within a single window
leaves `GetAddrStat(X)` at most `ADDR_STATS_WND / NODES_CHECK_INTERVAL`
(`statCap = 21600 / 321 = 67`). -/
theorem observe_within_window_cap (s : CAddrStat) (a : Nat) (times : List Int) (now : Int)
    (hp0 : 0 ≤ s.nIndexPos) (hp1 : s.nIndexPos < (ADDR_STATS_LEN : Int))
    (hnone : alFind s.mapAddrCounter a = none)
    (hstatic : a ∉ s.setAddrStatic)
    (ht : ∀ t ∈ times, t - s.nIndexTime < ADDR_STATS_WND)
    (hnow : now - s.nIndexTime < ADDR_STATS_WND) :
    (getAddrStat now a (observeRun a times s)).1 ≤ statCap := by
  obtain ⟨he1, he2, he3, he4⟩ := observeRun_inv a times s hp0 hp1 ht (Or.inl hnone)
  rw [getAddrStat, updatePos_noop _ _ (by rw [he1]; exact hnow)]
  rw [if_neg (by rw [he3]; exact hstatic)]
  rcases he4 with hn | ⟨h, hf, _, _, hcap⟩
  · rw [hn]
    show (0 : Int) ≤ statCap
    decide
  · rw [hf]
    exact hcap

/-- Witness for C7 at 100 observes of a fresh endpoint from an empty state. -/
theorem observe_within_window_cap_witness :
    (getAddrStat 0 3 (observeRun 3 (List.replicate 100 (0 : Int))
      ⟨[], [], [], 1, 0, 0⟩)).1 ≤ statCap :=
  observe_within_window_cap ⟨[], [], [], 1, 0, 0⟩ 3 (List.replicate 100 (0 : Int)) 0
    (by decide) (by decide) (by decide) (by decide)
    (by intro t ht2; rw [List.eq_of_mem_replicate ht2]; decide) (by decide)

/-! ## Claim C2 (amended part) -/

/-- One window-crossing `UpdatePos` call: the index advances one ring step,
well-formedness is preserved, every surviving entry has positive count, and
the run of zeroed trailing cells grows by one. -/
theorem advance_one (s : CAddrStat) (hp0 : 0 ≤ s.nIndexPos)
    (hp1 : s.nIndexPos < (ADDR_STATS_LEN : Int))
    (hwf : ∀ p ∈ s.mapAddrCounter, HistWF p.2) (r : Nat) (hr : r < ADDR_STATS_LEN)
    (hz : ∀ p ∈ s.mapAddrCounter, zeroRun p.2 s.nIndexPos r) :
    0 ≤ (updatePos (s.nIndexTime + ADDR_STATS_WND) s).nIndexPos ∧
    (updatePos (s.nIndexTime + ADDR_STATS_WND) s).nIndexPos < (ADDR_STATS_LEN : Int) ∧
    (∀ p ∈ (updatePos (s.nIndexTime + ADDR_STATS_WND) s).mapAddrCounter, HistWF p.2) ∧
    (∀ p ∈ (updatePos (s.nIndexTime + ADDR_STATS_WND) s).mapAddrCounter, 0 < p.2.count) ∧
    (∀ p ∈ (updatePos (s.nIndexTime + ADDR_STATS_WND) s).mapAddrCounter,
      zeroRun p.2 (updatePos (s.nIndexTime + ADDR_STATS_WND) s).nIndexPos (r + 1)) := by
  have h56 : (ADDR_STATS_LEN : Int) = 56 := rfl
  have h56n : ADDR_STATS_LEN = 56 := rfl
  have hfire : 0 < (s.nIndexTime + ADDR_STATS_WND - s.nIndexTime).tdiv ADDR_STATS_WND := by
    have harg : s.nIndexTime + ADDR_STATS_WND - s.nIndexTime = ADDR_STATS_WND := by ring
    rw [harg]
    decide
  have hip : (s.nIndexPos + 1).tmod (ADDR_STATS_LEN : Int) =
      (s.nIndexPos + 1) % (ADDR_STATS_LEN : Int) :=
    Int.tmod_eq_emod (by omega) (by rw [h56]; omega)
  simp only [updatePos]
  rw [if_pos hfire]
  simp only [hip]
  set ip := (s.nIndexPos + 1) % (ADDR_STATS_LEN : Int) with hipdef
  have hip0 : 0 ≤ ip := Int.emod_nonneg _ (by rw [h56]; omega)
  have hip1 : ip < (ADDR_STATS_LEN : Int) := Int.emod_lt_of_pos _ (by rw [h56]; omega)
  refine ⟨hip0, hip1, ?_, ?_, ?_⟩
  · intro p hp
    rw [List.mem_filterMap] at hp
    obtain ⟨q, hq, hstep⟩ := hp
    by_cases hc : q.2.count - cellGet q.2 ip ≤ 0
    · rw [if_pos hc] at hstep
      cases hstep
    · rw [if_neg hc] at hstep
      obtain ⟨hlen, hbnd, hsum⟩ := hwf q hq
      have hiplen : ip.toNat < q.2.vecHistory.length := by
        rw [hlen, h56n]
        omega
      cases hstep
      refine ⟨by simpa using hlen, ?_, ?_⟩
      · intro c hcmem
        rw [mkHist_vec] at hcmem
        rcases List.mem_or_eq_of_mem_set hcmem with hcm | rfl
        · exact hbnd c hcm
        · constructor
          · omega
          · rw [show statCap = 67 from rfl]
            omega
      · rw [mkHist_vec, mkHist_count, intSum_set _ _ _ hiplen]
        rw [cellGet] at hc ⊢
        omega
  · intro p hp
    rw [List.mem_filterMap] at hp
    obtain ⟨q, hq, hstep⟩ := hp
    by_cases hc : q.2.count - cellGet q.2 ip ≤ 0
    · rw [if_pos hc] at hstep
      cases hstep
    · rw [if_neg hc] at hstep
      cases hstep
      rw [mkHist_count]
      omega
  · intro p hp
    rw [List.mem_filterMap] at hp
    obtain ⟨q, hq, hstep⟩ := hp
    by_cases hc : q.2.count - cellGet q.2 ip ≤ 0
    · rw [if_pos hc] at hstep
      cases hstep
    · rw [if_neg hc] at hstep
      obtain ⟨hlen, hbnd, hsum⟩ := hwf q hq
      have hiplen : ip.toNat < q.2.vecHistory.length := by
        rw [hlen, h56n]
        omega
      cases hstep
      intro j hj
      rcases Nat.eq_zero_or_pos j with rfl | hj1
      · have hpos : (ip - ((0 : Nat) : Int)) % (ADDR_STATS_LEN : Int) = ip := by
          rw [h56] at *
          omega
        rw [hpos, cellGet, mkHist_vec]
        exact getD_set_self _ _ _ _ hiplen
      · have hcast : ((j - 1 : Nat) : Int) = (j : Int) - 1 := by omega
        have hz2 := hz q hq (j - 1) (by omega)
        rw [hcast] at hz2
        have heq : (ip - (j : Int)) % (ADDR_STATS_LEN : Int) =
            (s.nIndexPos - ((j : Int) - 1)) % (ADDR_STATS_LEN : Int) := by
          rw [h56] at *
          rw [hipdef, h56]
          omega
        have hne : ((ip - (j : Int)) % (ADDR_STATS_LEN : Int)).toNat ≠ ip.toNat := by
          have hjle : j ≤ r := by omega
          have hrle : (r : Int) < 56 := by
            rw [h56n] at hr
            omega
          rw [h56] at *
          rw [hipdef, h56] at *
          omega
        rw [cellGet, mkHist_vec, getD_set_ne _ _ _ _ _ (fun hx => hne (by rw [hx])), heq]
        rw [cellGet] at hz2
        exact hz2

/-- If the zero run spans the whole ring, every cell is zero. -/
theorem cells_zero_of_zeroRun (h : CAddrHistory) (p : Int) (hp0 : 0 ≤ p)
    (hp1 : p < (ADDR_STATS_LEN : Int)) (hlen : h.vecHistory.length = ADDR_STATS_LEN)
    (hz : zeroRun h p ADDR_STATS_LEN) : ∀ x ∈ h.vecHistory, x = 0 := by
  have h56 : (ADDR_STATS_LEN : Int) = 56 := rfl
  have h56n : ADDR_STATS_LEN = 56 := rfl
  intro x hx
  rw [List.mem_iff_getElem] at hx
  obtain ⟨i, hi, hget⟩ := hx
  have hi56 : i < 56 := by
    rw [hlen, h56n] at hi
    exact hi
  have hj0 : 0 ≤ (p - (i : Int)) % 56 := Int.emod_nonneg _ (by omega)
  have hj1 : (p - (i : Int)) % 56 < 56 := Int.emod_lt_of_pos _ (by omega)
  have hz2 := hz ((p - (i : Int)) % 56).toNat (by rw [h56n]; omega)
  rw [Int.toNat_of_nonneg hj0] at hz2
  have heq : (p - (p - (i : Int)) % 56) % (ADDR_STATS_LEN : Int) = (i : Int) := by
    rw [h56] at *
    omega
  rw [heq, cellGet] at hz2
  have htn : ((i : Int)).toNat = i := rfl
  rw [htn] at hz2
  rw [List.getD, List.get?_eq_getElem?, List.getElem?_eq_getElem hi] at hz2
  rw [← hget]
  exact hz2

/-- After enough one-window advances to finish zeroing the whole ring, no
tracked entries remain. -/
theorem advanceSteps_empty_aux (k : Nat) : ∀ (s : CAddrStat) (r : Nat),
    0 ≤ s.nIndexPos → s.nIndexPos < (ADDR_STATS_LEN : Int) →
    (∀ p ∈ s.mapAddrCounter, HistWF p.2) →
    (∀ p ∈ s.mapAddrCounter, 0 < p.2.count) →
    (∀ p ∈ s.mapAddrCounter, zeroRun p.2 s.nIndexPos r) →
    r + k = ADDR_STATS_LEN →
    (advanceSteps k s).mapAddrCounter = [] := by
  induction k with
  | zero =>
    intro s r hp0 hp1 hwf hcnt hz hsum
    rw [advanceSteps]
    cases hm : s.mapAddrCounter with
    | nil => rfl
    | cons p t =>
      exfalso
      have hp : p ∈ s.mapAddrCounter := by
        rw [hm]
        exact List.mem_cons_self _ _
      obtain ⟨hlen, hbnd, hsumEq⟩ := hwf p hp
      have hreq : r = ADDR_STATS_LEN := by omega
      have hzr : zeroRun p.2 s.nIndexPos ADDR_STATS_LEN := by
        rw [← hreq]
        exact hz p hp
      have hall := cells_zero_of_zeroRun p.2 s.nIndexPos hp0 hp1 hlen hzr
      have hs0 : p.2.vecHistory.sum = 0 := intSum_zero_all _ hall
      have := hcnt p hp
      omega
  | succ k ih =>
    intro s r hp0 hp1 hwf hcnt hz hsum
    rw [advanceSteps]
    obtain ⟨h1, h2, h3, h4, h5⟩ := advance_one s hp0 hp1 hwf r (by omega) hz
    exact ih _ (r + 1) h1 h2 h3 h4 h5 (by omega)

/-- C2 amended: `UpdatePos` takes a single ring step per call (while
advancing `nIndexTime` past `now` in whole windows), so emptiness is reached
after `ADDR_STATS_LEN` successive window-crossing calls with no
observations: after 56 such advances the tracker is empty. -/
theorem advance_window_count_empties (s : CAddrStat) (hs : StatInv s) :
    (advanceSteps ADDR_STATS_LEN s).mapAddrCounter = [] := by
  obtain ⟨hp0, hp1, _, _, hwf⟩ := hs
  rw [show ADDR_STATS_LEN = 55 + 1 from rfl, advanceSteps]
  obtain ⟨g1, g2, g3, g4, g5⟩ := advance_one s hp0 hp1 hwf 0 (by decide)
    (by intro p hp j hj; omega)
  exact advanceSteps_empty_aux 55 _ 1 g1 g2 g3 g4 g5 (by decide)

/-- Witness for C2's amended theorem at the concrete counterexample state. -/
theorem advance_window_count_empties_witness :
    (advanceSteps ADDR_STATS_LEN statCexC2).mapAddrCounter = [] :=
  advance_window_count_empties statCexC2 (by
    refine ⟨by decide, by decide, by decide, by decide, ?_⟩
    intro p hp
    rw [show statCexC2.mapAddrCounter =
      [(7, ⟨((List.replicate ADDR_STATS_LEN (0 : Int)).set 0 1).set 1 1, 2⟩)] from rfl] at hp
    rcases List.mem_singleton.mp hp with rfl
    unfold HistWF
    exact ⟨by decide, by decide, by decide⟩)

/-! ## Claim C10: the count/ring-sum invariant -/

theorem histwf_init : HistWF CAddrHistory.init := by
  unfold HistWF
  exact ⟨by decide, by decide, by decide⟩

theorem histwf_after_clear (q : CAddrHistory) (ip : Int) (hip0 : 0 ≤ ip)
    (hip1 : ip < (ADDR_STATS_LEN : Int)) (hwf : HistWF q)
    (hc : ¬(q.count - cellGet q ip ≤ 0)) :
    HistWF ⟨q.vecHistory.set ip.toNat 0, q.count - cellGet q ip⟩ := by
  obtain ⟨hlen, hbnd, hsum⟩ := hwf
  have hiplen : ip.toNat < q.vecHistory.length := by
    rw [hlen, show ADDR_STATS_LEN = 56 from rfl]
    rw [show (ADDR_STATS_LEN : Int) = 56 from rfl] at hip1
    omega
  refine ⟨by simpa using hlen, ?_, ?_⟩
  · intro c hcmem
    rw [mkHist_vec] at hcmem
    rcases List.mem_or_eq_of_mem_set hcmem with hcm | rfl
    · exact hbnd c hcm
    · exact ⟨le_refl 0, by rw [show statCap = 67 from rfl]; omega⟩
  · rw [mkHist_vec, mkHist_count, intSum_set _ _ _ hiplen]
    rw [cellGet]
    omega

theorem statInv_updatePos (now : Int) (s : CAddrStat) (hs : StatInv s) :
    StatInv (updatePos now s) := by
  obtain ⟨hp0, hp1, hv0, hv1, hwf⟩ := hs
  have h56 : (ADDR_STATS_LEN : Int) = 56 := rfl
  by_cases hf : 0 < (now - s.nIndexTime).tdiv ADDR_STATS_WND
  · simp only [updatePos]
    rw [if_pos hf]
    have hip : (s.nIndexPos + 1).tmod (ADDR_STATS_LEN : Int) =
        (s.nIndexPos + 1) % (ADDR_STATS_LEN : Int) :=
      Int.tmod_eq_emod (by omega) (by rw [h56]; omega)
    simp only [hip]
    have hip0 : 0 ≤ (s.nIndexPos + 1) % (ADDR_STATS_LEN : Int) :=
      Int.emod_nonneg _ (by rw [h56]; omega)
    have hip1 : (s.nIndexPos + 1) % (ADDR_STATS_LEN : Int) < (ADDR_STATS_LEN : Int) :=
      Int.emod_lt_of_pos _ (by rw [h56]; omega)
    refine ⟨hip0, hip1, hv0, hv1, ?_⟩
    intro p hp
    rw [List.mem_filterMap] at hp
    obtain ⟨q, hq, hstep⟩ := hp
    by_cases hc : q.2.count - cellGet q.2 ((s.nIndexPos + 1) % (ADDR_STATS_LEN : Int)) ≤ 0
    · rw [if_pos hc] at hstep
      cases hstep
    · rw [if_neg hc] at hstep
      cases hstep
      exact histwf_after_clear q.2 _ hip0 hip1 (hwf q hq) hc
  · simp only [updatePos]
    rw [if_neg hf]
    exact ⟨hp0, hp1, hv0, hv1, hwf⟩

/-- Invariant preservation for the common entry-update pattern: the value
looked up (or default-created), bumped by the create and cap branches. -/
theorem histwf_observe_entry (h0 : CAddrHistory) (p : Int) (hp0 : 0 ≤ p)
    (hp1 : p < (ADDR_STATS_LEN : Int)) (hwf0 : HistWF h0) :
    HistWF (let h := if h0.count = 0 then
        (⟨h0.vecHistory.set p.toNat 1, 1⟩ : CAddrHistory) else h0
      if cellGet h p < statCap then
        (⟨h.vecHistory.set p.toNat (cellGet h p + 1), h.count + 1⟩ : CAddrHistory)
      else h) := by
  obtain ⟨hlen, hbnd, hsum⟩ := hwf0
  have hplt : p.toNat < h0.vecHistory.length := by
    rw [hlen, show ADDR_STATS_LEN = 56 from rfl]
    rw [show (ADDR_STATS_LEN : Int) = 56 from rfl] at hp1
    omega
  have hmid : HistWF (if h0.count = 0 then
      (⟨h0.vecHistory.set p.toNat 1, 1⟩ : CAddrHistory) else h0) := by
    by_cases hc0 : h0.count = 0
    · rw [if_pos hc0]
      have hall : ∀ x ∈ h0.vecHistory, x = 0 :=
        all_zero_of_sum_zero _ (fun x hx => (hbnd x hx).1) (by omega)
      refine ⟨by simpa using hlen, ?_, ?_⟩
      · intro c hcmem
        rw [mkHist_vec] at hcmem
        rcases List.mem_or_eq_of_mem_set hcmem with hcm | rfl
        · exact hbnd c hcm
        · exact ⟨by omega, by rw [show statCap = 67 from rfl]; omega⟩
      · rw [mkHist_vec, mkHist_count, intSum_set _ _ _ hplt]
        have hg : h0.vecHistory.getD p.toNat 0 = 0 :=
          hall _ (getD_mem _ _ _ hplt)
        omega
    · rw [if_neg hc0]
      exact ⟨hlen, hbnd, hsum⟩
  set h := if h0.count = 0 then
      (⟨h0.vecHistory.set p.toNat 1, 1⟩ : CAddrHistory) else h0 with hhdef
  obtain ⟨hlen2, hbnd2, hsum2⟩ := hmid
  have hplt2 : p.toNat < h.vecHistory.length := by
    rw [hlen2, show ADDR_STATS_LEN = 56 from rfl]
    rw [show (ADDR_STATS_LEN : Int) = 56 from rfl] at hp1
    omega
  by_cases hcap : cellGet h p < statCap
  · rw [if_pos hcap]
    have hcg : 0 ≤ cellGet h p := by
      rw [cellGet]
      exact (hbnd2 _ (getD_mem _ _ _ hplt2)).1
    refine ⟨by simpa using hlen2, ?_, ?_⟩
    · intro c hcmem
      rw [mkHist_vec] at hcmem
      rcases List.mem_or_eq_of_mem_set hcmem with hcm | rfl
      · exact hbnd2 c hcm
      · exact ⟨by omega, by omega⟩
    · rw [mkHist_vec, mkHist_count, intSum_set _ _ _ hplt2]
      rw [cellGet] at *
      omega
  · rw [if_neg hcap]
    exact ⟨hlen2, hbnd2, hsum2⟩

theorem statInv_values_alSet (s1map : List (Nat × CAddrHistory)) (a : Nat)
    (v : CAddrHistory) (hv : HistWF v) (hall : ∀ p ∈ s1map, HistWF p.2) :
    ∀ p ∈ alSet (alEnsure CAddrHistory.init s1map a) a v, HistWF p.2 := by
  intro p hp
  rcases mem_alSet _ _ _ _ hp with rfl | hp2
  · exact hv
  · rcases mem_alEnsure _ _ _ _ hp2 with rfl | hp3
    · exact histwf_init
    · exact hall p hp3

theorem statInv_connected (now : Int) (a : Nat) (s : CAddrStat) (hs : StatInv s) :
    StatInv (connectedAddress now a 1 s).2 := by
  have hs1 := statInv_updatePos now s hs
  simp only [connectedAddress]
  generalize hgen : updatePos now s = s1 at *
  obtain ⟨hp0, hp1, hv0, hv1, hwf⟩ := hs1
  refine ⟨hp0, hp1, hv0, hv1, ?_⟩
  have hwf0 : HistWF ((alFind (alEnsure CAddrHistory.init s1.mapAddrCounter a) a).getD
      CAddrHistory.init) := by
    rw [alFind_alEnsure_self]
    cases hfa : alFind s1.mapAddrCounter a with
    | none => exact histwf_init
    | some v =>
      simp only [Option.getD_some]
      exact hwf _ (alFind_mem _ _ _ hfa)
  exact statInv_values_alSet _ _ _
    (histwf_observe_entry _ s1.nIndexPos hp0 hp1 hwf0) hwf

theorem statInv_add (now : Int) (a : Nat) (s : CAddrStat) (hs : StatInv s) :
    StatInv (addAddress now a s) := by
  have hs1 := statInv_updatePos now s hs
  simp only [addAddress]
  generalize hgen : updatePos now s = s1 at *
  obtain ⟨hp0, hp1, hv0, hv1, hwf⟩ := hs1
  have hplt : s1.nIndexPos.toNat < ADDR_STATS_LEN := by
    rw [show ADDR_STATS_LEN = 56 from rfl]
    rw [show (ADDR_STATS_LEN : Int) = 56 from rfl] at hp1
    omega
  have hwf0 : HistWF ((alFind (alEnsure CAddrHistory.init s1.mapAddrCounter a) a).getD
      CAddrHistory.init) := by
    rw [alFind_alEnsure_self]
    cases hfa : alFind s1.mapAddrCounter a with
    | none => exact histwf_init
    | some v =>
      simp only [Option.getD_some]
      exact hwf _ (alFind_mem _ _ _ hfa)
  by_cases hc0 : ((alFind (alEnsure CAddrHistory.init s1.mapAddrCounter a) a).getD
      CAddrHistory.init).count = 0
  · rw [if_pos hc0]
    refine ⟨hp0, hp1, hv0, hv1, ?_⟩
    intro p hp
    rcases mem_alSet _ _ _ _ hp with rfl | hp2
    · obtain ⟨hlen, hbnd, hsum⟩ := hwf0
      have hplt2 : s1.nIndexPos.toNat <
          ((alFind (alEnsure CAddrHistory.init s1.mapAddrCounter a) a).getD
            CAddrHistory.init).vecHistory.length := by
        rw [hlen]
        exact hplt
      have hall : ∀ x ∈ ((alFind (alEnsure CAddrHistory.init s1.mapAddrCounter a) a).getD
          CAddrHistory.init).vecHistory, x = 0 :=
        all_zero_of_sum_zero _ (fun x hx => (hbnd x hx).1) (by omega)
      refine ⟨by simpa using hlen, ?_, ?_⟩
      · intro c hcmem
        rw [mkHist_vec] at hcmem
        rcases List.mem_or_eq_of_mem_set hcmem with hcm | rfl
        · exact hbnd c hcm
        · exact ⟨by omega, by rw [show statCap = 67 from rfl]; omega⟩
      · rw [mkHist_vec, mkHist_count, intSum_set _ _ _ hplt2]
        have hg := hall _ (getD_mem _ _ (0 : Int) hplt2)
        omega
    · rcases mem_alEnsure _ _ _ _ hp2 with rfl | hp3
      · exact histwf_init
      · exact hwf p hp3
  · rw [if_neg hc0]
    refine ⟨hp0, hp1, hv0, hv1, ?_⟩
    intro p hp
    rcases mem_alEnsure _ _ _ _ hp with rfl | hp3
    · exact histwf_init
    · exact hwf p hp3

theorem statInv_reset (a : Nat) (s : CAddrStat) (hs : StatInv s) :
    StatInv (resetHistory a s) := by
  obtain ⟨hp0, hp1, hv0, hv1, hwf⟩ := hs
  have hplt : s.nIndexPos.toNat < ADDR_STATS_LEN := by
    rw [show ADDR_STATS_LEN = 56 from rfl]
    rw [show (ADDR_STATS_LEN : Int) = 56 from rfl] at hp1
    omega
  simp only [resetHistory]
  by_cases hc : ((alFind (alEnsure CAddrHistory.init s.mapAddrCounter a) a).getD
      CAddrHistory.init).count ≤ 2
  · rw [if_pos hc]
    refine ⟨hp0, hp1, hv0, hv1, ?_⟩
    intro p hp
    rcases mem_alEnsure _ _ _ _ hp with rfl | hp3
    · exact histwf_init
    · exact hwf p hp3
  · rw [if_neg hc]
    refine ⟨hp0, hp1, hv0, hv1, ?_⟩
    intro p hp
    rcases mem_alSet _ _ _ _ hp with rfl | hp2
    · refine ⟨?_, ?_, ?_⟩
      · rw [mkHist_vec, List.length_set, List.length_replicate]
      · intro c hcmem
        rw [mkHist_vec] at hcmem
        rcases List.mem_or_eq_of_mem_set hcmem with hcm | rfl
        · have := List.eq_of_mem_replicate hcm
          subst this
          exact ⟨le_refl 0, by decide⟩
        · exact ⟨by omega, by rw [show statCap = 67 from rfl]; omega⟩
      · rw [mkHist_vec, mkHist_count,
          intSum_set _ _ _ (by rw [List.length_replicate]; exact hplt)]
        have hz : (List.replicate ADDR_STATS_LEN (0 : Int)).sum = 0 :=
          intSum_zero_all _ (fun x hx => List.eq_of_mem_replicate hx)
        have hg : (List.replicate ADDR_STATS_LEN (0 : Int)).getD s.nIndexPos.toNat 0 = 0 :=
          List.eq_of_mem_replicate (getD_mem _ _ _ (by rw [List.length_replicate]; exact hplt))
        omega
    · rcases mem_alEnsure _ _ _ _ hp2 with rfl | hp3
      · exact histwf_init
      · exact hwf p hp3

theorem statInv_stat (now : Int) (a : Nat) (s : CAddrStat) (hs : StatInv s) :
    StatInv (getAddrStat now a s).2 := by
  have hs1 := statInv_updatePos now s hs
  simp only [getAddrStat]
  generalize hgen : updatePos now s = s1 at *
  by_cases hmem : a ∈ s1.setAddrStatic
  · rw [if_pos hmem]
    exact hs1
  · rw [if_neg hmem]
    cases hfa : alFind s1.mapAddrCounter a with
    | none => exact hs1
    | some h => exact hs1

theorem readCells_encode (vals : List Int) (rest : List Nat)
    (h : ∀ v ∈ vals, -2 ^ 31 ≤ v ∧ v < 2 ^ 31) :
    readCells vals.length ((vals.map i32Bytes).flatten ++ rest) = some (vals, rest) := by
  induction vals with
  | nil => rfl
  | cons v t ih =>
    have ihh := ih (fun w hw => h w (by simp [hw]))
    simp only [List.map_cons, List.flatten_cons, List.append_assoc, List.length_cons, readCells,
      readI32_roundtrip v _ (h v (by simp)).1 (h v (by simp)).2, ihh]

theorem writeStat_fold_snd (vec : List Nat) : ∀ (m : List (Nat × CAddrHistory)) (bs : List Nat),
    (vec.foldl (fun acc a =>
      let m2 := alEnsure CAddrHistory.init acc.1 a
      let r := (alFind m2 a).getD CAddrHistory.init
      (m2, acc.2 ++ natAddrBytes a ++
        ((List.range ADDR_STATS_LEN).map (fun i => i32Bytes (r.vecHistory.getD i 0))).flatten))
      (m, bs)).2 =
    bs ++ (vec.map (fun a => natAddrBytes a ++
      ((List.range ADDR_STATS_LEN).map (fun i =>
        i32Bytes (((alFind m a).getD CAddrHistory.init).vecHistory.getD i 0))).flatten)).flatten := by
  induction vec with
  | nil =>
    intro m bs
    simp
  | cons a t ih =>
    intro m bs
    rw [List.foldl_cons]
    have h2 : (bs ++ natAddrBytes a ++ ((List.range ADDR_STATS_LEN).map (fun i => i32Bytes
        (((alFind (alEnsure CAddrHistory.init m a) a).getD
          CAddrHistory.init).vecHistory.getD i 0))).flatten) ++
        (t.map (fun b => natAddrBytes b ++ ((List.range ADDR_STATS_LEN).map (fun i =>
          i32Bytes (((alFind (alEnsure CAddrHistory.init m a) b).getD
            CAddrHistory.init).vecHistory.getD i 0))).flatten)).flatten =
        bs ++ ((a :: t).map (fun b => natAddrBytes b ++
          ((List.range ADDR_STATS_LEN).map (fun i =>
            i32Bytes (((alFind m b).getD CAddrHistory.init).vecHistory.getD i 0))).flatten)).flatten := by
      rw [alFind_alEnsure_getD]
      have hmap : t.map (fun b => natAddrBytes b ++
          ((List.range ADDR_STATS_LEN).map (fun i =>
            i32Bytes (((alFind (alEnsure CAddrHistory.init m a) b).getD
              CAddrHistory.init).vecHistory.getD i 0))).flatten) =
          t.map (fun b => natAddrBytes b ++
          ((List.range ADDR_STATS_LEN).map (fun i =>
            i32Bytes (((alFind m b).getD CAddrHistory.init).vecHistory.getD i 0))).flatten) := by
        apply List.map_congr_left
        intro b hb
        rw [alFind_alEnsure_getD]
      rw [hmap, List.map_cons, List.flatten_cons]
      simp [List.append_assoc]
    exact (ih (alEnsure CAddrHistory.init m a)
      (bs ++ natAddrBytes a ++ ((List.range ADDR_STATS_LEN).map (fun i => i32Bytes
        (((alFind (alEnsure CAddrHistory.init m a) a).getD
          CAddrHistory.init).vecHistory.getD i 0))).flatten)).trans h2

theorem readStatLoop_payload (vec : List Nat) : ∀ (mW m : List (Nat × CAddrHistory))
    (srt : List (Int × Nat)) (rest : List Nat),
    (∀ a ∈ vec, HistWF ((alFind mW a).getD CAddrHistory.init)) →
    (∀ p ∈ m, HistWF p.2) →
    ∃ m2 srt2, readStatLoop vec.length m srt
        ((vec.map (fun a => natAddrBytes a ++
          ((List.range ADDR_STATS_LEN).map (fun i =>
            i32Bytes (((alFind mW a).getD CAddrHistory.init).vecHistory.getD i 0))).flatten)).flatten
          ++ rest) = some (m2, srt2, rest) ∧ ∀ p ∈ m2, HistWF p.2 := by
  induction vec with
  | nil =>
    intro mW m srt rest hW hm
    exact ⟨m, srt, rfl, hm⟩
  | cons a t ih =>
    intro mW m srt rest hW hm
    obtain ⟨hlen, hbnd, hsum⟩ := hW a (by simp)
    have hvbnd : ∀ v ∈ (List.range ADDR_STATS_LEN).map (fun i =>
        ((alFind mW a).getD CAddrHistory.init).vecHistory.getD i 0),
        -2 ^ 31 ≤ v ∧ v < 2 ^ 31 := by
      intro v hv
      rw [List.mem_map] at hv
      obtain ⟨i, hi, rfl⟩ := hv
      rw [List.mem_range] at hi
      have hmem : ((alFind mW a).getD CAddrHistory.init).vecHistory.getD i 0 ∈
          ((alFind mW a).getD CAddrHistory.init).vecHistory :=
        getD_mem _ _ 0 (by rw [hlen]; exact hi)
      have hb := hbnd _ hmem
      rw [show statCap = 67 from rfl] at hb
      omega
    have hvlen : ((List.range ADDR_STATS_LEN).map (fun i =>
        ((alFind mW a).getD CAddrHistory.init).vecHistory.getD i 0)).length =
        ADDR_STATS_LEN := by
      rw [List.length_map, List.length_range]
    obtain ⟨a2, ha2⟩ := readNatAddr_consumes a
      ((((List.range ADDR_STATS_LEN).map (fun i =>
        ((alFind mW a).getD CAddrHistory.init).vecHistory.getD i 0)).map i32Bytes).flatten ++
        ((t.map (fun b => natAddrBytes b ++
          ((List.range ADDR_STATS_LEN).map (fun i =>
            i32Bytes (((alFind mW b).getD CAddrHistory.init).vecHistory.getD i 0))).flatten)).flatten
          ++ rest))
    have hcells := readCells_encode ((List.range ADDR_STATS_LEN).map (fun i =>
        ((alFind mW a).getD CAddrHistory.init).vecHistory.getD i 0))
      ((t.map (fun b => natAddrBytes b ++
        ((List.range ADDR_STATS_LEN).map (fun i =>
          i32Bytes (((alFind mW b).getD CAddrHistory.init).vecHistory.getD i 0))).flatten)).flatten
        ++ rest) hvbnd
    rw [hvlen] at hcells
    rw [List.map_map] at ha2 hcells
    simp only [Function.comp_def] at ha2 hcells
    have hnewwf : HistWF ⟨(List.range ADDR_STATS_LEN).map (fun i =>
        ((alFind mW a).getD CAddrHistory.init).vecHistory.getD i 0),
        ((List.range ADDR_STATS_LEN).map (fun i =>
          ((alFind mW a).getD CAddrHistory.init).vecHistory.getD i 0)).sum⟩ := by
      refine ⟨by rw [mkHist_vec]; exact hvlen, ?_, rfl⟩
      intro c hcmem
      rw [mkHist_vec, List.mem_map] at hcmem
      obtain ⟨i, hi, rfl⟩ := hcmem
      rw [List.mem_range] at hi
      exact hbnd _ (getD_mem _ _ 0 (by rw [hlen]; exact hi))
    obtain ⟨m2, srt2, hloop, hwf2⟩ := ih mW
      (alSet m a2 ⟨(List.range ADDR_STATS_LEN).map (fun i =>
        ((alFind mW a).getD CAddrHistory.init).vecHistory.getD i 0),
        ((List.range ADDR_STATS_LEN).map (fun i =>
          ((alFind mW a).getD CAddrHistory.init).vecHistory.getD i 0)).sum⟩)
      (mmInsert ((List.range ADDR_STATS_LEN).map (fun i =>
        ((alFind mW a).getD CAddrHistory.init).vecHistory.getD i 0)).sum a2 srt)
      rest (fun b hb => hW b (by simp [hb]))
      (by
        intro p hp
        rcases mem_alSet _ _ _ _ hp with rfl | hp2
        · exact hnewwf
        · exact hm p hp2)
    refine ⟨m2, srt2, ?_, hwf2⟩
    simp only [List.map_cons, List.flatten_cons, List.append_assoc, List.length_cons,
      readStatLoop, ha2, hcells, hloop]

theorem mem_foldl_alErase (l : List Nat) : ∀ (m : List (Nat × CAddrHistory)) (p : Nat × CAddrHistory),
    p ∈ l.foldl (fun m a => alErase m a) m → p ∈ m := by
  induction l with
  | nil =>
    intro m p hp
    exact hp
  | cons a t ih =>
    intro m p hp
    exact mem_alErase m a p (ih (alErase m a) p hp)

theorem statInv_read_of_write (s w s2 : CAddrStat) (hs : StatInv s) (hw : StatInv w)
    (hr : readAddrStat s (writeAddrStat w).2 = some s2) : StatInv s2 := by
  obtain ⟨hp0, hp1, hv0, hv1, hvals⟩ := hw
  obtain ⟨_, _, _, _, hsvals⟩ := hs
  have hB2 : (writeAddrStat w).2 = i32Bytes w.nVersion ++
      (i32Bytes ((min w.vecAddrSort.length ADDR_STATS_MAX : Nat) : Int) ++
      (i32Bytes w.nIndexPos ++ (i64Bytes w.nIndexTime ++
      ((w.vecAddrSort.drop (w.vecAddrSort.length - min w.vecAddrSort.length ADDR_STATS_MAX)).map
        (fun a => natAddrBytes a ++ ((List.range ADDR_STATS_LEN).map (fun i =>
          i32Bytes (((alFind ((w.vecAddrSort.take
            (w.vecAddrSort.length - min w.vecAddrSort.length ADDR_STATS_MAX)).foldl
            (fun m a => alErase m a) w.mapAddrCounter) a).getD
            CAddrHistory.init).vecHistory.getD i 0))).flatten)).flatten))) := by
    simp only [writeAddrStat]
    rw [writeStat_fold_snd]
    simp [List.append_assoc]
  have h1 : readI32 ((writeAddrStat w).2) = some (w.nVersion,
      i32Bytes ((min w.vecAddrSort.length ADDR_STATS_MAX : Nat) : Int) ++
      (i32Bytes w.nIndexPos ++ (i64Bytes w.nIndexTime ++
      ((w.vecAddrSort.drop (w.vecAddrSort.length - min w.vecAddrSort.length ADDR_STATS_MAX)).map
        (fun a => natAddrBytes a ++ ((List.range ADDR_STATS_LEN).map (fun i =>
          i32Bytes (((alFind ((w.vecAddrSort.take
            (w.vecAddrSort.length - min w.vecAddrSort.length ADDR_STATS_MAX)).foldl
            (fun m a => alErase m a) w.mapAddrCounter) a).getD
            CAddrHistory.init).vecHistory.getD i 0))).flatten)).flatten))) := by
    rw [hB2]
    exact readI32_roundtrip _ _ hv0 hv1
  have hacb : min w.vecAddrSort.length ADDR_STATS_MAX ≤ 60000 :=
    le_trans (Nat.min_le_right _ _) (by norm_num [ADDR_STATS_MAX])
  have h2 : readI32 (i32Bytes ((min w.vecAddrSort.length ADDR_STATS_MAX : Nat) : Int) ++
      (i32Bytes w.nIndexPos ++ (i64Bytes w.nIndexTime ++
      ((w.vecAddrSort.drop (w.vecAddrSort.length - min w.vecAddrSort.length ADDR_STATS_MAX)).map
        (fun a => natAddrBytes a ++ ((List.range ADDR_STATS_LEN).map (fun i =>
          i32Bytes (((alFind ((w.vecAddrSort.take
            (w.vecAddrSort.length - min w.vecAddrSort.length ADDR_STATS_MAX)).foldl
            (fun m a => alErase m a) w.mapAddrCounter) a).getD
            CAddrHistory.init).vecHistory.getD i 0))).flatten)).flatten)))
      = some (((min w.vecAddrSort.length ADDR_STATS_MAX : Nat) : Int),
      i32Bytes w.nIndexPos ++ (i64Bytes w.nIndexTime ++
      ((w.vecAddrSort.drop (w.vecAddrSort.length - min w.vecAddrSort.length ADDR_STATS_MAX)).map
        (fun a => natAddrBytes a ++ ((List.range ADDR_STATS_LEN).map (fun i =>
          i32Bytes (((alFind ((w.vecAddrSort.take
            (w.vecAddrSort.length - min w.vecAddrSort.length ADDR_STATS_MAX)).foldl
            (fun m a => alErase m a) w.mapAddrCounter) a).getD
            CAddrHistory.init).vecHistory.getD i 0))).flatten)).flatten)) :=
    readI32_roundtrip _ _ (by omega) (by omega)
  have hL56 : (ADDR_STATS_LEN : Int) = 56 := by decide
  have h3 : readI32 (i32Bytes w.nIndexPos ++ (i64Bytes w.nIndexTime ++
      ((w.vecAddrSort.drop (w.vecAddrSort.length - min w.vecAddrSort.length ADDR_STATS_MAX)).map
        (fun a => natAddrBytes a ++ ((List.range ADDR_STATS_LEN).map (fun i =>
          i32Bytes (((alFind ((w.vecAddrSort.take
            (w.vecAddrSort.length - min w.vecAddrSort.length ADDR_STATS_MAX)).foldl
            (fun m a => alErase m a) w.mapAddrCounter) a).getD
            CAddrHistory.init).vecHistory.getD i 0))).flatten)).flatten))
      = some (w.nIndexPos, i64Bytes w.nIndexTime ++
      ((w.vecAddrSort.drop (w.vecAddrSort.length - min w.vecAddrSort.length ADDR_STATS_MAX)).map
        (fun a => natAddrBytes a ++ ((List.range ADDR_STATS_LEN).map (fun i =>
          i32Bytes (((alFind ((w.vecAddrSort.take
            (w.vecAddrSort.length - min w.vecAddrSort.length ADDR_STATS_MAX)).foldl
            (fun m a => alErase m a) w.mapAddrCounter) a).getD
            CAddrHistory.init).vecHistory.getD i 0))).flatten)).flatten) :=
    readI32_roundtrip _ _ (by omega) (by omega)
  obtain ⟨tim2, h4⟩ := readI64_consumes w.nIndexTime
    ((w.vecAddrSort.drop (w.vecAddrSort.length - min w.vecAddrSort.length ADDR_STATS_MAX)).map
      (fun a => natAddrBytes a ++ ((List.range ADDR_STATS_LEN).map (fun i =>
        i32Bytes (((alFind ((w.vecAddrSort.take
          (w.vecAddrSort.length - min w.vecAddrSort.length ADDR_STATS_MAX)).foldl
          (fun m a => alErase m a) w.mapAddrCounter) a).getD
          CAddrHistory.init).vecHistory.getD i 0))).flatten)).flatten
  have hA : ∀ a ∈ w.vecAddrSort.drop (w.vecAddrSort.length - min w.vecAddrSort.length ADDR_STATS_MAX),
      HistWF ((alFind ((w.vecAddrSort.take
        (w.vecAddrSort.length - min w.vecAddrSort.length ADDR_STATS_MAX)).foldl
        (fun m a => alErase m a) w.mapAddrCounter) a).getD CAddrHistory.init) := by
    intro a _
    cases hfa : alFind ((w.vecAddrSort.take
        (w.vecAddrSort.length - min w.vecAddrSort.length ADDR_STATS_MAX)).foldl
        (fun m a => alErase m a) w.mapAddrCounter) a with
    | none =>
      simp only [hfa, Option.getD_none]
      exact histwf_init
    | some v =>
      simp only [hfa, Option.getD_some]
      exact hvals (a, v) (mem_foldl_alErase _ _ _ (alFind_mem _ _ _ hfa))
  obtain ⟨m2, srt2, hloop, hwf2⟩ := readStatLoop_payload
    (w.vecAddrSort.drop (w.vecAddrSort.length - min w.vecAddrSort.length ADDR_STATS_MAX))
    ((w.vecAddrSort.take (w.vecAddrSort.length - min w.vecAddrSort.length ADDR_STATS_MAX)).foldl
      (fun m a => alErase m a) w.mapAddrCounter)
    s.mapAddrCounter [] [] hA hsvals
  rw [List.append_nil] at hloop
  have hveclen : (w.vecAddrSort.drop
      (w.vecAddrSort.length - min w.vecAddrSort.length ADDR_STATS_MAX)).length =
      min w.vecAddrSort.length ADDR_STATS_MAX := by
    rw [List.length_drop]
    omega
  rw [hveclen] at hloop
  simp only [readAddrStat, h1, h2, h3, h4, Int.toNat_natCast, hloop,
    Option.some.injEq] at hr
  subst hr
  exact ⟨hp0, hp1, hv0, hv1, fun p hp => hwf2 p hp⟩

theorem statInv_reachable (s : CAddrStat) (h : ReachableStat s) : StatInv s := by
  induction h with
  | init seeds t0 =>
    refine ⟨?_, ?_, ?_, ?_, fun p hp => absurd hp (List.not_mem_nil p)⟩
    · show (0 : Int) ≤ 0
      decide
    · show (0 : Int) < (ADDR_STATS_LEN : Nat)
      decide
    · show (-2 ^ 31 : Int) ≤ 1
      decide
    · show (1 : Int) < 2 ^ 31
      decide
  | add now a _ ih => exact statInv_add now a _ ih
  | conn now a _ ih => exact statInv_connected now a _ ih
  | reset a _ ih => exact statInv_reset a _ ih
  | stat now a _ ih => exact statInv_stat now a _ ih
  | upd now _ ih => exact statInv_updatePos now _ ih
  | deser _ _ hread ih1 ih2 => exact statInv_read_of_write _ _ _ ih1 ih2 hread

/-- C10: in every state reachable by the public `CAddrStat` operations
(including serialising and re-reading the produced stream), each tracked
entry's `nCount` equals the sum of its ring-buffer cells. -/
theorem claim10_count_sum_invariant (s : CAddrStat) (h : ReachableStat s) :
    ∀ p ∈ s.mapAddrCounter, p.2.count = p.2.vecHistory.sum :=
  fun p hp => ((statInv_reachable s h).2.2.2.2 p hp).2.2

theorem claim10_count_sum_invariant_witness :
    (⟨(List.replicate ADDR_STATS_LEN (0 : Int)).set 0 2, 2⟩ : CAddrHistory).count =
      (⟨(List.replicate ADDR_STATS_LEN (0 : Int)).set 0 2, 2⟩ : CAddrHistory).vecHistory.sum :=
  claim10_count_sum_invariant _ (ReachableStat.conn 0 3 (ReachableStat.init [] 0))
    (3, ⟨(List.replicate ADDR_STATS_LEN (0 : Int)).set 0 2, 2⟩) (by decide)

theorem writeNewAux_bytes (nNew : Int) (m : List (Int × CAddrInfo)) : ∀ (c : Int),
    c + ((m.filter (fun p => p.2.nRefCount != 0)).length : Int) ≤ nNew →
    (writeNewAux nNew m c).2 =
      ((m.filter (fun p => p.2.nRefCount != 0)).map (fun p => addrInfoBytes p.2)).flatten := by
  induction m with
  | nil =>
    intro c _
    rfl
  | cons q rest ih =>
    intro c hc
    obtain ⟨id, info⟩ := q
    rw [writeNewAux]
    by_cases hbreak : c = nNew
    · rw [if_pos hbreak]
      subst hbreak
      have hnil : ((id, info) :: rest).filter (fun p => p.2.nRefCount != 0) = [] := by
        apply List.length_eq_zero.mp
        omega
      rw [hnil]
      rfl
    · rw [if_neg hbreak]
      by_cases hrc : (info.nRefCount != 0) = true
      · rw [if_pos hrc]
        have hfc : ((id, info) :: rest).filter (fun p => p.2.nRefCount != 0) =
            (id, info) :: rest.filter (fun p => p.2.nRefCount != 0) :=
          List.filter_cons_of_pos hrc
        rw [hfc] at hc ⊢
        rw [List.length_cons] at hc
        show addrInfoBytes info ++ (writeNewAux nNew rest (c + 1)).2 = _
        rw [ih (c + 1) (by push_cast at hc ⊢; omega)]
        simp
      · rw [if_neg hrc]
        have hfc : ((id, info) :: rest).filter (fun p => p.2.nRefCount != 0) =
            rest.filter (fun p => p.2.nRefCount != 0) :=
          List.filter_cons_of_neg (by simpa using hrc)
        rw [hfc] at hc ⊢
        show (writeNewAux nNew rest c).2 = _
        exact ih c hc

theorem writeNewAux_find (nNew : Int) (m : List (Int × CAddrInfo)) : ∀ (c : Int) (a : Int)
    (info : CAddrInfo), (m.map (fun p => p.1)).Nodup →
    (a, info) ∈ m → (info.nRefCount != 0) = true →
    c + ((m.filter (fun p => p.2.nRefCount != 0)).length : Int) ≤ nNew →
    alFind (writeNewAux nNew m c).1 a =
      some (c + ((((m.filter (fun p => p.2.nRefCount != 0)).map
        (fun p => p.1)).indexOf a : Nat) : Int)) := by
  induction m with
  | nil =>
    intro c a info _ hmem _ _
    exact absurd hmem (List.not_mem_nil _)
  | cons q rest ih =>
    intro c a info hnd hmem hrc hc
    obtain ⟨id, hinfo⟩ := q
    rw [List.map_cons, List.nodup_cons] at hnd
    rw [writeNewAux]
    by_cases hbreak : c = nNew
    · exfalso
      subst hbreak
      have hmemf : (a, info) ∈ ((id, hinfo) :: rest).filter (fun p => p.2.nRefCount != 0) :=
        List.mem_filter.mpr ⟨hmem, hrc⟩
      have hpos : 0 < (((id, hinfo) :: rest).filter (fun p => p.2.nRefCount != 0)).length :=
        List.length_pos.mpr (fun hnil => List.not_mem_nil _ (hnil ▸ hmemf))
      omega
    · rw [if_neg hbreak]
      by_cases hrch : (hinfo.nRefCount != 0) = true
      · rw [if_pos hrch]
        have hfc : ((id, hinfo) :: rest).filter (fun p => p.2.nRefCount != 0) =
            (id, hinfo) :: rest.filter (fun p => p.2.nRefCount != 0) :=
          List.filter_cons_of_pos hrch
        rw [hfc] at hc ⊢
        rw [List.length_cons] at hc
        show alFind ((id, c) :: (writeNewAux nNew rest (c + 1)).1) a = _
        rw [alFind]
        by_cases hia : id = a
        · rw [if_pos hia]
          subst hia
          rw [List.map_cons, List.indexOf_cons_self]
          norm_num
        · rw [if_neg hia]
          have hmem2 : (a, info) ∈ rest := by
            rcases List.mem_cons.mp hmem with heq | h2
            · rw [Prod.mk.injEq] at heq
              exact absurd heq.1.symm hia
            · exact h2
          rw [ih (c + 1) a info hnd.2 hmem2 hrc (by push_cast at hc ⊢; omega)]
          rw [List.map_cons, List.indexOf_cons_ne _ hia]
          congr 1
          push_cast
          ring
      · rw [if_neg hrch]
        have hfc : ((id, hinfo) :: rest).filter (fun p => p.2.nRefCount != 0) =
            rest.filter (fun p => p.2.nRefCount != 0) :=
          List.filter_cons_of_neg (by simpa using hrch)
        rw [hfc] at hc ⊢
        show alFind ((id, c) :: (writeNewAux nNew rest c).1) a = _
        rw [alFind]
        by_cases hia : id = a
        · exfalso
          subst hia
          rcases List.mem_cons.mp hmem with heq | h2
          · rw [Prod.mk.injEq] at heq
            rw [heq.2] at hrc
            rw [hrc] at hrch
            exact hrch rfl
          · exact hnd.1 (List.mem_map_of_mem (fun p => p.1) h2)
        · rw [if_neg hia]
          have hmem2 : (a, info) ∈ rest := by
            rcases List.mem_cons.mp hmem with heq | h2
            · rw [Prod.mk.injEq] at heq
              exact absurd heq.1.symm hia
            · exact h2
          exact ih c a info hnd.2 hmem2 hrc hc

theorem writeTriedAux_bytes (nTried : Int) (m : List (Int × CAddrInfo)) : ∀ (c : Int),
    c + ((m.filter (fun p => p.2.fInTried)).length : Int) ≤ nTried →
    writeTriedAux nTried m c =
      ((m.filter (fun p => p.2.fInTried)).map (fun p => addrInfoBytes p.2)).flatten := by
  induction m with
  | nil =>
    intro c _
    rfl
  | cons q rest ih =>
    intro c hc
    obtain ⟨id, info⟩ := q
    rw [writeTriedAux]
    by_cases hbreak : c = nTried
    · rw [if_pos hbreak]
      subst hbreak
      have hnil : ((id, info) :: rest).filter (fun p => p.2.fInTried) = [] := by
        apply List.length_eq_zero.mp
        omega
      rw [hnil]
      rfl
    · rw [if_neg hbreak]
      by_cases htr : info.fInTried = true
      · rw [if_pos htr]
        have hfc : ((id, info) :: rest).filter (fun p => p.2.fInTried) =
            (id, info) :: rest.filter (fun p => p.2.fInTried) :=
          List.filter_cons_of_pos htr
        rw [hfc] at hc ⊢
        rw [List.length_cons] at hc
        rw [ih (c + 1) (by push_cast at hc ⊢; omega)]
        simp
      · rw [if_neg htr]
        have hfc : ((id, info) :: rest).filter (fun p => p.2.fInTried) =
            rest.filter (fun p => p.2.fInTried) :=
          List.filter_cons_of_neg (by simpa using htr)
        rw [hfc] at hc ⊢
        exact ih c hc

/-- C3: serializing an `CAddrMan` state writes exactly, in order: version
byte 0, the 32-byte key, `nNew`, `nTried`, the new-bucket count 256, `nNew`
records for the `new` entries, `nTried` records for the `tried` entries,
then for each of the 256 new buckets its size followed by that many 0-based
indices into the `new` records array; each record is the endpoint wire form,
the 16-byte source, `nLastSuccess` as `i64` and `nAttempts` as `i32`, and
nothing else. -/
theorem claim3_serialized_layout (B : BucketHash) (s : CAddrMan) (h : AddrManWF B s) :
    serializeAddrMan s = claimLayoutBytes s := by
  obtain ⟨hkey, hvn, hvt, hlen, hnew, htried, hnd, hrec, hexcl, hocc, hbkt, htb, hbsz, hrcb⟩ := h
  have hA : (writeNewAux s.nNew s.mapInfo 0).2 =
      ((newInfos s).map (fun p => addrInfoBytes p.2)).flatten :=
    writeNewAux_bytes s.nNew s.mapInfo 0 (by rw [hnew]; unfold newInfos; omega)
  have hB : writeTriedAux s.nTried s.mapInfo 0 =
      ((triedInfos s).map (fun p => addrInfoBytes p.2)).flatten :=
    writeTriedAux_bytes s.nTried s.mapInfo 0 (by rw [htried]; unfold triedInfos; omega)
  have hC : writeBucketsBytes (writeNewAux s.nNew s.mapInfo 0).1 s.vvNew =
      (s.vvNew.map (fun bkt => i32Bytes (bkt.length : Int) ++
        (bkt.map (fun id => i32Bytes (((newIdsOf s).indexOf id : Nat) : Int))).flatten)).flatten := by
    unfold writeBucketsBytes
    congr 1
    apply List.map_congr_left
    intro bkt hbm
    congr 1
    congr 1
    apply List.map_congr_left
    intro id hid
    obtain ⟨info, hfind, hrcn⟩ := (hbkt bkt hbm).2 id hid
    rw [writeNewAux_find s.nNew s.mapInfo 0 id info hnd (alFind_mem _ _ _ hfind) hrcn
      (by rw [hnew]; unfold newInfos; omega)]
    rw [Option.getD_some]
    unfold newIdsOf newInfos
    norm_num
  unfold serializeAddrMan claimLayoutBytes
  rw [hA, hB, hC]
  unfold newInfos triedInfos at *
  simp only [addrInfoBytes]
  norm_num [ADDRMAN_NEW_BUCKET_COUNT]

set_option maxRecDepth 40000 in
theorem claim3_serialized_layout_witness :
    serializeAddrMan addrManW = claimLayoutBytes addrManW := by
  apply claim3_serialized_layout bhW addrManW
  refine ⟨by decide, by decide, by decide, by decide, by decide, by decide, by decide,
    ?_, by decide, by decide, ?_, ?_, by decide, by decide⟩
  · intro p hp
    have hmi : addrManW.mapInfo = [(0, infoW0), (1, infoW1)] := rfl
    rw [hmi] at hp
    rcases List.mem_cons.mp hp with rfl | hp2
    · unfold RecWF
      decide
    · rcases List.mem_cons.mp hp2 with rfl | hp3
      · unfold RecWF
        decide
      · exact absurd hp3 (List.not_mem_nil _)
  · intro bkt hbm
    have hshape : ∀ x ∈ addrManW.vvNew, x = [] ∨ x = [(0 : Int)] := by decide
    rcases hshape bkt hbm with rfl | rfl
    · exact ⟨List.nodup_nil, fun id hid => absurd hid (List.not_mem_nil id)⟩
    · refine ⟨by decide, ?_⟩
      intro id hid
      rw [List.mem_singleton] at hid
      subst hid
      exact ⟨infoW0, by decide, by decide⟩
  · intro b
    exact le_trans (List.length_filter_le _ _) (by decide)

theorem getBucket_lt (vv : List (List Int)) (b : Nat) (h : b < vv.length) :
    getBucket vv b = Except.ok (vv.getD b []) := by
  unfold getBucket
  rw [show vv.get? b = some (vv.getD b []) by
    rw [List.getD_eq_getElem?_getD, List.get?_eq_getElem?, List.getElem?_eq_getElem h]
    rfl]

theorem getBucket_ge (vv : List (List Int)) (b : Nat) (h : vv.length ≤ b) :
    getBucket vv b = Except.error DeErr.oob := by
  unfold getBucket
  rw [show vv.get? b = none by
    rw [List.get?_eq_getElem?]
    exact List.getElem?_eq_none h]

theorem readNewLoop_lens (B : BucketHash) (nUB : Int) (k : Nat) :
    ∀ (st : CAddrMan) (n : Int) (stream : List Nat),
    (∀ r s', readNewLoop B nUB k st n stream = Except.ok (r, s') →
      r.vvNew.length = st.vvNew.length ∧ r.vvTried = st.vvTried ∧ r.nKey = st.nKey) ∧
    (st.vvNew.length = ADDRMAN_NEW_BUCKET_COUNT →
      readNewLoop B nUB k st n stream ≠ Except.error DeErr.oob) := by
  induction k with
  | zero =>
    intro st n stream
    refine ⟨?_, ?_⟩
    · intro r s' hok
      rw [readNewLoop] at hok
      cases hok
      exact ⟨rfl, rfl, rfl⟩
    · intro _ hbad
      rw [readNewLoop] at hbad
      cases hbad
  | succ k ih =>
    intro st n stream
    refine ⟨?_, ?_⟩
    · intro r s' hok
      rw [readNewLoop] at hok
      cases hai : readAddrInfo stream with
      | none =>
        simp only [hai] at hok
        cases hok
      | some p =>
        obtain ⟨info0, stream1⟩ := p
        simp only [hai] at hok
        by_cases hub : nUB = ((ADDRMAN_NEW_BUCKET_COUNT : Nat) : Int)
        · rw [if_pos hub] at hok
          have H := (ih _ _ _).1 r s' hok
          exact H
        · rw [if_neg hub] at hok
          cases hgb : getBucket (st.vvNew)
              (getNewBucket B st.nKey info0.addr info0.source) with
          | error e =>
            simp only [hgb] at hok
            cases hok
          | ok bkt =>
            simp only [hgb] at hok
            obtain ⟨hl, ht, hk⟩ := (ih _ _ _).1 r s' hok
            rw [List.length_set] at hl
            exact ⟨hl, ht, hk⟩
    · intro hlen hbad
      rw [readNewLoop] at hbad
      cases hai : readAddrInfo stream with
      | none =>
        simp only [hai] at hbad
        cases hbad
      | some p =>
        obtain ⟨info0, stream1⟩ := p
        simp only [hai] at hbad
        by_cases hub : nUB = ((ADDRMAN_NEW_BUCKET_COUNT : Nat) : Int)
        · rw [if_pos hub] at hbad
          have H := fun hl => (ih _ _ _).2 hl hbad
          exact H hlen
        · rw [if_neg hub] at hbad
          have hblt : getNewBucket B st.nKey info0.addr info0.source < st.vvNew.length := by
            rw [hlen]
            exact Nat.mod_lt _ (by norm_num [ADDRMAN_NEW_BUCKET_COUNT])
          simp only [getBucket_lt _ _ hblt] at hbad
          refine (ih _ _ _).2 ?_ hbad
          rw [List.length_set]
          exact hlen

theorem readTriedLoop_lens (B : BucketHash) (k : Nat) :
    ∀ (st : CAddrMan) (nLost : Nat) (stream : List Nat),
    (∀ r, readTriedLoop B k st nLost stream = Except.ok r →
      r.1.vvNew = st.vvNew ∧ r.1.vvTried.length = st.vvTried.length ∧ r.1.nKey = st.nKey) ∧
    (st.vvTried.length = ADDRMAN_TRIED_BUCKET_COUNT →
      readTriedLoop B k st nLost stream ≠ Except.error DeErr.oob) := by
  induction k with
  | zero =>
    intro st nLost stream
    refine ⟨?_, ?_⟩
    · intro r hok
      rw [readTriedLoop] at hok
      cases hok
      exact ⟨rfl, rfl, rfl⟩
    · intro _ hbad
      rw [readTriedLoop] at hbad
      cases hbad
  | succ k ih =>
    intro st nLost stream
    refine ⟨?_, ?_⟩
    · intro r hok
      rw [readTriedLoop] at hok
      cases hai : readAddrInfo stream with
      | none =>
        simp only [hai] at hok
        cases hok
      | some p =>
        obtain ⟨info0, stream1⟩ := p
        simp only [hai] at hok
        cases hgb : getBucket st.vvTried (getTriedBucket B st.nKey info0.addr) with
        | error e =>
          simp only [hgb] at hok
          cases hok
        | ok bkt =>
          simp only [hgb] at hok
          by_cases hfull : bkt.length < ADDRMAN_TRIED_BUCKET_SIZE
          · rw [if_pos hfull] at hok
            have H := (ih _ _ _).1 r hok
            obtain ⟨hv, htl, hk⟩ := H
            rw [List.length_set] at htl
            exact ⟨hv, htl, hk⟩
          · rw [if_neg hfull] at hok
            have H := (ih _ _ _).1 r hok
            exact H
    · intro hlen hbad
      rw [readTriedLoop] at hbad
      cases hai : readAddrInfo stream with
      | none =>
        simp only [hai] at hbad
        cases hbad
      | some p =>
        obtain ⟨info0, stream1⟩ := p
        simp only [hai] at hbad
        have hblt : getTriedBucket B st.nKey info0.addr < st.vvTried.length := by
          rw [hlen]
          exact Nat.mod_lt _ (by norm_num [ADDRMAN_TRIED_BUCKET_COUNT])
        simp only [getBucket_lt _ _ hblt] at hbad
        by_cases hfull : (st.vvTried.getD (getTriedBucket B st.nKey info0.addr) []).length <
            ADDRMAN_TRIED_BUCKET_SIZE
        · rw [if_pos hfull] at hbad
          have H := fun hl => (ih _ _ _).2 hl hbad
          apply H
          rw [List.length_set]
          exact hlen
        · rw [if_neg hfull] at hbad
          have H := fun hl => (ih _ _ _).2 hl hbad
          exact H hlen

theorem readBucketInner_lens (nUB : Int) (k : Nat) :
    ∀ (st : CAddrMan) (b : Nat) (stream : List Nat),
    (∀ r s', readBucketInner nUB k st b stream = Except.ok (r, s') →
      r.vvNew.length = st.vvNew.length ∧ r.vvTried = st.vvTried ∧ r.nKey = st.nKey) ∧
    (b < st.vvNew.length → readBucketInner nUB k st b stream ≠ Except.error DeErr.oob) := by
  induction k with
  | zero =>
    intro st b stream
    refine ⟨?_, ?_⟩
    · intro r s' hok
      rw [readBucketInner] at hok
      cases hok
      exact ⟨rfl, rfl, rfl⟩
    · intro _ hbad
      rw [readBucketInner] at hbad
      cases hbad
  | succ k ih =>
    intro st b stream
    refine ⟨?_, ?_⟩
    · intro r s' hok
      rw [readBucketInner] at hok
      cases hri : readI32 stream with
      | none =>
        simp only [hri] at hok
        cases hok
      | some p =>
        obtain ⟨idx, stream1⟩ := p
        simp only [hri] at hok
        by_cases hg : nUB = ((ADDRMAN_NEW_BUCKET_COUNT : Nat) : Int) ∧
            ((alFind (alEnsure defaultAddrInfo st.mapInfo idx) idx).getD
              defaultAddrInfo).nRefCount < ((ADDRMAN_NEW_BUCKETS_PER_ADDRESS : Nat) : Int)
        · rw [if_pos hg] at hok
          cases hgb : getBucket st.vvNew b with
          | error e =>
            simp only [hgb] at hok
            cases hok
          | ok bkt =>
            simp only [hgb] at hok
            have H := (ih _ _ _).1 r s' hok
            obtain ⟨hl, ht, hk⟩ := H
            rw [List.length_set] at hl
            exact ⟨hl, ht, hk⟩
        · rw [if_neg hg] at hok
          have H := (ih _ _ _).1 r s' hok
          exact H
    · intro hblt hbad
      rw [readBucketInner] at hbad
      cases hri : readI32 stream with
      | none =>
        simp only [hri] at hbad
        cases hbad
      | some p =>
        obtain ⟨idx, stream1⟩ := p
        simp only [hri] at hbad
        by_cases hg : nUB = ((ADDRMAN_NEW_BUCKET_COUNT : Nat) : Int) ∧
            ((alFind (alEnsure defaultAddrInfo st.mapInfo idx) idx).getD
              defaultAddrInfo).nRefCount < ((ADDRMAN_NEW_BUCKETS_PER_ADDRESS : Nat) : Int)
        · rw [if_pos hg] at hbad
          simp only [getBucket_lt _ _ hblt] at hbad
          have H := fun hb => (ih _ _ _).2 hb hbad
          apply H
          rw [List.length_set]
          exact hblt
        · rw [if_neg hg] at hbad
          have H := fun hb => (ih _ _ _).2 hb hbad
          exact H hblt

theorem readBucketLoop_lens (nUB : Int) (k : Nat) :
    ∀ (st : CAddrMan) (b : Nat) (stream : List Nat),
    (∀ r s', readBucketLoop nUB k st b stream = Except.ok (r, s') → 0 < k →
      b + k ≤ st.vvNew.length) ∧
    (b + k ≤ st.vvNew.length → readBucketLoop nUB k st b stream ≠ Except.error DeErr.oob) := by
  induction k with
  | zero =>
    intro st b stream
    refine ⟨?_, ?_⟩
    · intro r s' _ h0
      exact absurd h0 (by omega)
    · intro _ hbad
      rw [readBucketLoop] at hbad
      cases hbad
  | succ k ih =>
    intro st b stream
    refine ⟨?_, ?_⟩
    · intro r s' hok _
      rw [readBucketLoop] at hok
      by_cases hblt : b < st.vvNew.length
      · simp only [getBucket_lt _ _ hblt] at hok
        cases hri : readI32 stream with
        | none =>
          simp only [hri] at hok
          cases hok
        | some p =>
          obtain ⟨sz, stream1⟩ := p
          simp only [hri] at hok
          cases hbi : readBucketInner nUB sz.toNat st b stream1 with
          | error e =>
            simp only [hbi] at hok
            cases hok
          | ok q =>
            obtain ⟨st1, stream2⟩ := q
            simp only [hbi] at hok
            have hl1 := ((readBucketInner_lens nUB sz.toNat st b stream1).1 st1 stream2 hbi).1
            rcases Nat.eq_zero_or_pos k with rfl | hkpos
            · omega
            · have H := (ih _ _ _).1 r s' hok hkpos
              omega
      · rw [getBucket_ge _ _ (by omega)] at hok
        cases hok
    · intro hble hbad
      rw [readBucketLoop] at hbad
      have hblt : b < st.vvNew.length := by omega
      simp only [getBucket_lt _ _ hblt] at hbad
      cases hri : readI32 stream with
      | none =>
        simp only [hri] at hbad
        cases hbad
      | some p =>
        obtain ⟨sz, stream1⟩ := p
        simp only [hri] at hbad
        cases hbi : readBucketInner nUB sz.toNat st b stream1 with
        | error e =>
          simp only [hbi] at hbad
          injection hbad with he
          subst he
          exact (readBucketInner_lens nUB sz.toNat st b stream1).2 hblt hbi
        | ok q =>
          obtain ⟨st1, stream2⟩ := q
          simp only [hbi] at hbad
          have hl1 := ((readBucketInner_lens nUB sz.toNat st b stream1).1 st1 stream2 hbi).1
          have H := fun hb => (ih _ _ _).2 hb hbad
          apply H
          omega

set_option maxRecDepth 4000 in
/-- C8: on a stream whose stored new-bucket count exceeds 256 the read
branch's bucket loop indexes `vvNew` past its end, the total embedding's
bucket lookup returns no value, and deserialization cannot complete
normally; for stored counts at most 256 every vector access of the read
path stays in bounds, so the out-of-bounds outcome is impossible. -/
theorem claim8_bucket_loop_bounds (B : BucketHash) (stream s1 s2 s3 s4 s5 key : List Nat)
    (v : Nat) (nn nt c : Int)
    (h1 : readU8 stream = some (v, s1))
    (h2 : readNBytes 32 s1 = some (key, s2))
    (h3 : readI32 s2 = some (nn, s3))
    (h4 : readI32 s3 = some (nt, s4))
    (h5 : readI32 s4 = some (c, s5)) :
    ((256 : Int) < c → ∀ t, deserializeAddrMan B stream ≠ Except.ok t) ∧
    (c ≤ 256 → deserializeAddrMan B stream ≠ Except.error DeErr.oob) := by
  have hde : deserializeAddrMan B stream =
      (match readNewLoop B c nn.toNat
          { nKey := key, nIdCount := 0, mapInfo := [], mapAddr := [], vRandom := [],
            nTried := nt, nNew := nn,
            vvTried := List.replicate ADDRMAN_TRIED_BUCKET_COUNT [],
            vvNew := List.replicate ADDRMAN_NEW_BUCKET_COUNT [] } 0 s5 with
        | Except.error e => Except.error e
        | Except.ok (st1, s6) =>
          match readTriedLoop B nt.toNat { st1 with nIdCount := st1.nNew } 0 s6 with
          | Except.error e => Except.error e
          | Except.ok (st2, nLost, s7) =>
            match readBucketLoop c c.toNat
                { st2 with nTried := st2.nTried - (nLost : Int) } 0 s7 with
            | Except.error e => Except.error e
            | Except.ok (st3, _) => Except.ok st3) := by
    simp only [deserializeAddrMan, h1, h2, h3, h4, h5]
  rw [hde]
  constructor
  · intro hc t hok
    cases hnl : readNewLoop B c nn.toNat
        { nKey := key, nIdCount := 0, mapInfo := [], mapAddr := [], vRandom := [],
          nTried := nt, nNew := nn,
          vvTried := List.replicate ADDRMAN_TRIED_BUCKET_COUNT [],
          vvNew := List.replicate ADDRMAN_NEW_BUCKET_COUNT [] } 0 s5 with
    | error e => simp only [hnl] at hok; cases hok
    | ok p =>
      obtain ⟨st1, s6⟩ := p
      simp only [hnl] at hok
      obtain ⟨hnlN, hnlT, hnlK⟩ := (readNewLoop_lens B c nn.toNat _ 0 s5).1 st1 s6 hnl
      cases htl : readTriedLoop B nt.toNat { st1 with nIdCount := st1.nNew } 0 s6 with
      | error e => simp only [htl] at hok; cases hok
      | ok q =>
        obtain ⟨st2, nLost, s7⟩ := q
        simp only [htl] at hok
        obtain ⟨htlN, htlT, htlK⟩ :=
          (readTriedLoop_lens B nt.toNat _ 0 s6).1 (st2, nLost, s7) htl
        cases hbl : readBucketLoop c c.toNat
            { st2 with nTried := st2.nTried - (nLost : Int) } 0 s7 with
        | error e => simp only [hbl] at hok; cases hok
        | ok p3 =>
          obtain ⟨st3, s8⟩ := p3
          have hb := (readBucketLoop_lens c c.toNat _ 0 s7).1 st3 s8 hbl (by omega)
          have hb2 : (0 : Nat) + c.toNat ≤ st2.vvNew.length := hb
          have h1l : st1.vvNew.length = 256 := by
            rw [hnlN]
            rfl
          have hst2len : st2.vvNew.length = 256 := by
            rw [show st2.vvNew = st1.vvNew from htlN]
            exact h1l
          omega
  · intro hc hbad
    cases hnl : readNewLoop B c nn.toNat
        { nKey := key, nIdCount := 0, mapInfo := [], mapAddr := [], vRandom := [],
          nTried := nt, nNew := nn,
          vvTried := List.replicate ADDRMAN_TRIED_BUCKET_COUNT [],
          vvNew := List.replicate ADDRMAN_NEW_BUCKET_COUNT [] } 0 s5 with
    | error e =>
      simp only [hnl, Except.error.injEq] at hbad
      subst hbad
      exact (readNewLoop_lens B c nn.toNat _ 0 s5).2 (by rw [List.length_replicate]) hnl
    | ok p =>
      obtain ⟨st1, s6⟩ := p
      simp only [hnl] at hbad
      obtain ⟨hnlN, hnlT, hnlK⟩ := (readNewLoop_lens B c nn.toNat _ 0 s5).1 st1 s6 hnl
      cases htl : readTriedLoop B nt.toNat { st1 with nIdCount := st1.nNew } 0 s6 with
      | error e =>
        simp only [htl, Except.error.injEq] at hbad
        subst hbad
        refine (readTriedLoop_lens B nt.toNat _ 0 s6).2 ?_ htl
        show st1.vvTried.length = _
        rw [hnlT]
        rfl
      | ok q =>
        obtain ⟨st2, nLost, s7⟩ := q
        simp only [htl] at hbad
        obtain ⟨htlN, htlT, htlK⟩ :=
          (readTriedLoop_lens B nt.toNat _ 0 s6).1 (st2, nLost, s7) htl
        cases hbl : readBucketLoop c c.toNat
            { st2 with nTried := st2.nTried - (nLost : Int) } 0 s7 with
        | error e =>
          simp only [hbl, Except.error.injEq] at hbad
          subst hbad
          refine (readBucketLoop_lens c c.toNat _ 0 s7).2 ?_ hbl
          show (0 : Nat) + c.toNat ≤ st2.vvNew.length
          have h1l : st1.vvNew.length = 256 := by
            rw [hnlN]
            rfl
          have hst2len : st2.vvNew.length = 256 := by
            rw [show st2.vvNew = st1.vvNew from htlN]
            exact h1l
          omega
        | ok p3 =>
          obtain ⟨st3, s8⟩ := p3
          simp only [hbl] at hbad
          cases hbad

set_option maxRecDepth 8000 in
theorem claim8_bucket_loop_bounds_witness :
    ((256 : Int) < 300 ∧
      deserializeAddrMan bhW
        (u8Bytes 0 ++ List.replicate 32 0 ++ i32Bytes 1 ++ i32Bytes 0 ++ i32Bytes 300 ++
          addrInfoBytes infoW0) ≠ Except.ok addrManW) ∧
    ((250 : Int) ≤ 256 ∧
      deserializeAddrMan bhW
        (u8Bytes 0 ++ List.replicate 32 0 ++ i32Bytes 1 ++ i32Bytes 0 ++ i32Bytes 250 ++
          addrInfoBytes infoW0) ≠ Except.error DeErr.oob) :=
  ⟨⟨by decide,
    (claim8_bucket_loop_bounds bhW
      (u8Bytes 0 ++ List.replicate 32 0 ++ i32Bytes 1 ++ i32Bytes 0 ++ i32Bytes 300 ++
        addrInfoBytes infoW0)
      (List.replicate 32 0 ++ i32Bytes 1 ++ i32Bytes 0 ++ i32Bytes 300 ++ addrInfoBytes infoW0)
      (i32Bytes 1 ++ i32Bytes 0 ++ i32Bytes 300 ++ addrInfoBytes infoW0)
      (i32Bytes 0 ++ i32Bytes 300 ++ addrInfoBytes infoW0)
      (i32Bytes 300 ++ addrInfoBytes infoW0)
      (addrInfoBytes infoW0)
      (List.replicate 32 0) 0 1 0 300
      (by decide) (by decide) (by decide) (by decide) (by decide)).1 (by decide) addrManW⟩,
   ⟨by decide,
    (claim8_bucket_loop_bounds bhW
      (u8Bytes 0 ++ List.replicate 32 0 ++ i32Bytes 1 ++ i32Bytes 0 ++ i32Bytes 250 ++
        addrInfoBytes infoW0)
      (List.replicate 32 0 ++ i32Bytes 1 ++ i32Bytes 0 ++ i32Bytes 250 ++ addrInfoBytes infoW0)
      (i32Bytes 1 ++ i32Bytes 0 ++ i32Bytes 250 ++ addrInfoBytes infoW0)
      (i32Bytes 0 ++ i32Bytes 250 ++ addrInfoBytes infoW0)
      (i32Bytes 250 ++ addrInfoBytes infoW0)
      (addrInfoBytes infoW0)
      (List.replicate 32 0) 0 1 0 250
      (by decide) (by decide) (by decide) (by decide) (by decide)).2 (by decide)⟩⟩

theorem natSum_set (l : List Nat) : ∀ (i : Nat) (v : Nat), i < l.length →
    (l.set i v).sum + l.getD i 0 = l.sum + v := by
  induction l with
  | nil =>
    intro i v h
    simp at h
  | cons a t ih =>
    intro i v h
    cases i with
    | zero =>
      simp [List.set]
      omega
    | succ i =>
      rw [List.set, List.sum_cons, List.sum_cons]
      rw [show (a :: t).getD (i + 1) 0 = t.getD i 0 from rfl]
      have := ih i v (by simpa using h)
      omega

theorem bucketOccurrences_set (vv : List (List Int)) : ∀ (b : Nat) (L : List Int) (id : Int),
    b < vv.length →
    bucketOccurrences (vv.set b L) id + (vv.getD b []).count id =
      bucketOccurrences vv id + L.count id := by
  intro b L id h
  unfold bucketOccurrences
  rw [List.map_set]
  have hgd : (vv.map (fun bk => bk.count id)).getD b 0 = (vv.getD b []).count id := by
    rw [List.getD_eq_getElem?_getD, List.getD_eq_getElem?_getD, List.getElem?_map]
    rw [List.getElem?_eq_getElem h]
    rfl
  have := natSum_set (vv.map (fun bk => bk.count id)) b (L.count id)
    (by rw [List.length_map]; exact h)
  rw [hgd] at this
  omega

theorem alFind_none_of_no_key {α β : Type} [DecidableEq α] (m : List (α × β)) (a : α)
    (h : ∀ p ∈ m, p.1 ≠ a) : alFind m a = none := by
  induction m with
  | nil => rfl
  | cons q t ih =>
    obtain ⟨k, w⟩ := q
    rw [alFind, if_neg (h (k, w) (List.mem_cons_self _ _))]
    exact ih (fun p hp => h p (List.mem_cons_of_mem _ hp))

theorem alSet_alSet {α β : Type} [DecidableEq α] (m : List (α × β)) (a : α) (v w : β) :
    alSet (alSet m a v) a w = alSet m a w := by
  induction m with
  | nil => simp [alSet]
  | cons q t ih =>
    obtain ⟨k, u⟩ := q
    rw [alSet]
    by_cases hk : k = a
    · rw [if_pos hk, alSet, if_pos hk, alSet, if_pos hk]
    · rw [if_neg hk, alSet, if_neg hk, alSet, if_neg hk, ih]

theorem alFind_alEnsure_of_found {α β : Type} [DecidableEq α] (d : β) (m : List (α × β))
    (a b : α) (v : β) (h : alFind m b = some v) : alFind (alEnsure d m a) b = some v := by
  rw [alEnsure]
  cases hfa : alFind m a with
  | some w => exact h
  | none =>
    exact alFind_append_left _ _ _ _ h

theorem readAddrInfo_shape (s : List Nat) (i : CAddrInfo) (r : List Nat)
    (h : readAddrInfo s = some (i, r)) :
    i.nRefCount = 0 ∧ i.fInTried = false ∧ i.nLastTry = 0 := by
  unfold readAddrInfo at h
  cases h1 : readAddress s with
  | none => simp only [h1] at h; cases h
  | some p1 =>
    obtain ⟨a, s1⟩ := p1
    simp only [h1] at h
    cases h2 : readNBytes 16 s1 with
    | none => simp only [h2] at h; cases h
    | some p2 =>
      obtain ⟨src, s2⟩ := p2
      simp only [h2] at h
      cases h3 : readI64 s2 with
      | none => simp only [h3] at h; cases h
      | some p3 =>
        obtain ⟨ls, s3⟩ := p3
        simp only [h3] at h
        cases h4 : readI32 s3 with
        | none => simp only [h4] at h; cases h
        | some p4 =>
          obtain ⟨att, s4⟩ := p4
          simp only [h4, Option.some.injEq, Prod.mk.injEq] at h
          rw [← h.1]
          exact ⟨rfl, rfl, rfl⟩

theorem bucketOccurrences_zero_of_fresh (B : BucketHash) (st : CAddrMan) (n : Int)
    (hF : FreshInv B st) (hK : ∀ p ∈ st.mapInfo, p.1 < n) :
    bucketOccurrences st.vvNew n = 0 := by
  apply List.sum_eq_zero
  intro x hx
  rw [List.mem_map] at hx
  obtain ⟨bkt, hbkt, rfl⟩ := hx
  apply List.count_eq_zero.mpr
  intro hmem
  obtain ⟨info, hfind, _⟩ := hF.2 bkt hbkt n hmem
  exact ne_of_lt (hK _ (alFind_mem _ _ _ hfind)) rfl

theorem notin_bucket_of_fresh (B : BucketHash) (st : CAddrMan) (n : Int) (b : Nat)
    (hF : FreshInv B st) (hK : ∀ p ∈ st.mapInfo, p.1 < n) (hb : b < st.vvNew.length) :
    n ∉ st.vvNew.getD b [] := by
  intro hmem
  obtain ⟨info, hfind, _⟩ := hF.2 _ (getD_mem _ _ [] hb) n hmem
  exact ne_of_lt (hK _ (alFind_mem _ _ _ hfind)) rfl

theorem freshInv_step (B : BucketHash) (st : CAddrMan) (n : Int) (info0 : CAddrInfo)
    (hF : FreshInv B st) (hL : st.vvNew.length = ADDRMAN_NEW_BUCKET_COUNT)
    (hK : ∀ p ∈ st.mapInfo, p.1 < n) (hrc0 : info0.nRefCount = 0)
    (I2 : CAddrInfo) (haddr : I2.addr = info0.addr) (hsrc : I2.source = info0.source)
    (hrc2 : I2.nRefCount = info0.nRefCount + 1) (mA : List (List Nat × Int)) (vR : List Int) :
    FreshInv B { st with
      mapInfo := st.mapInfo ++ [(n, I2)],
      mapAddr := mA,
      vRandom := vR,
      vvNew := st.vvNew.set (getNewBucket B st.nKey info0.addr info0.source)
        (st.vvNew.getD (getNewBucket B st.nKey info0.addr info0.source) [] ++ [n]) } := by
  have hblt : getNewBucket B st.nKey info0.addr info0.source < st.vvNew.length := by
    rw [hL]
    exact Nat.mod_lt _ (by norm_num [ADDRMAN_NEW_BUCKET_COUNT])
  have hnotin : n ∉ st.vvNew.getD (getNewBucket B st.nKey info0.addr info0.source) [] :=
    notin_bucket_of_fresh B st n _ hF hK hblt
  have hoccn : bucketOccurrences st.vvNew n = 0 :=
    bucketOccurrences_zero_of_fresh B st n hF hK
  constructor
  · intro p hp hrc
    rcases List.mem_append.mp hp with hp1 | hp2
    · obtain ⟨h1, hcnt, hocc⟩ := hF.1 p hp1 hrc
      have hpn : p.1 ≠ n := ne_of_lt (hK p hp1)
      refine ⟨h1, ?_, ?_⟩
      · show ((st.vvNew.set (getNewBucket B st.nKey info0.addr info0.source)
            (st.vvNew.getD (getNewBucket B st.nKey info0.addr info0.source) [] ++ [n])).getD
            (getNewBucket B st.nKey p.2.addr p.2.source) []).count p.1 = 1
        by_cases hbp : getNewBucket B st.nKey info0.addr info0.source =
            getNewBucket B st.nKey p.2.addr p.2.source
        · rw [← hbp, getD_set_self _ _ _ _ hblt, List.count_append]
          rw [← hbp] at hcnt
          rw [hcnt]
          rw [List.count_eq_zero.mpr (fun hm => hpn (List.mem_singleton.mp hm))]
        · rw [getD_set_ne _ _ _ _ _ hbp]
          exact hcnt
      · show bucketOccurrences (st.vvNew.set (getNewBucket B st.nKey info0.addr info0.source)
            (st.vvNew.getD (getNewBucket B st.nKey info0.addr info0.source) [] ++ [n])) p.1 = 1
        have hset := bucketOccurrences_set st.vvNew
          (getNewBucket B st.nKey info0.addr info0.source)
          (st.vvNew.getD (getNewBucket B st.nKey info0.addr info0.source) [] ++ [n]) p.1 hblt
        rw [List.count_append,
          List.count_eq_zero.mpr (fun hm => hpn (List.mem_singleton.mp hm))] at hset
        omega
    · rw [List.mem_singleton] at hp2
      subst hp2
      refine ⟨?_, ?_, ?_⟩
      · show I2.nRefCount = 1
        rw [hrc2, hrc0]
        norm_num
      · show ((st.vvNew.set (getNewBucket B st.nKey info0.addr info0.source)
            (st.vvNew.getD (getNewBucket B st.nKey info0.addr info0.source) [] ++ [n])).getD
            (getNewBucket B st.nKey I2.addr I2.source) []).count n = 1
        rw [haddr, hsrc, getD_set_self _ _ _ _ hblt, List.count_append]
        rw [List.count_eq_zero.mpr hnotin]
        simp
      · show bucketOccurrences (st.vvNew.set (getNewBucket B st.nKey info0.addr info0.source)
            (st.vvNew.getD (getNewBucket B st.nKey info0.addr info0.source) [] ++ [n])) n = 1
        have hset := bucketOccurrences_set st.vvNew
          (getNewBucket B st.nKey info0.addr info0.source)
          (st.vvNew.getD (getNewBucket B st.nKey info0.addr info0.source) [] ++ [n]) n hblt
        rw [List.count_append, List.count_eq_zero.mpr hnotin] at hset
        have hone : ([n] : List Int).count n = 1 := by simp
        rw [hone, hoccn] at hset
        omega
  · intro bkt hbkt id hid
    have hbm : bkt ∈ st.vvNew.set (getNewBucket B st.nKey info0.addr info0.source)
        (st.vvNew.getD (getNewBucket B st.nKey info0.addr info0.source) [] ++ [n]) := hbkt
    rcases List.mem_or_eq_of_mem_set hbm with hold | hnewb
    · obtain ⟨info, hfind, hrc⟩ := hF.2 bkt hold id hid
      exact ⟨info, alFind_append_left _ _ _ _ hfind, hrc⟩
    · subst hnewb
      rcases List.mem_append.mp hid with hid1 | hid2
      · obtain ⟨info, hfind, hrc⟩ := hF.2 _ (getD_mem _ _ [] hblt) id hid1
        exact ⟨info, alFind_append_left _ _ _ _ hfind, hrc⟩
      · rw [List.mem_singleton] at hid2
        subst hid2
        refine ⟨I2, ?_, ?_⟩
        · rw [alFind_append_right _ _ _
            (alFind_none_of_no_key _ _ (fun p hp => ne_of_lt (hK p hp)))]
          simp [alFind]
        · rw [hrc2, hrc0]
          norm_num

theorem readNewLoop_fresh (B : BucketHash) (nUB : Int)
    (hub : nUB ≠ ((ADDRMAN_NEW_BUCKET_COUNT : Nat) : Int)) (k : Nat) :
    ∀ (st : CAddrMan) (n : Int) (stream : List Nat) (r : CAddrMan) (s' : List Nat),
    readNewLoop B nUB k st n stream = Except.ok (r, s') →
    FreshInv B st → st.vvNew.length = ADDRMAN_NEW_BUCKET_COUNT →
    (∀ p ∈ st.mapInfo, p.1 < n) →
    FreshInv B r ∧ r.vvNew.length = ADDRMAN_NEW_BUCKET_COUNT ∧
      (∀ p ∈ r.mapInfo, p.1 < n + (k : Int)) ∧
      r.nNew = st.nNew ∧ r.nIdCount = st.nIdCount := by
  induction k with
  | zero =>
    intro st n stream r s' hok hF hL hK
    rw [readNewLoop] at hok
    cases hok
    exact ⟨hF, hL, by simpa using hK, rfl, rfl⟩
  | succ k ih =>
    intro st n stream r s' hok hF hL hK
    rw [readNewLoop] at hok
    cases hai : readAddrInfo stream with
    | none => simp only [hai] at hok; cases hok
    | some p =>
      obtain ⟨info0, stream1⟩ := p
      simp only [hai] at hok
      rw [if_neg hub] at hok
      obtain ⟨hrc0, hft0, _⟩ := readAddrInfo_shape stream info0 stream1 hai
      have hblt : getNewBucket B st.nKey info0.addr info0.source < st.vvNew.length := by
        rw [hL]
        exact Nat.mod_lt _ (by norm_num [ADDRMAN_NEW_BUCKET_COUNT])
      simp only [getBucket_lt _ _ hblt] at hok
      have hnotin : n ∉ st.vvNew.getD (getNewBucket B st.nKey info0.addr info0.source) [] :=
        notin_bucket_of_fresh B st n _ hF hK hblt
      rw [if_neg hnotin] at hok
      have hfn : alFind st.mapInfo n = none :=
        alFind_none_of_no_key _ _ (fun p hp => ne_of_lt (hK p hp))
      rw [alSet_alSet, alSet_of_not_found _ _ _ hfn] at hok
      have H := ih _ (n + 1) stream1 r s' hok
        (freshInv_step B st n info0 hF hL hK hrc0
          { addr := info0.addr, source := info0.source, nLastSuccess := info0.nLastSuccess,
            nLastTry := info0.nLastTry, nAttempts := info0.nAttempts,
            nRefCount := info0.nRefCount + 1, fInTried := info0.fInTried,
            nRandomPos := (st.vRandom.length : Int) } rfl rfl rfl _ _)
        (by
          show (st.vvNew.set (getNewBucket B st.nKey info0.addr info0.source)
            (st.vvNew.getD (getNewBucket B st.nKey info0.addr info0.source) [] ++ [n])).length =
            ADDRMAN_NEW_BUCKET_COUNT
          rw [List.length_set]
          exact hL)
        (by
          intro p hp
          rcases List.mem_append.mp hp with hp1 | hp2
          · exact lt_trans (hK p hp1) (by omega)
          · rw [List.mem_singleton] at hp2
            subst hp2
            omega)
      obtain ⟨hF3, hL3, hK3, hN3, hI3⟩ := H
      refine ⟨hF3, hL3, ?_, hN3, hI3⟩
      intro p hp
      have := hK3 p hp
      push_cast at this ⊢
      omega

theorem freshInv_append_zero (B : BucketHash) (st : CAddrMan) (a : Int) (info : CAddrInfo)
    (hF : FreshInv B st) (hfa : alFind st.mapInfo a = none) (hrcz : info.nRefCount = 0)
    (mA : List (List Nat × Int)) (vR : List Int) (vT : List (List Int)) (ni : Int) :
    FreshInv B { st with
      mapInfo := st.mapInfo ++ [(a, info)],
      mapAddr := mA, vRandom := vR, vvTried := vT, nIdCount := ni } := by
  constructor
  · intro p hp hrc
    rcases List.mem_append.mp hp with hp1 | hp2
    · exact hF.1 p hp1 hrc
    · rw [List.mem_singleton] at hp2
      subst hp2
      exact absurd hrcz hrc
  · intro bkt hbkt id hid
    obtain ⟨i2, hfind, hrc⟩ := hF.2 bkt hbkt id hid
    exact ⟨i2, alFind_append_left _ _ _ _ hfind, hrc⟩

theorem freshInv_ensure (B : BucketHash) (st : CAddrMan) (idx : Int) (hF : FreshInv B st) :
    FreshInv B { st with mapInfo := alEnsure defaultAddrInfo st.mapInfo idx } := by
  constructor
  · intro p hp hrc
    rcases mem_alEnsure _ _ _ p hp with hp2 | hp1
    · subst hp2
      exact absurd (show (idx, defaultAddrInfo).2.nRefCount = 0 from rfl) hrc
    · exact hF.1 p hp1 hrc
  · intro bkt hbkt id hid
    obtain ⟨i2, hfind, hrc⟩ := hF.2 bkt hbkt id hid
    exact ⟨i2, alFind_alEnsure_of_found _ _ _ _ _ hfind, hrc⟩

theorem readTriedLoop_fresh (B : BucketHash) (k : Nat) :
    ∀ (st : CAddrMan) (nLost : Nat) (stream : List Nat) (r : CAddrMan × Nat × List Nat),
    readTriedLoop B k st nLost stream = Except.ok r →
    FreshInv B st → (∀ p ∈ st.mapInfo, p.1 < st.nIdCount) →
    FreshInv B r.1 ∧ (∀ p ∈ r.1.mapInfo, p.1 < r.1.nIdCount) ∧ r.1.vvNew = st.vvNew := by
  induction k with
  | zero =>
    intro st nLost stream r hok hF hK
    rw [readTriedLoop] at hok
    cases hok
    exact ⟨hF, hK, rfl⟩
  | succ k ih =>
    intro st nLost stream r hok hF hK
    rw [readTriedLoop] at hok
    cases hai : readAddrInfo stream with
    | none => simp only [hai] at hok; cases hok
    | some p =>
      obtain ⟨info0, stream1⟩ := p
      simp only [hai] at hok
      obtain ⟨hrc0, hft0, _⟩ := readAddrInfo_shape stream info0 stream1 hai
      cases hgb : getBucket st.vvTried (getTriedBucket B st.nKey info0.addr) with
      | error e => simp only [hgb] at hok; cases hok
      | ok bkt =>
        simp only [hgb] at hok
        by_cases hfull : bkt.length < ADDRMAN_TRIED_BUCKET_SIZE
        · rw [if_pos hfull] at hok
          have hfn : alFind st.mapInfo st.nIdCount = none :=
            alFind_none_of_no_key _ _ (fun p hp => ne_of_lt (hK p hp))
          rw [alSet_of_not_found _ _ _ hfn] at hok
          have H := ih _ _ _ r hok
            (freshInv_append_zero B st st.nIdCount
              { addr := info0.addr, source := info0.source,
                nLastSuccess := info0.nLastSuccess, nLastTry := info0.nLastTry,
                nAttempts := info0.nAttempts, nRefCount := info0.nRefCount,
                fInTried := true, nRandomPos := (st.vRandom.length : Int) }
              hF hfn hrc0 _ _ _ _)
            (by
              intro p hp
              rcases List.mem_append.mp hp with hp1 | hp2
              · show p.1 < st.nIdCount + 1
                exact lt_trans (hK p hp1) (by omega)
              · rw [List.mem_singleton] at hp2
                subst hp2
                show st.nIdCount < st.nIdCount + 1
                omega)
          exact H
        · rw [if_neg hfull] at hok
          exact ih _ _ _ r hok hF hK

theorem readBucketInner_fresh (B : BucketHash) (nUB : Int)
    (hub : nUB ≠ ((ADDRMAN_NEW_BUCKET_COUNT : Nat) : Int)) (k : Nat) :
    ∀ (st : CAddrMan) (b : Nat) (stream : List Nat) (r : CAddrMan) (s' : List Nat),
    readBucketInner nUB k st b stream = Except.ok (r, s') →
    FreshInv B st → FreshInv B r ∧ r.vvNew = st.vvNew := by
  induction k with
  | zero =>
    intro st b stream r s' hok hF
    rw [readBucketInner] at hok
    cases hok
    exact ⟨hF, rfl⟩
  | succ k ih =>
    intro st b stream r s' hok hF
    rw [readBucketInner] at hok
    cases hri : readI32 stream with
    | none => simp only [hri] at hok; cases hok
    | some p =>
      obtain ⟨idx, stream1⟩ := p
      simp only [hri] at hok
      rw [if_neg (fun hg => hub hg.1)] at hok
      have H := ih _ _ _ r s' hok (freshInv_ensure B st idx hF)
      exact ⟨H.1, H.2⟩

theorem readBucketLoop_fresh (B : BucketHash) (nUB : Int)
    (hub : nUB ≠ ((ADDRMAN_NEW_BUCKET_COUNT : Nat) : Int)) (k : Nat) :
    ∀ (st : CAddrMan) (b : Nat) (stream : List Nat) (r : CAddrMan) (s' : List Nat),
    readBucketLoop nUB k st b stream = Except.ok (r, s') →
    FreshInv B st → FreshInv B r ∧ r.vvNew = st.vvNew := by
  induction k with
  | zero =>
    intro st b stream r s' hok hF
    rw [readBucketLoop] at hok
    cases hok
    exact ⟨hF, rfl⟩
  | succ k ih =>
    intro st b stream r s' hok hF
    rw [readBucketLoop] at hok
    cases hgb : getBucket st.vvNew b with
    | error e => simp only [hgb] at hok; cases hok
    | ok bkt =>
      simp only [hgb] at hok
      cases hri : readI32 stream with
      | none => simp only [hri] at hok; cases hok
      | some p =>
        obtain ⟨sz, stream1⟩ := p
        simp only [hri] at hok
        cases hbi : readBucketInner nUB sz.toNat st b stream1 with
        | error e => simp only [hbi] at hok; cases hok
        | ok q =>
          obtain ⟨st1, stream2⟩ := q
          simp only [hbi] at hok
          obtain ⟨hF1, hV1⟩ := readBucketInner_fresh B nUB hub sz.toNat st b stream1 st1
            stream2 hbi hF
          obtain ⟨hF2, hV2⟩ := ih _ _ _ r s' hok hF1
          exact ⟨hF2, hV2.trans hV1⟩

set_option maxRecDepth 4000 in
/-- C4: on any successfully deserialized stream whose stored new-bucket
count differs from `ADDRMAN_NEW_BUCKET_COUNT`, the persisted per-bucket
lists are read but never applied: every bucket member is one of the
re-inserted `new` records, and every record with nonzero reference count
ends with reference count exactly 1 and sits in exactly one new bucket,
the one freshly computed from its own stored source. -/
theorem claim4_fresh_rebucket (B : BucketHash) (stream s1 s2 s3 s4 s5 key : List Nat)
    (v : Nat) (nn nt c : Int) (t : CAddrMan)
    (h1 : readU8 stream = some (v, s1))
    (h2 : readNBytes 32 s1 = some (key, s2))
    (h3 : readI32 s2 = some (nn, s3))
    (h4 : readI32 s3 = some (nt, s4))
    (h5 : readI32 s4 = some (c, s5))
    (hub : c ≠ ((ADDRMAN_NEW_BUCKET_COUNT : Nat) : Int))
    (hok : deserializeAddrMan B stream = Except.ok t) :
    (∀ p ∈ t.mapInfo, p.2.nRefCount ≠ 0 →
      p.2.nRefCount = 1 ∧
      (t.vvNew.getD (getNewBucket B t.nKey p.2.addr p.2.source) []).count p.1 = 1 ∧
      bucketOccurrences t.vvNew p.1 = 1) ∧
    (∀ bkt ∈ t.vvNew, ∀ id ∈ bkt,
      ∃ info, alFind t.mapInfo id = some info ∧ info.nRefCount = 1) := by
  have hde : deserializeAddrMan B stream =
      (match readNewLoop B c nn.toNat
          { nKey := key, nIdCount := 0, mapInfo := [], mapAddr := [], vRandom := [],
            nTried := nt, nNew := nn,
            vvTried := List.replicate ADDRMAN_TRIED_BUCKET_COUNT [],
            vvNew := List.replicate ADDRMAN_NEW_BUCKET_COUNT [] } 0 s5 with
        | Except.error e => Except.error e
        | Except.ok (st1, s6) =>
          match readTriedLoop B nt.toNat { st1 with nIdCount := st1.nNew } 0 s6 with
          | Except.error e => Except.error e
          | Except.ok (st2, nLost, s7) =>
            match readBucketLoop c c.toNat
                { st2 with nTried := st2.nTried - (nLost : Int) } 0 s7 with
            | Except.error e => Except.error e
            | Except.ok (st3, _) => Except.ok st3) := by
    simp only [deserializeAddrMan, h1, h2, h3, h4, h5]
  rw [hde] at hok
  have hF0 : FreshInv B
      { nKey := key, nIdCount := 0, mapInfo := [], mapAddr := [], vRandom := [],
        nTried := nt, nNew := nn,
        vvTried := List.replicate ADDRMAN_TRIED_BUCKET_COUNT [],
        vvNew := List.replicate ADDRMAN_NEW_BUCKET_COUNT [] } := by
    constructor
    · intro p hp
      cases hp
    · intro bkt hbkt id hid
      rw [List.eq_of_mem_replicate hbkt] at hid
      cases hid
  cases hnl : readNewLoop B c nn.toNat
      { nKey := key, nIdCount := 0, mapInfo := [], mapAddr := [], vRandom := [],
        nTried := nt, nNew := nn,
        vvTried := List.replicate ADDRMAN_TRIED_BUCKET_COUNT [],
        vvNew := List.replicate ADDRMAN_NEW_BUCKET_COUNT [] } 0 s5 with
  | error e => simp only [hnl] at hok; cases hok
  | ok p =>
    obtain ⟨st1, s6⟩ := p
    simp only [hnl] at hok
    obtain ⟨hF1, hL1, hK1, hN1, hI1⟩ := readNewLoop_fresh B c hub nn.toNat _ 0 s5 st1 s6 hnl
      hF0 (by rw [List.length_replicate]) (by intro p hp; cases hp)
    have hKt : ∀ p ∈ st1.mapInfo, p.1 < st1.nNew := by
      intro p hp
      have h := hK1 p hp
      have hNN : st1.nNew = nn := hN1
      rw [hNN]
      rcases le_or_lt 0 nn with hpos | hneg
      · rw [Int.toNat_of_nonneg hpos] at h
        omega
      · exfalso
        rw [show nn.toNat = 0 from by omega, readNewLoop] at hnl
        cases hnl
        cases hp
    cases htl : readTriedLoop B nt.toNat { st1 with nIdCount := st1.nNew } 0 s6 with
    | error e => simp only [htl] at hok; cases hok
    | ok q =>
      obtain ⟨st2, nLost, s7⟩ := q
      simp only [htl] at hok
      obtain ⟨hF2, hK2, hV2⟩ := readTriedLoop_fresh B nt.toNat _ 0 s6 (st2, nLost, s7) htl
        ⟨fun p hp hrc => hF1.1 p hp hrc, fun bkt hb id hid => hF1.2 bkt hb id hid⟩
        (fun p hp => hKt p hp)
      cases hbl : readBucketLoop c c.toNat
          { st2 with nTried := st2.nTried - (nLost : Int) } 0 s7 with
      | error e => simp only [hbl] at hok; cases hok
      | ok p3 =>
        obtain ⟨st3, s8⟩ := p3
        simp only [hbl, Except.ok.injEq] at hok
        subst hok
        obtain ⟨hF3, hV3⟩ := readBucketLoop_fresh B c hub c.toNat _ 0 s7 st3 s8 hbl
          ⟨fun p hp hrc => hF2.1 p hp hrc, fun bkt hb id hid => hF2.2 bkt hb id hid⟩
        refine ⟨hF3.1, ?_⟩
        intro bkt hbkt id hid
        obtain ⟨info, hfind, hrc⟩ := hF3.2 bkt hbkt id hid
        exact ⟨info, hfind, (hF3.1 _ (alFind_mem _ _ _ hfind) hrc).1⟩

set_option maxRecDepth 100000 in
theorem claim4_fresh_rebucket_witness :
    ((0 : Int), recW4).2.nRefCount = 1 ∧
    (addrManW4.vvNew.getD (getNewBucket bhW addrManW4.nKey ((0 : Int), recW4).2.addr
      ((0 : Int), recW4).2.source) []).count ((0 : Int), recW4).1 = 1 ∧
    bucketOccurrences addrManW4.vvNew ((0 : Int), recW4).1 = 1 :=
  (claim4_fresh_rebucket bhW
    (u8Bytes 0 ++ List.replicate 32 0 ++ i32Bytes 1 ++ i32Bytes 0 ++ i32Bytes 0 ++
      addrInfoBytes infoW0)
    (List.replicate 32 0 ++ i32Bytes 1 ++ i32Bytes 0 ++ i32Bytes 0 ++ addrInfoBytes infoW0)
    (i32Bytes 1 ++ i32Bytes 0 ++ i32Bytes 0 ++ addrInfoBytes infoW0)
    (i32Bytes 0 ++ i32Bytes 0 ++ addrInfoBytes infoW0)
    (i32Bytes 0 ++ addrInfoBytes infoW0)
    (addrInfoBytes infoW0)
    (List.replicate 32 0) 0 1 0 0 addrManW4
    (by decide) (by decide) (by decide) (by decide) (by decide) (by decide)
    (by rfl)).1 ((0 : Int), recW4) (by decide) (by decide)

theorem readAddress_roundtrip (a : CAddress) (r : List Nat) (ht : a.nTime < 2 ^ 32)
    (hs : a.nServices < 2 ^ 64) (hip : a.ip.length = 16) (hp : a.port < 2 ^ 16) :
    readAddress (addressBytes a ++ r) = some (a, r) := by
  have hstream : addressBytes a ++ r =
      u32Bytes a.nTime ++ (u64Bytes a.nServices ++ (a.ip ++ (u16Bytes a.port ++ r))) := by
    unfold addressBytes
    simp [List.append_assoc]
  rw [hstream]
  unfold readAddress
  simp only [readU32_roundtrip _ _ ht, readU64_roundtrip _ _ hs,
    readNBytes_roundtrip 16 a.ip _ hip, readU16_roundtrip _ _ hp]

theorem readAddrInfo_roundtrip (i : CAddrInfo) (r : List Nat) (h : RecWF i) :
    readAddrInfo (addrInfoBytes i ++ r) = some (readBase i, r) := by
  obtain ⟨ht, hs, hip, hp, hsrc, hl1, hl2, ha1, ha2⟩ := h
  have hstream : addrInfoBytes i ++ r =
      addressBytes i.addr ++ (i.source ++ (i64Bytes i.nLastSuccess ++
        (i32Bytes i.nAttempts ++ r))) := by
    unfold addrInfoBytes
    simp [List.append_assoc]
  rw [hstream]
  unfold readAddrInfo
  simp only [readAddress_roundtrip i.addr _ ht hs hip hp,
    readNBytes_roundtrip 16 i.source _ hsrc,
    readI64_roundtrip _ _ hl1 hl2, readI32_roundtrip _ _ ha1 ha2]
  rfl

theorem readNewLoop_clean (B : BucketHash) (recs : List CAddrInfo) :
    ∀ (st : CAddrMan) (n : Int) (rest : List Nat),
    (∀ i ∈ recs, RecWF i) →
    readNewLoop B ((ADDRMAN_NEW_BUCKET_COUNT : Nat) : Int) recs.length st n
      ((recs.map addrInfoBytes).flatten ++ rest) =
      Except.ok (newPhase st n recs, rest) := by
  induction recs with
  | nil =>
    intro st n rest _
    rw [List.map_nil, List.flatten_nil, List.nil_append, List.length_nil, readNewLoop, newPhase]
  | cons rec recs ih =>
    intro st n rest hWF
    rw [List.length_cons, readNewLoop]
    have hstream : ((rec :: recs).map addrInfoBytes).flatten ++ rest =
        addrInfoBytes rec ++ ((recs.map addrInfoBytes).flatten ++ rest) := by
      simp
    rw [hstream]
    simp only [readAddrInfo_roundtrip rec _ (hWF rec (List.mem_cons_self _ _))]
    rw [if_pos trivial]
    rw [newPhase]
    exact ih _ (n + 1) rest (fun i hi => hWF i (List.mem_cons_of_mem _ hi))

theorem newPhase_proj (recs : List CAddrInfo) : ∀ (st : CAddrMan) (n : Int),
    (newPhase st n recs).vvNew = st.vvNew ∧
    (newPhase st n recs).vvTried = st.vvTried ∧
    (newPhase st n recs).nKey = st.nKey ∧
    (newPhase st n recs).nNew = st.nNew ∧
    (newPhase st n recs).nTried = st.nTried ∧
    (newPhase st n recs).nIdCount = st.nIdCount ∧
    (newPhase st n recs).vRandom.length = st.vRandom.length + recs.length ∧
    ((∀ p ∈ st.mapInfo, p.1 < n) →
      (newPhase st n recs).mapInfo = st.mapInfo ++ enumNew n st.vRandom.length recs) := by
  induction recs with
  | nil =>
    intro st n
    rw [newPhase]
    exact ⟨rfl, rfl, rfl, rfl, rfl, rfl, by simp, fun _ => by rw [enumNew, List.append_nil]⟩
  | cons rec recs ih =>
    intro st n
    rw [newPhase]
    obtain ⟨h1, h2, h3, h4, h5, h6, h7, h8⟩ := ih
      { st with
        mapInfo := alSet st.mapInfo n
          { readBase rec with nRandomPos := (st.vRandom.length : Int) },
        mapAddr := alSet st.mapAddr rec.addr.ip n,
        vRandom := st.vRandom ++ [n] } (n + 1)
    refine ⟨h1, h2, h3, h4, h5, h6, ?_, ?_⟩
    · rw [h7]
      simp
      omega
    · intro hK
      have hfn : alFind st.mapInfo n = none :=
        alFind_none_of_no_key _ _ (fun p hp => ne_of_lt (hK p hp))
      have hset : alSet st.mapInfo n
          ({ readBase rec with nRandomPos := (st.vRandom.length : Int)}) =
          st.mapInfo ++ [(n, { readBase rec with nRandomPos := (st.vRandom.length : Int) })] :=
        alSet_of_not_found _ _ _ hfn
      rw [h8 (by
        intro p hp
        show p.1 < n + 1
        rw [hset] at hp
        rcases List.mem_append.mp hp with hp1 | hp2
        · exact lt_trans (hK p hp1) (by omega)
        · rw [List.mem_singleton] at hp2
          subst hp2
          omega)]
      show alSet st.mapInfo n _ ++ enumNew (n + 1) (st.vRandom ++ [n]).length recs = _
      rw [hset, enumNew, List.append_assoc, List.singleton_append]
      rw [show (st.vRandom ++ [n]).length = st.vRandom.length + 1 from by simp]

theorem enumNew_keys (recs : List CAddrInfo) : ∀ (n : Int) (r : Nat),
    ∀ p ∈ enumNew n r recs, n ≤ p.1 ∧ p.1 < n + recs.length := by
  induction recs with
  | nil =>
    intro n r p hp
    rw [enumNew] at hp
    cases hp
  | cons rec recs ih =>
    intro n r p hp
    rw [enumNew] at hp
    rcases List.mem_cons.mp hp with hp1 | hp2
    · subst hp1
      constructor
      · exact le_refl n
      · rw [List.length_cons]
        push_cast
        omega
    · obtain ⟨hl, hr⟩ := ih (n + 1) (r + 1) p hp2
      rw [List.length_cons]
      push_cast at hr ⊢
      omega

theorem enumNew_find (recs : List CAddrInfo) : ∀ (n : Int) (r : Nat) (j : Nat),
    j < recs.length →
    alFind (enumNew n r recs) (n + (j : Int)) =
      some { readBase (recs.getD j defaultAddrInfo) with
        nRandomPos := ((r + j : Nat) : Int) } := by
  induction recs with
  | nil =>
    intro n r j hj
    simp at hj
  | cons rec recs ih =>
    intro n r j hj
    rw [enumNew]
    cases j with
    | zero =>
      rw [alFind, if_pos (by norm_num)]
      rw [show (rec :: recs).getD 0 defaultAddrInfo = rec from rfl]
      norm_num
    | succ j =>
      rw [alFind, if_neg (by push_cast; omega)]
      rw [show n + ((j + 1 : Nat) : Int) = (n + 1) + (j : Int) from by push_cast; ring]
      rw [ih (n + 1) (r + 1) j (by simpa using hj)]
      rw [show (rec :: recs).getD (j + 1) defaultAddrInfo = recs.getD j defaultAddrInfo from rfl]
      rw [show r + 1 + j = r + (j + 1) from by omega]

theorem readTriedLoop_clean (B : BucketHash) (recs : List CAddrInfo) :
    ∀ (st : CAddrMan) (nLost : Nat) (rest : List Nat),
    (∀ i ∈ recs, RecWF i) →
    st.vvTried.length = ADDRMAN_TRIED_BUCKET_COUNT →
    (∀ b, (recs.filter (fun rec => getTriedBucket B st.nKey rec.addr = b)).length +
      (st.vvTried.getD b []).length ≤ ADDRMAN_TRIED_BUCKET_SIZE) →
    readTriedLoop B recs.length st nLost ((recs.map addrInfoBytes).flatten ++ rest) =
      Except.ok (triedPhase B st recs, nLost, rest) := by
  induction recs with
  | nil =>
    intro st nLost rest _ _ _
    rw [List.map_nil, List.flatten_nil, List.nil_append, List.length_nil, readTriedLoop,
      triedPhase]
  | cons rec recs ih =>
    intro st nLost rest hWF hlen hcnt
    rw [List.length_cons, readTriedLoop]
    have hstream : ((rec :: recs).map addrInfoBytes).flatten ++ rest =
        addrInfoBytes rec ++ ((recs.map addrInfoBytes).flatten ++ rest) := by
      simp
    rw [hstream]
    simp only [readAddrInfo_roundtrip rec _ (hWF rec (List.mem_cons_self _ _))]
    have haddr : (readBase rec).addr = rec.addr := rfl
    have hblt : getTriedBucket B st.nKey (readBase rec).addr < st.vvTried.length := by
      rw [hlen, haddr]
      exact Nat.mod_lt _ (by norm_num [ADDRMAN_TRIED_BUCKET_COUNT])
    simp only [getBucket_lt _ _ hblt]
    have hfc := hcnt (getTriedBucket B st.nKey rec.addr)
    rw [List.filter_cons_of_pos (by simp)] at hfc
    rw [List.length_cons] at hfc
    have hfull : (st.vvTried.getD (getTriedBucket B st.nKey (readBase rec).addr) []).length <
        ADDRMAN_TRIED_BUCKET_SIZE := by
      rw [haddr]
      omega
    rw [if_pos hfull]
    rw [triedPhase]
    rw [ih _ nLost rest (fun i hi => hWF i (List.mem_cons_of_mem _ hi))
      (by
        show (st.vvTried.set _ _).length = _
        rw [List.length_set]
        exact hlen)
      (by
        intro b
        show (recs.filter (fun r2 => getTriedBucket B st.nKey r2.addr = b)).length +
          (((st.vvTried.set (getTriedBucket B st.nKey rec.addr)
            ((st.vvTried.getD (getTriedBucket B st.nKey rec.addr) []) ++
              [st.nIdCount]))).getD b []).length ≤ ADDRMAN_TRIED_BUCKET_SIZE
        have hblt2 : getTriedBucket B st.nKey rec.addr < st.vvTried.length := by
          rw [hlen]
          exact Nat.mod_lt _ (by norm_num [ADDRMAN_TRIED_BUCKET_COUNT])
        by_cases hb : getTriedBucket B st.nKey rec.addr = b
        · subst hb
          rw [getD_set_self _ _ _ _ hblt2, List.length_append]
          simp only [List.length_singleton]
          omega
        · rw [getD_set_ne _ _ _ _ _ hb]
          have hfc2 := hcnt b
          rw [List.filter_cons_of_neg (by simpa using hb)] at hfc2
          omega)]
    rfl

theorem triedPhase_proj (B : BucketHash) (recs : List CAddrInfo) : ∀ (st : CAddrMan),
    (triedPhase B st recs).vvNew = st.vvNew ∧
    (triedPhase B st recs).nKey = st.nKey ∧
    (triedPhase B st recs).nNew = st.nNew ∧
    (triedPhase B st recs).nTried = st.nTried ∧
    (triedPhase B st recs).nIdCount = st.nIdCount + recs.length ∧
    ((∀ p ∈ st.mapInfo, p.1 < st.nIdCount) →
      (triedPhase B st recs).mapInfo =
        st.mapInfo ++ enumTried st.nIdCount st.vRandom.length recs) := by
  induction recs with
  | nil =>
    intro st
    rw [triedPhase]
    exact ⟨rfl, rfl, rfl, rfl, by simp, fun _ => by rw [enumTried, List.append_nil]⟩
  | cons rec recs ih =>
    intro st
    rw [triedPhase]
    obtain ⟨h1, h2, h3, h4, h5, h6⟩ := ih
      { st with
        vRandom := st.vRandom ++ [st.nIdCount],
        mapInfo := alSet st.mapInfo st.nIdCount
          { readBase rec with nRandomPos := (st.vRandom.length : Int), fInTried := true },
        mapAddr := alSet st.mapAddr rec.addr.ip st.nIdCount,
        vvTried := st.vvTried.set (getTriedBucket B st.nKey rec.addr)
          (st.vvTried.getD (getTriedBucket B st.nKey rec.addr) [] ++ [st.nIdCount]),
        nIdCount := st.nIdCount + 1 }
    refine ⟨h1, h2, h3, h4, ?_, ?_⟩
    · rw [h5]
      show st.nIdCount + 1 + (recs.length : Int) = st.nIdCount + ((recs.length + 1 : Nat) : Int)
      push_cast
      ring
    · intro hK
      have hfn : alFind st.mapInfo st.nIdCount = none :=
        alFind_none_of_no_key _ _ (fun p hp => ne_of_lt (hK p hp))
      have hset : alSet st.mapInfo st.nIdCount
          ({ readBase rec with nRandomPos := (st.vRandom.length : Int), fInTried := true }) =
          st.mapInfo ++ [(st.nIdCount,
            { readBase rec with nRandomPos := (st.vRandom.length : Int), fInTried := true })] :=
        alSet_of_not_found _ _ _ hfn
      rw [h6 (by
        intro p hp
        show p.1 < st.nIdCount + 1
        rw [hset] at hp
        rcases List.mem_append.mp hp with hp1 | hp2
        · exact lt_trans (hK p hp1) (by omega)
        · rw [List.mem_singleton] at hp2
          subst hp2
          omega)]
      show alSet st.mapInfo st.nIdCount _ ++
        enumTried (st.nIdCount + 1) (st.vRandom ++ [st.nIdCount]).length recs = _
      rw [hset, enumTried, List.append_assoc, List.singleton_append]
      rw [show (st.vRandom ++ [st.nIdCount]).length = st.vRandom.length + 1 from by simp]

theorem enumTried_keys (recs : List CAddrInfo) : ∀ (n : Int) (r : Nat),
    ∀ p ∈ enumTried n r recs, n ≤ p.1 ∧ p.1 < n + recs.length := by
  induction recs with
  | nil =>
    intro n r p hp
    rw [enumTried] at hp
    cases hp
  | cons rec recs ih =>
    intro n r p hp
    rw [enumTried] at hp
    rcases List.mem_cons.mp hp with hp1 | hp2
    · subst hp1
      refine ⟨le_refl n, ?_⟩
      rw [List.length_cons]
      push_cast
      omega
    · obtain ⟨hl, hr⟩ := ih (n + 1) (r + 1) p hp2
      rw [List.length_cons]
      push_cast at hr ⊢
      omega

theorem alEnsure_of_found {α β : Type} [DecidableEq α] (d : β) (m : List (α × β)) (a : α)
    (h : (alFind m a).isSome) : alEnsure d m a = m := by
  rw [alEnsure]
  cases hfa : alFind m a with
  | some v => rfl
  | none => rw [hfa] at h; cases h

theorem alFind_of_mem_nodup {α β : Type} [DecidableEq α] (m : List (α × β)) (a : α) (v : β)
    (hnd : (m.map (fun p => p.1)).Nodup) (hm : (a, v) ∈ m) : alFind m a = some v := by
  induction m with
  | nil => cases hm
  | cons q t ih =>
    obtain ⟨k, w⟩ := q
    rw [List.map_cons, List.nodup_cons] at hnd
    rw [alFind]
    rcases List.mem_cons.mp hm with h1 | h2
    · rw [Prod.mk.injEq] at h1
      rw [if_pos h1.1.symm]
      rw [h1.2]
    · by_cases hk : k = a
      · exfalso
        subst hk
        exact hnd.1 (List.mem_map_of_mem (fun p => p.1) h2)
      · rw [if_neg hk]
        exact ih hnd.2 h2

theorem readBucketInner_clean (L : List Int) :
    ∀ (st : CAddrMan) (b : Nat) (rest : List Nat),
    b < st.vvNew.length →
    L.Nodup →
    (∀ idx ∈ L, 0 ≤ idx ∧ idx < 2 ^ 31) →
    (∀ idx ∈ L, ∃ info, alFind st.mapInfo idx = some info ∧
      info.nRefCount < ((ADDRMAN_NEW_BUCKETS_PER_ADDRESS : Nat) : Int)) →
    (∀ idx ∈ L, idx ∉ st.vvNew.getD b []) →
    readBucketInner ((ADDRMAN_NEW_BUCKET_COUNT : Nat) : Int) L.length st b
      ((L.map i32Bytes).flatten ++ rest) = Except.ok (bucketApply st b L, rest) := by
  induction L with
  | nil =>
    intro st b rest _ _ _ _ _
    rw [List.map_nil, List.flatten_nil, List.nil_append, List.length_nil, readBucketInner,
      bucketApply]
  | cons idx L ih =>
    intro st b rest hblt hnd hbnd hfind hnotin
    rw [List.length_cons, readBucketInner]
    have hstream : ((idx :: L).map i32Bytes).flatten ++ rest =
        i32Bytes idx ++ ((L.map i32Bytes).flatten ++ rest) := by
      simp
    obtain ⟨hb0, hb1⟩ := hbnd idx (List.mem_cons_self _ _)
    rw [hstream]
    simp only [readI32_roundtrip idx _ (by omega) hb1]
    obtain ⟨info, hfi, hrci⟩ := hfind idx (List.mem_cons_self _ _)
    rw [alEnsure_of_found _ _ _ (by rw [hfi]; rfl), hfi]
    rw [if_pos ⟨trivial, by rw [Option.getD_some]; exact hrci⟩]
    simp only [getBucket_lt _ _ hblt]
    rw [if_neg (hnotin idx (List.mem_cons_self _ _))]
    rw [List.nodup_cons] at hnd
    rw [bucketApply]
    rw [ih _ b rest
      (by rw [List.length_set]; exact hblt)
      hnd.2
      (fun i hi => hbnd i (List.mem_cons_of_mem _ hi))
      (by
        intro i hi
        obtain ⟨info2, hfi2, hrci2⟩ := hfind i (List.mem_cons_of_mem _ hi)
        refine ⟨info2, ?_, hrci2⟩
        rw [alFind_alSet_ne _ _ _ _ (fun he => (by subst he; exact hnd.1 hi : False))]
        exact hfi2)
      (by
        intro i hi
        rw [getD_set_self _ _ _ _ hblt]
        rw [List.mem_append]
        rintro (hi1 | hi2)
        · exact hnotin i (List.mem_cons_of_mem _ hi) hi1
        · rw [List.mem_singleton] at hi2
          subst hi2
          exact hnd.1 hi)]
    rw [hfi, Option.getD_some]

theorem take_set_same {α : Type} (l : List α) : ∀ (b : Nat) (v : α),
    (l.set b v).take b = l.take b := by
  induction l with
  | nil =>
    intro b v
    rfl
  | cons a t ih =>
    intro b v
    cases b with
    | zero => rfl
    | succ b =>
      show (a :: t.set b v).take (b + 1) = (a :: t).take (b + 1)
      rw [List.take_succ_cons, List.take_succ_cons, ih]

theorem set_getD_self {α : Type} (l : List α) : ∀ (i : Nat) (d : α), i < l.length →
    l.set i (l.getD i d) = l := by
  induction l with
  | nil =>
    intro i d h
    simp at h
  | cons a t ih =>
    intro i d h
    cases i with
    | zero => rfl
    | succ i =>
      show a :: t.set i (t.getD i d) = a :: t
      rw [ih i d (by simpa using h)]

theorem getD_of_drop_cons {α : Type} (l : List α) (b : Nat) (x : α) (xs : List α) (d : α)
    (h : l.drop b = x :: xs) : l.getD b d = x := by
  rw [List.getD_eq_getElem?_getD]
  have h2 : l[b]? = (l.drop b)[0]? := by
    rw [List.getElem?_drop]
    norm_num
  rw [h2, h]
  simp

theorem alFind_map_val {α β : Type} [DecidableEq α] (m : List (α × β)) (g : α → β → β)
    (a : α) : alFind (m.map (fun p => (p.1, g p.1 p.2))) a = (alFind m a).map (g a) := by
  induction m with
  | nil => rfl
  | cons q t ih =>
    obtain ⟨k, w⟩ := q
    rw [List.map_cons]
    show alFind ((k, g k w) :: t.map (fun p => (p.1, g p.1 p.2))) a = _
    rw [alFind, alFind]
    by_cases hk : k = a
    · subst hk
      rw [if_pos rfl, if_pos rfl, Option.map_some']
    · rw [if_neg hk, if_neg hk, ih]

theorem map_fst_keys {α β : Type} (m : List (α × β)) (g : α → β → β) :
    (m.map (fun p => (p.1, g p.1 p.2))).map (fun p => p.1) = m.map (fun p => p.1) := by
  rw [List.map_map]
  rfl

theorem bucketApply_vvNew (L : List Int) : ∀ (st : CAddrMan) (b : Nat),
    b < st.vvNew.length →
    (bucketApply st b L).vvNew = st.vvNew.set b (st.vvNew.getD b [] ++ L) := by
  induction L with
  | nil =>
    intro st b h
    rw [bucketApply, List.append_nil, set_getD_self _ _ _ h]
  | cons idx L ih =>
    intro st b h
    rw [bucketApply]
    rw [ih _ b (by rw [List.length_set]; exact h)]
    show (st.vvNew.set b (st.vvNew.getD b [] ++ [idx])).set b
      ((st.vvNew.set b (st.vvNew.getD b [] ++ [idx])).getD b [] ++ L) = _
    rw [getD_set_self _ _ _ _ h, List.set_set, List.append_assoc, List.singleton_append]

theorem bucketApply_proj (L : List Int) : ∀ (st : CAddrMan) (b : Nat),
    (bucketApply st b L).nKey = st.nKey ∧ (bucketApply st b L).nNew = st.nNew ∧
    (bucketApply st b L).nTried = st.nTried ∧
    (bucketApply st b L).nIdCount = st.nIdCount ∧
    (bucketApply st b L).vvTried = st.vvTried ∧
    (bucketApply st b L).vvNew.length = st.vvNew.length := by
  induction L with
  | nil =>
    intro st b
    rw [bucketApply]
    exact ⟨rfl, rfl, rfl, rfl, rfl, rfl⟩
  | cons idx L ih =>
    intro st b
    rw [bucketApply]
    obtain ⟨h1, h2, h3, h4, h5, h6⟩ := ih
      { st with
        mapInfo := alSet st.mapInfo idx
          { (alFind st.mapInfo idx).getD defaultAddrInfo with
            nRefCount := ((alFind st.mapInfo idx).getD defaultAddrInfo).nRefCount + 1 },
        vvNew := st.vvNew.set b ((st.vvNew.getD b []) ++ [idx]) } b
    refine ⟨h1, h2, h3, h4, h5, ?_⟩
    rw [h6]
    show (st.vvNew.set b _).length = _
    rw [List.length_set]

theorem map_fst_keys2 {α β : Type} (m : List (α × β)) (f : α × β → α × β)
    (hf : ∀ p, (f p).1 = p.1) :
    (m.map f).map (fun p => p.1) = m.map (fun p => p.1) := by
  rw [List.map_map]
  apply List.map_congr_left
  intro p _
  exact hf p

theorem alFind_map_val2 {α β : Type} [DecidableEq α] (m : List (α × β)) (f : α × β → α × β)
    (hf : ∀ p, (f p).1 = p.1) : ∀ (a : α),
    alFind (m.map f) a = (alFind m a).map (fun v => (f (a, v)).2) := by
  induction m with
  | nil =>
    intro a
    rfl
  | cons q t ih =>
    intro a
    obtain ⟨k, w⟩ := q
    rw [List.map_cons]
    rcases hf2 : f (k, w) with ⟨k2, w2⟩
    have hk2 : k2 = k := by
      have := hf (k, w)
      rw [hf2] at this
      exact this
    subst hk2
    rw [alFind, alFind]
    by_cases hk : k2 = a
    · subst hk
      rw [if_pos rfl, if_pos rfl, Option.map_some', hf2]
    · rw [if_neg hk, if_neg hk, ih]

theorem bucketApply_mapInfo (L : List Int) : ∀ (st : CAddrMan) (b : Nat),
    (st.mapInfo.map (fun p => p.1)).Nodup → L.Nodup →
    (∀ idx ∈ L, (alFind st.mapInfo idx).isSome) →
    (bucketApply st b L).mapInfo =
      st.mapInfo.map (fun p => (p.1, if p.1 ∈ L then
        { p.2 with nRefCount := p.2.nRefCount + 1 } else p.2)) := by
  induction L with
  | nil =>
    intro st b hnd _ _
    rw [bucketApply]
    apply Eq.symm
    have hcong : ∀ p ∈ st.mapInfo, (p.1, if p.1 ∈ ([] : List Int) then
        { p.2 with nRefCount := p.2.nRefCount + 1 } else p.2) = p := by
      intro p hp
      rw [if_neg (List.not_mem_nil p.1)]
    rw [List.map_congr_left hcong, List.map_id']
  | cons idx L ih =>
    intro st b hnd hndL hsome
    rw [List.nodup_cons] at hndL
    obtain ⟨info, hfi⟩ := Option.isSome_iff_exists.mp (hsome idx (List.mem_cons_self _ _))
    rw [bucketApply, hfi, Option.getD_some]
    rw [alSet_eq_map st.mapInfo idx _ hnd (by rw [hfi]; rfl)]
    have hf : ∀ p : Int × CAddrInfo, ((if p.1 = idx then (p.1,
        { info with nRefCount := info.nRefCount + 1 }) else p)).1 = p.1 := by
      intro p
      by_cases h : p.1 = idx
      · rw [if_pos h]
      · rw [if_neg h]
    rw [ih _ b
      (by
        rw [map_fst_keys2 st.mapInfo _ hf]
        exact hnd)
      hndL.2
      (by
        intro i hi
        obtain ⟨w, hw⟩ := Option.isSome_iff_exists.mp (hsome i (List.mem_cons_of_mem _ hi))
        rw [alFind_map_val2 st.mapInfo _ hf i, hw]
        rfl)]
    rw [List.map_map]
    apply List.map_congr_left
    intro p hp
    simp only [Function.comp_apply]
    by_cases hpi : p.1 = idx
    · have h2 : alFind st.mapInfo idx = some p.2 := by
        rw [← hpi]
        exact alFind_of_mem_nodup _ _ _ hnd (by obtain ⟨a, i2⟩ := p; exact hp)
      have hpv : info = p.2 := by
        rw [h2] at hfi
        injection hfi with hv
        exact hv.symm
      subst hpv
      rw [if_pos hpi]
      show (p.1, if p.1 ∈ L then _ else _) = _
      rw [if_neg (by rw [hpi]; exact hndL.1),
        if_pos (by rw [hpi]; exact List.mem_cons_self idx L)]
    · rw [if_neg hpi]
      show (p.1, if p.1 ∈ L then _ else _) = _
      by_cases hmL : p.1 ∈ L
      · rw [if_pos hmL, if_pos (List.mem_cons_of_mem _ hmL)]
      · rw [if_neg hmL, if_neg (by
          intro hmem
          rcases List.mem_cons.mp hmem with h | h
          · exact hpi h
          · exact hmL h)]

theorem bucketApply_find (L : List Int) (st : CAddrMan) (b : Nat) (a : Int)
    (hnd : (st.mapInfo.map (fun p => p.1)).Nodup) (hndL : L.Nodup)
    (hsome : ∀ idx ∈ L, (alFind st.mapInfo idx).isSome) :
    alFind (bucketApply st b L).mapInfo a = (alFind st.mapInfo a).map
      (fun v => if a ∈ L then { v with nRefCount := v.nRefCount + 1 } else v) := by
  rw [bucketApply_mapInfo L st b hnd hndL hsome]
  rw [alFind_map_val2 st.mapInfo (fun p => (p.1, if p.1 ∈ L then
    { p.2 with nRefCount := p.2.nRefCount + 1 } else p.2)) (fun p => rfl) a]

theorem bucketPhase_proj (LL : List (List Int)) : ∀ (st : CAddrMan) (b : Nat),
    (bucketPhase st LL b).nKey = st.nKey ∧ (bucketPhase st LL b).nNew = st.nNew ∧
    (bucketPhase st LL b).nTried = st.nTried ∧
    (bucketPhase st LL b).nIdCount = st.nIdCount ∧
    (bucketPhase st LL b).vvTried = st.vvTried := by
  induction LL with
  | nil =>
    intro st b
    rw [bucketPhase]
    exact ⟨rfl, rfl, rfl, rfl, rfl⟩
  | cons L LL ih =>
    intro st b
    rw [bucketPhase]
    obtain ⟨h1, h2, h3, h4, h5⟩ := ih (bucketApply st b L) (b + 1)
    obtain ⟨g1, g2, g3, g4, g5, _⟩ := bucketApply_proj L st b
    exact ⟨h1.trans g1, h2.trans g2, h3.trans g3, h4.trans g4, h5.trans g5⟩

theorem bucketPhase_vvNew (LL : List (List Int)) : ∀ (st : CAddrMan) (b : Nat),
    b + LL.length = st.vvNew.length →
    st.vvNew.drop b = List.replicate LL.length [] →
    (bucketPhase st LL b).vvNew = st.vvNew.take b ++ LL := by
  induction LL with
  | nil =>
    intro st b hlen hdrop
    rw [List.length_nil] at hlen
    rw [bucketPhase, List.append_nil]
    exact (List.take_of_length_le (by omega)).symm
  | cons L LL ih =>
    intro st b hlen hdrop
    rw [List.length_cons] at hlen hdrop
    have hblt : b < st.vvNew.length := by omega
    have hgd : st.vvNew.getD b [] = [] :=
      getD_of_drop_cons _ _ _ _ _ (by rw [hdrop]; rfl)
    rw [bucketPhase]
    have hva : (bucketApply st b L).vvNew = st.vvNew.set b L := by
      rw [bucketApply_vvNew L st b hblt, hgd, List.nil_append]
    rw [ih (bucketApply st b L) (b + 1)
      (by rw [hva, List.length_set]; omega)
      (by
        rw [hva]
        have hdd : (st.vvNew.set b L).drop (b + 1) = st.vvNew.drop (b + 1) :=
          List.drop_set_of_lt _ _ (by omega)
        rw [hdd]
        have hd1 : st.vvNew.drop (b + 1) = (st.vvNew.drop b).drop 1 := by
          rw [List.drop_drop]
        rw [hd1, hdrop]
        rw [List.drop_replicate]
        norm_num)]
    rw [hva]
    rw [List.take_succ, take_set_same]
    rw [show (st.vvNew.set b L)[b]? = some L from by
      rw [List.getElem?_set_self']
      rw [List.getElem?_eq_getElem hblt]
      rfl]
    rw [show (some L).toList = [L] from rfl]
    rw [List.append_assoc, List.singleton_append]

theorem bucketApply_keys (L : List Int) (st : CAddrMan) (b : Nat)
    (hnd : (st.mapInfo.map (fun p => p.1)).Nodup) (hndL : L.Nodup)
    (hsome : ∀ idx ∈ L, (alFind st.mapInfo idx).isSome) :
    (bucketApply st b L).mapInfo.map (fun p => p.1) = st.mapInfo.map (fun p => p.1) := by
  rw [bucketApply_mapInfo L st b hnd hndL hsome]
  exact map_fst_keys2 st.mapInfo _ (fun p => rfl)

theorem bucketPhase_mapInfo (LL : List (List Int)) : ∀ (st : CAddrMan) (b : Nat),
    (st.mapInfo.map (fun p => p.1)).Nodup →
    (∀ L ∈ LL, L.Nodup) →
    (∀ L ∈ LL, ∀ idx ∈ L, (alFind st.mapInfo idx).isSome) →
    (bucketPhase st LL b).mapInfo =
      st.mapInfo.map (fun p => (p.1,
        { p.2 with nRefCount := p.2.nRefCount + ((occAll LL p.1 : Nat) : Int) })) := by
  induction LL with
  | nil =>
    intro st b hnd _ _
    rw [bucketPhase]
    apply Eq.symm
    have hcong : ∀ p ∈ st.mapInfo, (p.1,
        { p.2 with nRefCount := p.2.nRefCount + ((occAll [] p.1 : Nat) : Int) }) = p := by
      intro p hp
      rw [show ((occAll [] p.1 : Nat) : Int) = 0 from rfl]
      rw [show p.2.nRefCount + 0 = p.2.nRefCount from by omega]
    rw [List.map_congr_left hcong, List.map_id']
  | cons L LL ih =>
    intro st b hnd hnds hsome
    rw [bucketPhase]
    have hndL : L.Nodup := hnds L (List.mem_cons_self _ _)
    have hsomeL : ∀ idx ∈ L, (alFind st.mapInfo idx).isSome :=
      fun idx hi => hsome L (List.mem_cons_self _ _) idx hi
    rw [ih (bucketApply st b L) (b + 1)
      (by rw [bucketApply_keys L st b hnd hndL hsomeL]; exact hnd)
      (fun L2 h2 => hnds L2 (List.mem_cons_of_mem _ h2))
      (by
        intro L2 h2 idx hi
        rw [bucketApply_find L st b idx hnd hndL hsomeL]
        obtain ⟨w, hw⟩ := Option.isSome_iff_exists.mp
          (hsome L2 (List.mem_cons_of_mem _ h2) idx hi)
        rw [hw]
        rfl)]
    rw [bucketApply_mapInfo L st b hnd hndL hsomeL, List.map_map]
    apply List.map_congr_left
    intro p hp
    simp only [Function.comp_apply]
    have hocc : occAll (L :: LL) p.1 = L.count p.1 + occAll LL p.1 := rfl
    by_cases hmL : p.1 ∈ L
    · rw [if_pos hmL]
      show (p.1, { p.2 with nRefCount := (p.2.nRefCount + 1) +
        ((occAll LL p.1 : Nat) : Int) }) = _
      rw [show (p.2.nRefCount + 1) + ((occAll LL p.1 : Nat) : Int) =
          p.2.nRefCount + ((occAll (L :: LL) p.1 : Nat) : Int) from by
        rw [hocc, List.count_eq_one_of_mem hndL hmL]
        push_cast
        ring]
    · rw [if_neg hmL]
      show (p.1, { p.2 with nRefCount := p.2.nRefCount +
        ((occAll LL p.1 : Nat) : Int) }) = _
      rw [show p.2.nRefCount + ((occAll LL p.1 : Nat) : Int) =
          p.2.nRefCount + ((occAll (L :: LL) p.1 : Nat) : Int) from by
        rw [hocc, List.count_eq_zero.mpr hmL]
        push_cast
        ring]

theorem readBucketLoop_clean (LL : List (List Int)) : ∀ (st : CAddrMan) (b : Nat)
    (rest : List Nat),
    b + LL.length ≤ st.vvNew.length →
    (st.mapInfo.map (fun p => p.1)).Nodup →
    (∀ L ∈ LL, L.Nodup) →
    (∀ L ∈ LL, L.length < 2 ^ 31) →
    (∀ L ∈ LL, ∀ idx ∈ L, 0 ≤ idx ∧ idx < 2 ^ 31) →
    (∀ L ∈ LL, ∀ idx ∈ L, ∃ info, alFind st.mapInfo idx = some info ∧
      info.nRefCount + ((occAll LL idx : Nat) : Int) ≤
        ((ADDRMAN_NEW_BUCKETS_PER_ADDRESS : Nat) : Int)) →
    st.vvNew.drop b = List.replicate LL.length [] →
    readBucketLoop ((ADDRMAN_NEW_BUCKET_COUNT : Nat) : Int) LL.length st b
      (bucketBytesOf LL ++ rest) = Except.ok (bucketPhase st LL b, rest) := by
  induction LL with
  | nil =>
    intro st b rest _ _ _ _ _ _ _
    rw [List.length_nil, readBucketLoop, bucketPhase]
    rw [show bucketBytesOf [] ++ rest = rest from by rw [bucketBytesOf]; simp]
  | cons L LL ih =>
    intro st b rest hle hnd hnds hlens hbnds hbud hdrop
    rw [List.length_cons] at hle hdrop ⊢
    have hblt : b < st.vvNew.length := by omega
    rw [readBucketLoop]
    simp only [getBucket_lt _ _ hblt]
    have hstream : bucketBytesOf (L :: LL) ++ rest =
        i32Bytes (L.length : Int) ++ ((L.map i32Bytes).flatten ++
          (bucketBytesOf LL ++ rest)) := by
      rw [bucketBytesOf, bucketBytesOf]
      simp [List.append_assoc]
    rw [hstream]
    have hlenL : ((L.length : Nat) : Int) < 2 ^ 31 := by
      have := hlens L (List.mem_cons_self _ _)
      omega
    simp only [readI32_roundtrip ((L.length : Nat) : Int) _ (by omega) hlenL]
    rw [Int.toNat_natCast]
    have hndL : L.Nodup := hnds L (List.mem_cons_self _ _)
    have hgd : st.vvNew.getD b [] = [] :=
      getD_of_drop_cons _ _ _ _ _ (by rw [hdrop]; rfl)
    have hsomeL : ∀ idx ∈ L, (alFind st.mapInfo idx).isSome := by
      intro idx hi
      obtain ⟨info, hfi, _⟩ := hbud L (List.mem_cons_self _ _) idx hi
      rw [hfi]
      rfl
    simp only [readBucketInner_clean L st b (bucketBytesOf LL ++ rest) hblt hndL
      (fun idx hi => hbnds L (List.mem_cons_self _ _) idx hi)
      (by
        intro idx hi
        obtain ⟨info, hfi, hbd⟩ := hbud L (List.mem_cons_self _ _) idx hi
        refine ⟨info, hfi, ?_⟩
        have hcnt1 : 1 ≤ L.count idx :=
          Nat.pos_of_ne_zero (fun h0 => (List.count_eq_zero.mp h0) hi)
        have hocc : occAll (L :: LL) idx = L.count idx + occAll LL idx := rfl
        rw [hocc] at hbd
        have h4 : ((ADDRMAN_NEW_BUCKETS_PER_ADDRESS : Nat) : Int) = 4 := by decide
        rw [h4] at hbd ⊢
        push_cast at hbd
        omega)
      (by
        intro idx hi
        rw [hgd]
        exact List.not_mem_nil idx)]
    rw [ih (bucketApply st b L) (b + 1) rest
      (by
        obtain ⟨_, _, _, _, _, h6⟩ := bucketApply_proj L st b
        rw [h6]
        omega)
      (by rw [bucketApply_keys L st b hnd hndL hsomeL]; exact hnd)
      (fun L2 h2 => hnds L2 (List.mem_cons_of_mem _ h2))
      (fun L2 h2 => hlens L2 (List.mem_cons_of_mem _ h2))
      (fun L2 h2 => hbnds L2 (List.mem_cons_of_mem _ h2))
      (by
        intro L2 h2 idx hi
        obtain ⟨info, hfi, hbd⟩ := hbud L2 (List.mem_cons_of_mem _ h2) idx hi
        rw [bucketApply_find L st b idx hnd hndL hsomeL, hfi, Option.map_some']
        have hocc : occAll (L :: LL) idx = L.count idx + occAll LL idx := rfl
        rw [hocc] at hbd
        have h4 : ((ADDRMAN_NEW_BUCKETS_PER_ADDRESS : Nat) : Int) = 4 := by decide
        rw [h4] at hbd ⊢
        by_cases hmL : idx ∈ L
        · rw [if_pos hmL]
          refine ⟨_, rfl, ?_⟩
          show info.nRefCount + 1 + ((occAll LL idx : Nat) : Int) ≤ 4
          rw [List.count_eq_one_of_mem hndL hmL] at hbd
          push_cast at hbd
          omega
        · rw [if_neg hmL]
          refine ⟨info, rfl, ?_⟩
          rw [List.count_eq_zero.mpr hmL] at hbd
          push_cast at hbd
          omega)
      (by
        rw [bucketApply_vvNew L st b hblt, hgd, List.nil_append]
        have hdd : (st.vvNew.set b L).drop (b + 1) = st.vvNew.drop (b + 1) :=
          List.drop_set_of_lt _ _ (by omega)
        rw [hdd]
        have hd1 : st.vvNew.drop (b + 1) = (st.vvNew.drop b).drop 1 := by
          rw [List.drop_drop]
        rw [hd1, hdrop]
        rw [List.drop_replicate]
        norm_num)]
    rw [bucketPhase]

theorem enumNew_mem (recs : List CAddrInfo) : ∀ (n : Int) (r : Nat) (p : Int × CAddrInfo),
    p ∈ enumNew n r recs → ∃ j : Nat, j < recs.length ∧
      p = (n + (j : Int), { readBase (recs.getD j defaultAddrInfo) with
        nRandomPos := ((r + j : Nat) : Int) }) := by
  induction recs with
  | nil =>
    intro n r p hp
    rw [enumNew] at hp
    cases hp
  | cons rec recs ih =>
    intro n r p hp
    rw [enumNew] at hp
    rcases List.mem_cons.mp hp with hp1 | hp2
    · refine ⟨0, by simp, ?_⟩
      rw [hp1]
      norm_num
    · obtain ⟨j, hj, hpe⟩ := ih (n + 1) (r + 1) p hp2
      refine ⟨j + 1, by simp; omega, ?_⟩
      rw [hpe]
      rw [show (n + 1) + (j : Int) = n + ((j + 1 : Nat) : Int) from by push_cast; ring]
      rw [show (r + 1) + j = r + (j + 1) from by omega]
      rfl

theorem enumTried_mem (recs : List CAddrInfo) : ∀ (n : Int) (r : Nat) (p : Int × CAddrInfo),
    p ∈ enumTried n r recs → ∃ j : Nat, j < recs.length ∧
      p = (n + (j : Int), { readBase (recs.getD j defaultAddrInfo) with
        nRandomPos := ((r + j : Nat) : Int), fInTried := true }) := by
  induction recs with
  | nil =>
    intro n r p hp
    rw [enumTried] at hp
    cases hp
  | cons rec recs ih =>
    intro n r p hp
    rw [enumTried] at hp
    rcases List.mem_cons.mp hp with hp1 | hp2
    · refine ⟨0, by simp, ?_⟩
      rw [hp1]
      norm_num
    · obtain ⟨j, hj, hpe⟩ := ih (n + 1) (r + 1) p hp2
      refine ⟨j + 1, by simp; omega, ?_⟩
      rw [hpe]
      rw [show (n + 1) + (j : Int) = n + ((j + 1 : Nat) : Int) from by push_cast; ring]
      rw [show (r + 1) + j = r + (j + 1) from by omega]
      rfl

theorem enumNew_keys_nodup (recs : List CAddrInfo) : ∀ (n : Int) (r : Nat),
    ((enumNew n r recs).map (fun p => p.1)).Nodup := by
  induction recs with
  | nil =>
    intro n r
    rw [enumNew]
    exact List.nodup_nil
  | cons rec recs ih =>
    intro n r
    rw [enumNew, List.map_cons, List.nodup_cons]
    refine ⟨?_, ih (n + 1) (r + 1)⟩
    intro hmem
    rw [List.mem_map] at hmem
    obtain ⟨p, hp, hpk⟩ := hmem
    have := (enumNew_keys recs (n + 1) (r + 1) p hp).1
    omega

theorem enumTried_keys_nodup (recs : List CAddrInfo) : ∀ (n : Int) (r : Nat),
    ((enumTried n r recs).map (fun p => p.1)).Nodup := by
  induction recs with
  | nil =>
    intro n r
    rw [enumTried]
    exact List.nodup_nil
  | cons rec recs ih =>
    intro n r
    rw [enumTried, List.map_cons, List.nodup_cons]
    refine ⟨?_, ih (n + 1) (r + 1)⟩
    intro hmem
    rw [List.mem_map] at hmem
    obtain ⟨p, hp, hpk⟩ := hmem
    have := (enumTried_keys recs (n + 1) (r + 1) p hp).1
    omega

theorem indexOf_inj_mem (N : List Int) (a b : Int) (ha : a ∈ N) (hb : b ∈ N)
    (h : N.indexOf a = N.indexOf b) : a = b := by
  have h1 := List.indexOf_get (List.indexOf_lt_length.mpr ha)
  have h2 := List.indexOf_get (List.indexOf_lt_length.mpr hb)
  rw [← h1, ← h2]
  congr 1
  exact Fin.ext h

theorem count_map_rank (N : List Int) (bkt : List Int) (id0 : Int) (h0 : id0 ∈ N)
    (hsub : ∀ id ∈ bkt, id ∈ N) :
    (bkt.map (fun id => ((N.indexOf id : Nat) : Int))).count ((N.indexOf id0 : Nat) : Int) =
      bkt.count id0 := by
  induction bkt with
  | nil => rfl
  | cons a t ih =>
    rw [List.map_cons, List.count_cons, List.count_cons]
    rw [ih (fun i hi => hsub i (List.mem_cons_of_mem _ hi))]
    congr 1
    by_cases hae : a = id0
    · subst hae
      rw [if_pos (by simp), if_pos (by simp)]
    · rw [if_neg (by
        simp only [beq_iff_eq, Int.natCast_inj]
        intro hidx
        exact hae (indexOf_inj_mem N a id0 (hsub a (List.mem_cons_self _ _)) h0 hidx)),
        if_neg (by simp; exact hae)]

theorem occAll_zero_of_notmem (LL : List (List Int)) (x : Int) (h : ∀ L ∈ LL, x ∉ L) :
    occAll LL x = 0 := by
  apply List.sum_eq_zero
  intro y hy
  rw [List.mem_map] at hy
  obtain ⟨L, hL, rfl⟩ := hy
  exact List.count_eq_zero.mpr (h L hL)

theorem occAll_map_rank (N : List Int) (vv : List (List Int)) (id0 : Int) (h0 : id0 ∈ N)
    (hsub : ∀ bkt ∈ vv, ∀ id ∈ bkt, id ∈ N) :
    occAll (vv.map (fun bkt => bkt.map (fun id => ((N.indexOf id : Nat) : Int))))
      ((N.indexOf id0 : Nat) : Int) = bucketOccurrences vv id0 := by
  unfold occAll bucketOccurrences
  rw [List.map_map]
  congr 1
  apply List.map_congr_left
  intro bkt hbkt
  exact count_map_rank N bkt id0 h0 (hsub bkt hbkt)

theorem getD_replicate_nil (n b : Nat) :
    (List.replicate n ([] : List Int)).getD b [] = [] := by
  rw [List.getD_eq_getElem?_getD, List.getElem?_replicate]
  by_cases hb : b < n
  · rw [if_pos hb]
    rfl
  · rw [if_neg hb]
    rfl

theorem filter_map_pred {α β : Type} (f : α → β) (p : β → Bool) (q : α → Bool)
    (l : List α) (h : ∀ a ∈ l, p (f a) = q a) :
    (l.map f).filter p = (l.filter q).map f := by
  induction l with
  | nil => rfl
  | cons a t ih =>
    rw [List.map_cons, List.filter_cons, List.filter_cons,
      h a (List.mem_cons_self _ _)]
    by_cases hq : q a
    · rw [if_pos hq, if_pos hq, List.map_cons, ih (fun x hx => h x (List.mem_cons_of_mem _ hx))]
    · rw [if_neg hq, if_neg hq, ih (fun x hx => h x (List.mem_cons_of_mem _ hx))]

theorem enumNew_tuple_map (recs : List CAddrInfo) : ∀ (n : Int) (r : Nat),
    (enumNew n r recs).map (fun p => infoTuple p.2) = recs.map infoTuple := by
  induction recs with
  | nil =>
    intro n r
    rfl
  | cons rec recs ih =>
    intro n r
    rw [enumNew, List.map_cons, List.map_cons, ih]
    rfl

theorem enumTried_tuple_map (recs : List CAddrInfo) : ∀ (n : Int) (r : Nat),
    (enumTried n r recs).map (fun p => infoTuple p.2) = recs.map infoTuple := by
  induction recs with
  | nil =>
    intro n r
    rfl
  | cons rec recs ih =>
    intro n r
    rw [enumTried, List.map_cons, List.map_cons, ih]
    rfl

set_option maxRecDepth 4000 in
/-- C1: serializing any state satisfying the spec-section-3 invariants and
deserializing the stream with unchanged constants succeeds and yields a
state with the same `tried` records (endpoint, source, `nLastSuccess`,
`nAttempts`, in order), the same `new` records, the same set of endpoints
reachable through the new buckets, and unchanged `nTried` and `nNew`; under
these invariants no tried record's recomputed bucket can be full at reload,
so nothing is dropped and `nTried` is decreased by exactly the number of
dropped records, namely zero. -/
theorem claim1_roundtrip (B : BucketHash) (s : CAddrMan) (h : AddrManWF B s) :
    ∃ s2, deserializeAddrMan B (serializeAddrMan s) = Except.ok s2 ∧
      triedTuples s2 = triedTuples s ∧ newTuples s2 = newTuples s ∧
      (∀ a, a ∈ newReachableAddrs s2 ↔ a ∈ newReachableAddrs s) ∧
      s2.nTried = s.nTried ∧ s2.nNew = s.nNew := by
  obtain ⟨hkey, hvn, hvt, hlen, hnew, htried, hnd, hrec, hexcl, hocc, hbkt, htb, hbsz, hrcb⟩ := h
  have hNlen : (newRecsOf s).length = (newInfos s).length := List.length_map _ _
  have hTlen : (triedRecsOf s).length = (triedInfos s).length := List.length_map _ _
  have hNsub : (newInfos s).length ≤ s.mapInfo.length :=
    List.length_filter_le _ _
  have hTsub : (triedInfos s).length ≤ s.mapInfo.length :=
    List.length_filter_le _ _
  have hWFnew : ∀ i ∈ newRecsOf s, RecWF i := by
    intro i hi
    rw [newRecsOf, List.mem_map] at hi
    obtain ⟨p, hp, rfl⟩ := hi
    exact hrec p (List.mem_of_mem_filter hp)
  have hWFtried : ∀ i ∈ triedRecsOf s, RecWF i := by
    intro i hi
    rw [triedRecsOf, List.mem_map] at hi
    obtain ⟨p, hp, rfl⟩ := hi
    exact hrec p (List.mem_of_mem_filter hp)
  -- member ids of new buckets lie in the rank list
  have hmemN : ∀ bkt ∈ s.vvNew, ∀ id ∈ bkt, id ∈ newIdsOf s := by
    intro bkt hbm id hid
    obtain ⟨info, hfind, hrcn⟩ := (hbkt bkt hbm).2 id hid
    rw [newIdsOf, List.mem_map]
    exact ⟨(id, info), List.mem_filter.mpr ⟨alFind_mem _ _ _ hfind, hrcn⟩, rfl⟩
  -- the three byte segments
  have hNBeq : (writeNewAux s.nNew s.mapInfo 0).2 =
      ((newRecsOf s).map addrInfoBytes).flatten := by
    rw [writeNewAux_bytes s.nNew s.mapInfo 0 (by rw [hnew]; unfold newInfos; omega)]
    rw [newRecsOf, List.map_map]
    rfl
  have hTBeq : writeTriedAux s.nTried s.mapInfo 0 =
      ((triedRecsOf s).map addrInfoBytes).flatten := by
    rw [writeTriedAux_bytes s.nTried s.mapInfo 0 (by rw [htried]; unfold triedInfos; omega)]
    rw [triedRecsOf, List.map_map]
    rfl
  have hBBeq : writeBucketsBytes (writeNewAux s.nNew s.mapInfo 0).1 s.vvNew =
      bucketBytesOf (rankBucketsOf s) := by
    unfold writeBucketsBytes bucketBytesOf rankBucketsOf
    rw [List.map_map]
    congr 1
    apply List.map_congr_left
    intro bkt hbm
    simp only [Function.comp_apply]
    congr 1
    · rw [List.length_map]
    · rw [List.map_map]
      apply congrArg
      apply List.map_congr_left
      intro id hid
      obtain ⟨info, hfind, hrcn⟩ := (hbkt bkt hbm).2 id hid
      rw [writeNewAux_find s.nNew s.mapInfo 0 id info hnd (alFind_mem _ _ _ hfind) hrcn
        (by rw [hnew]; unfold newInfos; omega)]
      rw [Option.getD_some]
      simp only [Function.comp_apply]
      unfold newIdsOf newInfos
      norm_num
  have hSER : serializeAddrMan s = u8Bytes 0 ++ (s.nKey ++ (i32Bytes s.nNew ++
      (i32Bytes s.nTried ++ (i32Bytes ((ADDRMAN_NEW_BUCKET_COUNT : Nat) : Int) ++
      (((newRecsOf s).map addrInfoBytes).flatten ++
        (((triedRecsOf s).map addrInfoBytes).flatten ++
          bucketBytesOf (rankBucketsOf s))))))) := by
    unfold serializeAddrMan
    rw [hNBeq, hTBeq, hBBeq]
    simp [List.append_assoc]
  have h1 : readU8 (serializeAddrMan s) = some (0, s.nKey ++ (i32Bytes s.nNew ++
      (i32Bytes s.nTried ++ (i32Bytes ((ADDRMAN_NEW_BUCKET_COUNT : Nat) : Int) ++
      (((newRecsOf s).map addrInfoBytes).flatten ++
        (((triedRecsOf s).map addrInfoBytes).flatten ++
          bucketBytesOf (rankBucketsOf s))))))) := by
    rw [hSER]
    rfl
  have h2 : readNBytes 32 (s.nKey ++ (i32Bytes s.nNew ++
      (i32Bytes s.nTried ++ (i32Bytes ((ADDRMAN_NEW_BUCKET_COUNT : Nat) : Int) ++
      (((newRecsOf s).map addrInfoBytes).flatten ++
        (((triedRecsOf s).map addrInfoBytes).flatten ++
          bucketBytesOf (rankBucketsOf s))))))) = some (s.nKey, i32Bytes s.nNew ++
      (i32Bytes s.nTried ++ (i32Bytes ((ADDRMAN_NEW_BUCKET_COUNT : Nat) : Int) ++
      (((newRecsOf s).map addrInfoBytes).flatten ++
        (((triedRecsOf s).map addrInfoBytes).flatten ++
          bucketBytesOf (rankBucketsOf s)))))) :=
    readNBytes_roundtrip 32 s.nKey _ hkey
  have h3 : readI32 (i32Bytes s.nNew ++
      (i32Bytes s.nTried ++ (i32Bytes ((ADDRMAN_NEW_BUCKET_COUNT : Nat) : Int) ++
      (((newRecsOf s).map addrInfoBytes).flatten ++
        (((triedRecsOf s).map addrInfoBytes).flatten ++
          bucketBytesOf (rankBucketsOf s)))))) = some (s.nNew,
      i32Bytes s.nTried ++ (i32Bytes ((ADDRMAN_NEW_BUCKET_COUNT : Nat) : Int) ++
      (((newRecsOf s).map addrInfoBytes).flatten ++
        (((triedRecsOf s).map addrInfoBytes).flatten ++
          bucketBytesOf (rankBucketsOf s))))) :=
    readI32_roundtrip _ _ (by rw [hnew]; omega) (by rw [hnew]; push_cast; omega)
  have h4 : readI32 (i32Bytes s.nTried ++ (i32Bytes ((ADDRMAN_NEW_BUCKET_COUNT : Nat) : Int) ++
      (((newRecsOf s).map addrInfoBytes).flatten ++
        (((triedRecsOf s).map addrInfoBytes).flatten ++
          bucketBytesOf (rankBucketsOf s))))) = some (s.nTried,
      i32Bytes ((ADDRMAN_NEW_BUCKET_COUNT : Nat) : Int) ++
      (((newRecsOf s).map addrInfoBytes).flatten ++
        (((triedRecsOf s).map addrInfoBytes).flatten ++
          bucketBytesOf (rankBucketsOf s)))) :=
    readI32_roundtrip _ _ (by rw [htried]; omega) (by rw [htried]; push_cast; omega)
  have h5 : readI32 (i32Bytes ((ADDRMAN_NEW_BUCKET_COUNT : Nat) : Int) ++
      (((newRecsOf s).map addrInfoBytes).flatten ++
        (((triedRecsOf s).map addrInfoBytes).flatten ++
          bucketBytesOf (rankBucketsOf s)))) = some (((ADDRMAN_NEW_BUCKET_COUNT : Nat) : Int),
      ((newRecsOf s).map addrInfoBytes).flatten ++
        (((triedRecsOf s).map addrInfoBytes).flatten ++
          bucketBytesOf (rankBucketsOf s))) :=
    readI32_roundtrip _ _ (by norm_num [ADDRMAN_NEW_BUCKET_COUNT])
      (by norm_num [ADDRMAN_NEW_BUCKET_COUNT])
  have hNL : readNewLoop B ((ADDRMAN_NEW_BUCKET_COUNT : Nat) : Int) s.nNew.toNat { nKey := s.nKey, nIdCount := 0, mapInfo := [], mapAddr := [], vRandom := [], nTried := s.nTried, nNew := s.nNew, vvTried := List.replicate ADDRMAN_TRIED_BUCKET_COUNT [], vvNew := List.replicate ADDRMAN_NEW_BUCKET_COUNT [] } 0 (((newRecsOf s).map addrInfoBytes).flatten ++ (((triedRecsOf s).map addrInfoBytes).flatten ++ bucketBytesOf (rankBucketsOf s))) = Except.ok (newPhase { nKey := s.nKey, nIdCount := 0, mapInfo := [], mapAddr := [], vRandom := [], nTried := s.nTried, nNew := s.nNew, vvTried := List.replicate ADDRMAN_TRIED_BUCKET_COUNT [], vvNew := List.replicate ADDRMAN_NEW_BUCKET_COUNT [] } 0 (newRecsOf s), ((triedRecsOf s).map addrInfoBytes).flatten ++ bucketBytesOf (rankBucketsOf s)) := by
    rw [show s.nNew.toNat = (newRecsOf s).length from by
      rw [hnew, Int.toNat_natCast, hNlen]]
    exact readNewLoop_clean B (newRecsOf s) _ 0 _ hWFnew
  have hK1 : (newPhase { nKey := s.nKey, nIdCount := 0, mapInfo := [], mapAddr := [], vRandom := [], nTried := s.nTried, nNew := s.nNew, vvTried := List.replicate ADDRMAN_TRIED_BUCKET_COUNT [], vvNew := List.replicate ADDRMAN_NEW_BUCKET_COUNT [] } 0 (newRecsOf s)).nKey = s.nKey :=
    (newPhase_proj _ _ _).2.2.1
  have hvt1 : (newPhase { nKey := s.nKey, nIdCount := 0, mapInfo := [], mapAddr := [], vRandom := [], nTried := s.nTried, nNew := s.nNew, vvTried := List.replicate ADDRMAN_TRIED_BUCKET_COUNT [], vvNew := List.replicate ADDRMAN_NEW_BUCKET_COUNT [] } 0 (newRecsOf s)).vvTried = List.replicate ADDRMAN_TRIED_BUCKET_COUNT [] :=
    (newPhase_proj _ _ _).2.1
  have hvn1 : (newPhase { nKey := s.nKey, nIdCount := 0, mapInfo := [], mapAddr := [], vRandom := [], nTried := s.nTried, nNew := s.nNew, vvTried := List.replicate ADDRMAN_TRIED_BUCKET_COUNT [], vvNew := List.replicate ADDRMAN_NEW_BUCKET_COUNT [] } 0 (newRecsOf s)).vvNew = List.replicate ADDRMAN_NEW_BUCKET_COUNT [] :=
    (newPhase_proj _ _ _).1
  have hnN1 : (newPhase { nKey := s.nKey, nIdCount := 0, mapInfo := [], mapAddr := [], vRandom := [], nTried := s.nTried, nNew := s.nNew, vvTried := List.replicate ADDRMAN_TRIED_BUCKET_COUNT [], vvNew := List.replicate ADDRMAN_NEW_BUCKET_COUNT [] } 0 (newRecsOf s)).nNew = s.nNew :=
    (newPhase_proj _ _ _).2.2.2.1
  have hnT1 : (newPhase { nKey := s.nKey, nIdCount := 0, mapInfo := [], mapAddr := [], vRandom := [], nTried := s.nTried, nNew := s.nNew, vvTried := List.replicate ADDRMAN_TRIED_BUCKET_COUNT [], vvNew := List.replicate ADDRMAN_NEW_BUCKET_COUNT [] } 0 (newRecsOf s)).nTried = s.nTried :=
    (newPhase_proj _ _ _).2.2.2.2.1
  have hvr1 : (newPhase { nKey := s.nKey, nIdCount := 0, mapInfo := [], mapAddr := [], vRandom := [], nTried := s.nTried, nNew := s.nNew, vvTried := List.replicate ADDRMAN_TRIED_BUCKET_COUNT [], vvNew := List.replicate ADDRMAN_NEW_BUCKET_COUNT [] } 0 (newRecsOf s)).vRandom.length = (newRecsOf s).length := by
    have h9 := (newPhase_proj (newRecsOf s) { nKey := s.nKey, nIdCount := 0, mapInfo := [], mapAddr := [], vRandom := [], nTried := s.nTried, nNew := s.nNew, vvTried := List.replicate ADDRMAN_TRIED_BUCKET_COUNT [], vvNew := List.replicate ADDRMAN_NEW_BUCKET_COUNT [] } 0).2.2.2.2.2.2.1
    rw [h9]
    show (0 : Nat) + (newRecsOf s).length = (newRecsOf s).length
    omega
  have hmi1 : (newPhase { nKey := s.nKey, nIdCount := 0, mapInfo := [], mapAddr := [], vRandom := [], nTried := s.nTried, nNew := s.nNew, vvTried := List.replicate ADDRMAN_TRIED_BUCKET_COUNT [], vvNew := List.replicate ADDRMAN_NEW_BUCKET_COUNT [] } 0 (newRecsOf s)).mapInfo = enumNew 0 0 (newRecsOf s) := by
    have h9 := (newPhase_proj (newRecsOf s) { nKey := s.nKey, nIdCount := 0, mapInfo := [], mapAddr := [], vRandom := [], nTried := s.nTried, nNew := s.nNew, vvTried := List.replicate ADDRMAN_TRIED_BUCKET_COUNT [], vvNew := List.replicate ADDRMAN_NEW_BUCKET_COUNT [] } 0).2.2.2.2.2.2.2
      (by intro p hp; cases hp)
    rw [h9]
    rfl
  have hTL : readTriedLoop B s.nTried.toNat { newPhase { nKey := s.nKey, nIdCount := 0, mapInfo := [], mapAddr := [], vRandom := [], nTried := s.nTried, nNew := s.nNew, vvTried := List.replicate ADDRMAN_TRIED_BUCKET_COUNT [], vvNew := List.replicate ADDRMAN_NEW_BUCKET_COUNT [] } 0 (newRecsOf s) with nIdCount := (newPhase { nKey := s.nKey, nIdCount := 0, mapInfo := [], mapAddr := [], vRandom := [], nTried := s.nTried, nNew := s.nNew, vvTried := List.replicate ADDRMAN_TRIED_BUCKET_COUNT [], vvNew := List.replicate ADDRMAN_NEW_BUCKET_COUNT [] } 0 (newRecsOf s)).nNew } 0 (((triedRecsOf s).map addrInfoBytes).flatten ++ bucketBytesOf (rankBucketsOf s)) = Except.ok (triedPhase B { newPhase { nKey := s.nKey, nIdCount := 0, mapInfo := [], mapAddr := [], vRandom := [], nTried := s.nTried, nNew := s.nNew, vvTried := List.replicate ADDRMAN_TRIED_BUCKET_COUNT [], vvNew := List.replicate ADDRMAN_NEW_BUCKET_COUNT [] } 0 (newRecsOf s) with nIdCount := (newPhase { nKey := s.nKey, nIdCount := 0, mapInfo := [], mapAddr := [], vRandom := [], nTried := s.nTried, nNew := s.nNew, vvTried := List.replicate ADDRMAN_TRIED_BUCKET_COUNT [], vvNew := List.replicate ADDRMAN_NEW_BUCKET_COUNT [] } 0 (newRecsOf s)).nNew } (triedRecsOf s), 0, bucketBytesOf (rankBucketsOf s)) := by
    rw [show s.nTried.toNat = (triedRecsOf s).length from by
      rw [htried, Int.toNat_natCast, hTlen]]
    refine readTriedLoop_clean B (triedRecsOf s) _ 0 _ hWFtried ?_ ?_
    · show (newPhase { nKey := s.nKey, nIdCount := 0, mapInfo := [], mapAddr := [], vRandom := [], nTried := s.nTried, nNew := s.nNew, vvTried := List.replicate ADDRMAN_TRIED_BUCKET_COUNT [], vvNew := List.replicate ADDRMAN_NEW_BUCKET_COUNT [] } 0 (newRecsOf s)).vvTried.length = ADDRMAN_TRIED_BUCKET_COUNT
      rw [hvt1, List.length_replicate]
    · intro b
      show ((triedRecsOf s).filter (fun rec => getTriedBucket B (newPhase { nKey := s.nKey, nIdCount := 0, mapInfo := [], mapAddr := [], vRandom := [], nTried := s.nTried, nNew := s.nNew, vvTried := List.replicate ADDRMAN_TRIED_BUCKET_COUNT [], vvNew := List.replicate ADDRMAN_NEW_BUCKET_COUNT [] } 0 (newRecsOf s)).nKey rec.addr = b)).length + ((newPhase { nKey := s.nKey, nIdCount := 0, mapInfo := [], mapAddr := [], vRandom := [], nTried := s.nTried, nNew := s.nNew, vvTried := List.replicate ADDRMAN_TRIED_BUCKET_COUNT [], vvNew := List.replicate ADDRMAN_NEW_BUCKET_COUNT [] } 0 (newRecsOf s)).vvTried.getD b []).length <= ADDRMAN_TRIED_BUCKET_SIZE
      rw [hK1, hvt1, getD_replicate_nil, List.length_nil]
      have hfe : (triedRecsOf s).filter (fun rec => getTriedBucket B s.nKey rec.addr = b) =
          ((triedInfos s).filter (fun p => getTriedBucket B s.nKey p.2.addr = b)).map
            (fun p => p.2) := by
        rw [triedRecsOf]
        exact filter_map_pred _ _ _ _ (fun p hp => rfl)
      rw [hfe, List.length_map]
      have h9 := htb b
      omega
  have hvn2 : (triedPhase B { newPhase { nKey := s.nKey, nIdCount := 0, mapInfo := [], mapAddr := [], vRandom := [], nTried := s.nTried, nNew := s.nNew, vvTried := List.replicate ADDRMAN_TRIED_BUCKET_COUNT [], vvNew := List.replicate ADDRMAN_NEW_BUCKET_COUNT [] } 0 (newRecsOf s) with nIdCount := (newPhase { nKey := s.nKey, nIdCount := 0, mapInfo := [], mapAddr := [], vRandom := [], nTried := s.nTried, nNew := s.nNew, vvTried := List.replicate ADDRMAN_TRIED_BUCKET_COUNT [], vvNew := List.replicate ADDRMAN_NEW_BUCKET_COUNT [] } 0 (newRecsOf s)).nNew } (triedRecsOf s)).vvNew = List.replicate ADDRMAN_NEW_BUCKET_COUNT [] :=
    (triedPhase_proj _ _ _).1.trans hvn1
  have hK2 : (triedPhase B { newPhase { nKey := s.nKey, nIdCount := 0, mapInfo := [], mapAddr := [], vRandom := [], nTried := s.nTried, nNew := s.nNew, vvTried := List.replicate ADDRMAN_TRIED_BUCKET_COUNT [], vvNew := List.replicate ADDRMAN_NEW_BUCKET_COUNT [] } 0 (newRecsOf s) with nIdCount := (newPhase { nKey := s.nKey, nIdCount := 0, mapInfo := [], mapAddr := [], vRandom := [], nTried := s.nTried, nNew := s.nNew, vvTried := List.replicate ADDRMAN_TRIED_BUCKET_COUNT [], vvNew := List.replicate ADDRMAN_NEW_BUCKET_COUNT [] } 0 (newRecsOf s)).nNew } (triedRecsOf s)).nKey = s.nKey :=
    (triedPhase_proj _ _ _).2.1.trans hK1
  have hnN2 : (triedPhase B { newPhase { nKey := s.nKey, nIdCount := 0, mapInfo := [], mapAddr := [], vRandom := [], nTried := s.nTried, nNew := s.nNew, vvTried := List.replicate ADDRMAN_TRIED_BUCKET_COUNT [], vvNew := List.replicate ADDRMAN_NEW_BUCKET_COUNT [] } 0 (newRecsOf s) with nIdCount := (newPhase { nKey := s.nKey, nIdCount := 0, mapInfo := [], mapAddr := [], vRandom := [], nTried := s.nTried, nNew := s.nNew, vvTried := List.replicate ADDRMAN_TRIED_BUCKET_COUNT [], vvNew := List.replicate ADDRMAN_NEW_BUCKET_COUNT [] } 0 (newRecsOf s)).nNew } (triedRecsOf s)).nNew = s.nNew :=
    (triedPhase_proj _ _ _).2.2.1.trans hnN1
  have hnT2 : (triedPhase B { newPhase { nKey := s.nKey, nIdCount := 0, mapInfo := [], mapAddr := [], vRandom := [], nTried := s.nTried, nNew := s.nNew, vvTried := List.replicate ADDRMAN_TRIED_BUCKET_COUNT [], vvNew := List.replicate ADDRMAN_NEW_BUCKET_COUNT [] } 0 (newRecsOf s) with nIdCount := (newPhase { nKey := s.nKey, nIdCount := 0, mapInfo := [], mapAddr := [], vRandom := [], nTried := s.nTried, nNew := s.nNew, vvTried := List.replicate ADDRMAN_TRIED_BUCKET_COUNT [], vvNew := List.replicate ADDRMAN_NEW_BUCKET_COUNT [] } 0 (newRecsOf s)).nNew } (triedRecsOf s)).nTried = s.nTried :=
    (triedPhase_proj _ _ _).2.2.2.1.trans hnT1
  have hmi1b : ({ newPhase { nKey := s.nKey, nIdCount := 0, mapInfo := [], mapAddr := [], vRandom := [], nTried := s.nTried, nNew := s.nNew, vvTried := List.replicate ADDRMAN_TRIED_BUCKET_COUNT [], vvNew := List.replicate ADDRMAN_NEW_BUCKET_COUNT [] } 0 (newRecsOf s) with nIdCount := (newPhase { nKey := s.nKey, nIdCount := 0, mapInfo := [], mapAddr := [], vRandom := [], nTried := s.nTried, nNew := s.nNew, vvTried := List.replicate ADDRMAN_TRIED_BUCKET_COUNT [], vvNew := List.replicate ADDRMAN_NEW_BUCKET_COUNT [] } 0 (newRecsOf s)).nNew } : CAddrMan).mapInfo = enumNew 0 0 (newRecsOf s) := hmi1
  have hnid : ({ newPhase { nKey := s.nKey, nIdCount := 0, mapInfo := [], mapAddr := [], vRandom := [], nTried := s.nTried, nNew := s.nNew, vvTried := List.replicate ADDRMAN_TRIED_BUCKET_COUNT [], vvNew := List.replicate ADDRMAN_NEW_BUCKET_COUNT [] } 0 (newRecsOf s) with nIdCount := (newPhase { nKey := s.nKey, nIdCount := 0, mapInfo := [], mapAddr := [], vRandom := [], nTried := s.nTried, nNew := s.nNew, vvTried := List.replicate ADDRMAN_TRIED_BUCKET_COUNT [], vvNew := List.replicate ADDRMAN_NEW_BUCKET_COUNT [] } 0 (newRecsOf s)).nNew } : CAddrMan).nIdCount = (((newInfos s).length : Nat) : Int) := by
    show (newPhase { nKey := s.nKey, nIdCount := 0, mapInfo := [], mapAddr := [], vRandom := [], nTried := s.nTried, nNew := s.nNew, vvTried := List.replicate ADDRMAN_TRIED_BUCKET_COUNT [], vvNew := List.replicate ADDRMAN_NEW_BUCKET_COUNT [] } 0 (newRecsOf s)).nNew = _
    rw [hnN1, hnew]
  have hvr1b : ({ newPhase { nKey := s.nKey, nIdCount := 0, mapInfo := [], mapAddr := [], vRandom := [], nTried := s.nTried, nNew := s.nNew, vvTried := List.replicate ADDRMAN_TRIED_BUCKET_COUNT [], vvNew := List.replicate ADDRMAN_NEW_BUCKET_COUNT [] } 0 (newRecsOf s) with nIdCount := (newPhase { nKey := s.nKey, nIdCount := 0, mapInfo := [], mapAddr := [], vRandom := [], nTried := s.nTried, nNew := s.nNew, vvTried := List.replicate ADDRMAN_TRIED_BUCKET_COUNT [], vvNew := List.replicate ADDRMAN_NEW_BUCKET_COUNT [] } 0 (newRecsOf s)).nNew } : CAddrMan).vRandom.length = (newRecsOf s).length := hvr1
  have hmi2 : (triedPhase B { newPhase { nKey := s.nKey, nIdCount := 0, mapInfo := [], mapAddr := [], vRandom := [], nTried := s.nTried, nNew := s.nNew, vvTried := List.replicate ADDRMAN_TRIED_BUCKET_COUNT [], vvNew := List.replicate ADDRMAN_NEW_BUCKET_COUNT [] } 0 (newRecsOf s) with nIdCount := (newPhase { nKey := s.nKey, nIdCount := 0, mapInfo := [], mapAddr := [], vRandom := [], nTried := s.nTried, nNew := s.nNew, vvTried := List.replicate ADDRMAN_TRIED_BUCKET_COUNT [], vvNew := List.replicate ADDRMAN_NEW_BUCKET_COUNT [] } 0 (newRecsOf s)).nNew } (triedRecsOf s)).mapInfo = (enumNew 0 0 (newRecsOf s) ++ enumTried (((newInfos s).length : Nat) : Int) (newRecsOf s).length (triedRecsOf s)) := by
    have h9 := (triedPhase_proj B (triedRecsOf s) { newPhase { nKey := s.nKey, nIdCount := 0, mapInfo := [], mapAddr := [], vRandom := [], nTried := s.nTried, nNew := s.nNew, vvTried := List.replicate ADDRMAN_TRIED_BUCKET_COUNT [], vvNew := List.replicate ADDRMAN_NEW_BUCKET_COUNT [] } 0 (newRecsOf s) with nIdCount := (newPhase { nKey := s.nKey, nIdCount := 0, mapInfo := [], mapAddr := [], vRandom := [], nTried := s.nTried, nNew := s.nNew, vvTried := List.replicate ADDRMAN_TRIED_BUCKET_COUNT [], vvNew := List.replicate ADDRMAN_NEW_BUCKET_COUNT [] } 0 (newRecsOf s)).nNew }).2.2.2.2.2 (by
      intro p hp
      rw [hmi1b] at hp
      obtain ⟨hge, hlt⟩ := enumNew_keys (newRecsOf s) 0 0 p hp
      rw [hnid]
      rw [hNlen] at hlt
      omega)
    rw [h9, hmi1b, hnid, hvr1b]
  have hkeysA : ∀ p ∈ enumNew 0 0 (newRecsOf s), 0 ≤ p.1 ∧
      p.1 < (((newInfos s).length : Nat) : Int) := by
    intro p hp
    obtain ⟨hge, hlt⟩ := enumNew_keys (newRecsOf s) 0 0 p hp
    rw [hNlen] at hlt
    omega
  have hkeysB : ∀ p ∈ enumTried (((newInfos s).length : Nat) : Int) (newRecsOf s).length
      (triedRecsOf s), (((newInfos s).length : Nat) : Int) ≤ p.1 := by
    intro p hp
    exact (enumTried_keys (triedRecsOf s) _ _ p hp).1
  have hndMAPS : ((enumNew 0 0 (newRecsOf s) ++ enumTried (((newInfos s).length : Nat) : Int) (newRecsOf s).length (triedRecsOf s)).map (fun p => p.1)).Nodup := by
    rw [List.map_append]
    refine (enumNew_keys_nodup (newRecsOf s) 0 0).append
      (enumTried_keys_nodup (triedRecsOf s) _ _) ?_
    intro x hxA hxB
    rw [List.mem_map] at hxA hxB
    obtain ⟨p, hp, rfl⟩ := hxA
    obtain ⟨q, hq, hqe⟩ := hxB
    have h1 := (hkeysA p hp).2
    have h2 := hkeysB q hq
    rw [hqe] at h2
    omega
  have hNlenIds : (newIdsOf s).length = (newInfos s).length := List.length_map _ _
  have hfindMAPS : ∀ id ∈ s.vvNew.flatten,
      alFind (enumNew 0 0 (newRecsOf s) ++ enumTried (((newInfos s).length : Nat) : Int) (newRecsOf s).length (triedRecsOf s)) (((newIdsOf s).indexOf id : Nat) : Int) =
        some { readBase ((newRecsOf s).getD ((newIdsOf s).indexOf id) defaultAddrInfo) with
          nRandomPos := (((newIdsOf s).indexOf id : Nat) : Int) } := by
    intro id hid
    rw [List.mem_flatten] at hid
    obtain ⟨bkt, hbm, hidb⟩ := hid
    have hmem : id ∈ newIdsOf s := hmemN bkt hbm id hidb
    have hjlt : (newIdsOf s).indexOf id < (newRecsOf s).length := by
      rw [hNlen, ← hNlenIds]
      exact List.indexOf_lt_length.mpr hmem
    have h9 := enumNew_find (newRecsOf s) 0 0 ((newIdsOf s).indexOf id) hjlt
    rw [zero_add] at h9
    rw [alFind_append_left _ _ _ _ h9]
    rw [show (0 + (newIdsOf s).indexOf id : Nat) = (newIdsOf s).indexOf id from by omega]
  have hndN : (newIdsOf s).Nodup := by
    have h9 : List.Sublist ((s.mapInfo.filter (fun p => p.2.nRefCount != 0)).map
        (fun p => p.1)) (s.mapInfo.map (fun p => p.1)) :=
      (List.filter_sublist s.mapInfo).map (fun p => p.1)
    exact h9.nodup hnd
  have hidxget : ∀ (j : Nat) (hj : j < (newIdsOf s).length),
      (newIdsOf s).indexOf ((newIdsOf s).get ⟨j, hj⟩) = j := by
    intro j hj
    have hmem : (newIdsOf s).get ⟨j, hj⟩ ∈ newIdsOf s := List.get_mem _ _ _
    have hlt : (newIdsOf s).indexOf ((newIdsOf s).get ⟨j, hj⟩) < (newIdsOf s).length :=
      List.indexOf_lt_length.mpr hmem
    have hg := List.indexOf_get hlt
    exact Fin.val_eq_of_eq ((List.Nodup.get_inj_iff hndN).mp hg)
  have hpair : ∀ id ∈ s.vvNew.flatten,
      alFind s.mapInfo id =
        some ((newRecsOf s).getD ((newIdsOf s).indexOf id) defaultAddrInfo) := by
    intro id hid
    obtain ⟨bkt, hbm, hidb⟩ := List.mem_flatten.mp hid
    have hmem : id ∈ newIdsOf s := hmemN bkt hbm id hidb
    have hjN : (newIdsOf s).indexOf id < (newIdsOf s).length :=
      List.indexOf_lt_length.mpr hmem
    have hjI : (newIdsOf s).indexOf id < (newInfos s).length := by
      rw [← hNlenIds]
      exact hjN
    have hget : (newIdsOf s).get ⟨(newIdsOf s).indexOf id, hjN⟩ = id := List.indexOf_get hjN
    have hstep : ((newInfos s).get ⟨(newIdsOf s).indexOf id, hjI⟩).1 =
        (newIdsOf s).get ⟨(newIdsOf s).indexOf id, hjN⟩ := by
      show _ = ((newInfos s).map (fun p => p.1)).get ⟨(newIdsOf s).indexOf id,
        by rw [List.length_map]; exact hjI⟩
      rw [List.get_eq_getElem, List.get_eq_getElem, List.getElem_map]
    have hkey9 : ((newInfos s).get ⟨(newIdsOf s).indexOf id, hjI⟩).1 = id := hstep.trans hget
    have hmemp : (newInfos s).get ⟨(newIdsOf s).indexOf id, hjI⟩ ∈ s.mapInfo :=
      List.mem_of_mem_filter (List.get_mem _ _ _)
    have hpp : (((newInfos s).get ⟨(newIdsOf s).indexOf id, hjI⟩).1,
        ((newInfos s).get ⟨(newIdsOf s).indexOf id, hjI⟩).2) ∈ s.mapInfo := hmemp
    have hfind9 := alFind_of_mem_nodup s.mapInfo _ _ hnd hpp
    rw [hkey9] at hfind9
    have hjR : (newIdsOf s).indexOf id < (newRecsOf s).length := by
      rw [hNlen]
      exact hjI
    have hgd : (newRecsOf s).getD ((newIdsOf s).indexOf id) defaultAddrInfo =
        (newRecsOf s).get ⟨(newIdsOf s).indexOf id, hjR⟩ := by
      rw [List.getD_eq_getElem (newRecsOf s) defaultAddrInfo hjR, List.get_eq_getElem]
    have hrec9 : (newRecsOf s).get ⟨(newIdsOf s).indexOf id, hjR⟩ =
        ((newInfos s).get ⟨(newIdsOf s).indexOf id, hjI⟩).2 := by
      show ((newInfos s).map (fun p => p.2)).get ⟨(newIdsOf s).indexOf id,
        by rw [List.length_map]; exact hjI⟩ = _
      rw [List.get_eq_getElem, List.get_eq_getElem, List.getElem_map]
    rw [hgd, hrec9]
    exact hfind9
  have hLLlen : (rankBucketsOf s).length = ADDRMAN_NEW_BUCKET_COUNT := by
    rw [rankBucketsOf, List.length_map, hvn]
  have hb1 : 0 + (rankBucketsOf s).length ≤ (triedPhase B { newPhase { nKey := s.nKey, nIdCount := 0, mapInfo := [], mapAddr := [], vRandom := [], nTried := s.nTried, nNew := s.nNew, vvTried := List.replicate ADDRMAN_TRIED_BUCKET_COUNT [], vvNew := List.replicate ADDRMAN_NEW_BUCKET_COUNT [] } 0 (newRecsOf s) with nIdCount := (newPhase { nKey := s.nKey, nIdCount := 0, mapInfo := [], mapAddr := [], vRandom := [], nTried := s.nTried, nNew := s.nNew, vvTried := List.replicate ADDRMAN_TRIED_BUCKET_COUNT [], vvNew := List.replicate ADDRMAN_NEW_BUCKET_COUNT [] } 0 (newRecsOf s)).nNew } (triedRecsOf s)).vvNew.length := by
    rw [hvn2, List.length_replicate, hLLlen]
    omega
  have hb2 : ((triedPhase B { newPhase { nKey := s.nKey, nIdCount := 0, mapInfo := [], mapAddr := [], vRandom := [], nTried := s.nTried, nNew := s.nNew, vvTried := List.replicate ADDRMAN_TRIED_BUCKET_COUNT [], vvNew := List.replicate ADDRMAN_NEW_BUCKET_COUNT [] } 0 (newRecsOf s) with nIdCount := (newPhase { nKey := s.nKey, nIdCount := 0, mapInfo := [], mapAddr := [], vRandom := [], nTried := s.nTried, nNew := s.nNew, vvTried := List.replicate ADDRMAN_TRIED_BUCKET_COUNT [], vvNew := List.replicate ADDRMAN_NEW_BUCKET_COUNT [] } 0 (newRecsOf s)).nNew } (triedRecsOf s)).mapInfo.map (fun p => p.1)).Nodup := by
    rw [hmi2]
    exact hndMAPS
  have hb3 : ∀ L ∈ rankBucketsOf s, L.Nodup := by
    intro L hL
    rw [rankBucketsOf, List.mem_map] at hL
    obtain ⟨bkt, hbm, rfl⟩ := hL
    refine (hbkt bkt hbm).1.map_on ?_
    intro x hx y hy hxy
    rw [Int.natCast_inj] at hxy
    exact indexOf_inj_mem (newIdsOf s) x y (hmemN bkt hbm x hx) (hmemN bkt hbm y hy) hxy
  have hb4 : ∀ L ∈ rankBucketsOf s, L.length < 2 ^ 31 := by
    intro L hL
    rw [rankBucketsOf, List.mem_map] at hL
    obtain ⟨bkt, hbm, rfl⟩ := hL
    rw [List.length_map]
    have h9 := hbsz bkt hbm
    simp only [ADDRMAN_NEW_BUCKET_SIZE] at h9
    omega
  have hb5 : ∀ L ∈ rankBucketsOf s, ∀ idx ∈ L, 0 ≤ idx ∧ idx < 2 ^ 31 := by
    intro L hL idx hidx
    rw [rankBucketsOf, List.mem_map] at hL
    obtain ⟨bkt, hbm, rfl⟩ := hL
    rw [List.mem_map] at hidx
    obtain ⟨id, hidb, rfl⟩ := hidx
    have hjN : (newIdsOf s).indexOf id < (newIdsOf s).length :=
      List.indexOf_lt_length.mpr (hmemN bkt hbm id hidb)
    have h9 : (newIdsOf s).length < 2 ^ 31 := by
      rw [hNlenIds]
      omega
    constructor
    · exact Int.natCast_nonneg _
    · have h10 : (newIdsOf s).indexOf id < 2 ^ 31 := by omega
      exact_mod_cast h10
  have hb6 : ∀ L ∈ rankBucketsOf s, ∀ idx ∈ L, ∃ info,
      alFind (triedPhase B { newPhase { nKey := s.nKey, nIdCount := 0, mapInfo := [], mapAddr := [], vRandom := [], nTried := s.nTried, nNew := s.nNew, vvTried := List.replicate ADDRMAN_TRIED_BUCKET_COUNT [], vvNew := List.replicate ADDRMAN_NEW_BUCKET_COUNT [] } 0 (newRecsOf s) with nIdCount := (newPhase { nKey := s.nKey, nIdCount := 0, mapInfo := [], mapAddr := [], vRandom := [], nTried := s.nTried, nNew := s.nNew, vvTried := List.replicate ADDRMAN_TRIED_BUCKET_COUNT [], vvNew := List.replicate ADDRMAN_NEW_BUCKET_COUNT [] } 0 (newRecsOf s)).nNew } (triedRecsOf s)).mapInfo idx = some info ∧
      info.nRefCount + ((occAll (rankBucketsOf s) idx : Nat) : Int) ≤
        ((ADDRMAN_NEW_BUCKETS_PER_ADDRESS : Nat) : Int) := by
    intro L hL idx hidx
    rw [rankBucketsOf, List.mem_map] at hL
    obtain ⟨bkt, hbm, rfl⟩ := hL
    rw [List.mem_map] at hidx
    obtain ⟨id, hidb, rfl⟩ := hidx
    have hidflat : id ∈ s.vvNew.flatten := List.mem_flatten.mpr ⟨bkt, hbm, hidb⟩
    refine ⟨_, by rw [hmi2]; exact hfindMAPS id hidflat, ?_⟩
    show (0 : Int) +
      ((occAll (rankBucketsOf s) (((newIdsOf s).indexOf id : Nat) : Int) : Nat) : Int) ≤ _
    have hocc9 : occAll (rankBucketsOf s) (((newIdsOf s).indexOf id : Nat) : Int) =
        bucketOccurrences s.vvNew id :=
      occAll_map_rank (newIdsOf s) s.vvNew id (hmemN bkt hbm id hidb) hmemN
    rw [hocc9]
    obtain ⟨info1, hfind1, hrcn1⟩ := (hbkt bkt hbm).2 id hidb
    have hmemp : (id, info1) ∈ s.mapInfo := alFind_mem _ _ _ hfind1
    have hocc10 : ((bucketOccurrences s.vvNew id : Nat) : Int) = info1.nRefCount :=
      hocc (id, info1) hmemp hrcn1
    have hb9 : info1.nRefCount ≤ ((ADDRMAN_NEW_BUCKETS_PER_ADDRESS : Nat) : Int) :=
      (hrcb (id, info1) hmemp).2
    rw [hocc10]
    omega
  have hb7 : (triedPhase B { newPhase { nKey := s.nKey, nIdCount := 0, mapInfo := [], mapAddr := [], vRandom := [], nTried := s.nTried, nNew := s.nNew, vvTried := List.replicate ADDRMAN_TRIED_BUCKET_COUNT [], vvNew := List.replicate ADDRMAN_NEW_BUCKET_COUNT [] } 0 (newRecsOf s) with nIdCount := (newPhase { nKey := s.nKey, nIdCount := 0, mapInfo := [], mapAddr := [], vRandom := [], nTried := s.nTried, nNew := s.nNew, vvTried := List.replicate ADDRMAN_TRIED_BUCKET_COUNT [], vvNew := List.replicate ADDRMAN_NEW_BUCKET_COUNT [] } 0 (newRecsOf s)).nNew } (triedRecsOf s)).vvNew.drop 0 = List.replicate (rankBucketsOf s).length [] := by
    rw [List.drop_zero, hvn2, hLLlen]
  have hBL0 := readBucketLoop_clean (rankBucketsOf s) { triedPhase B { newPhase { nKey := s.nKey, nIdCount := 0, mapInfo := [], mapAddr := [], vRandom := [], nTried := s.nTried, nNew := s.nNew, vvTried := List.replicate ADDRMAN_TRIED_BUCKET_COUNT [], vvNew := List.replicate ADDRMAN_NEW_BUCKET_COUNT [] } 0 (newRecsOf s) with nIdCount := (newPhase { nKey := s.nKey, nIdCount := 0, mapInfo := [], mapAddr := [], vRandom := [], nTried := s.nTried, nNew := s.nNew, vvTried := List.replicate ADDRMAN_TRIED_BUCKET_COUNT [], vvNew := List.replicate ADDRMAN_NEW_BUCKET_COUNT [] } 0 (newRecsOf s)).nNew } (triedRecsOf s) with nTried := (triedPhase B { newPhase { nKey := s.nKey, nIdCount := 0, mapInfo := [], mapAddr := [], vRandom := [], nTried := s.nTried, nNew := s.nNew, vvTried := List.replicate ADDRMAN_TRIED_BUCKET_COUNT [], vvNew := List.replicate ADDRMAN_NEW_BUCKET_COUNT [] } 0 (newRecsOf s) with nIdCount := (newPhase { nKey := s.nKey, nIdCount := 0, mapInfo := [], mapAddr := [], vRandom := [], nTried := s.nTried, nNew := s.nNew, vvTried := List.replicate ADDRMAN_TRIED_BUCKET_COUNT [], vvNew := List.replicate ADDRMAN_NEW_BUCKET_COUNT [] } 0 (newRecsOf s)).nNew } (triedRecsOf s)).nTried - ((0 : Nat) : Int) } 0 [] hb1 hb2 hb3 hb4 hb5 hb6 hb7
  rw [List.append_nil, hLLlen] at hBL0
  have hBL : readBucketLoop ((ADDRMAN_NEW_BUCKET_COUNT : Nat) : Int)
      ((ADDRMAN_NEW_BUCKET_COUNT : Nat) : Int).toNat { triedPhase B { newPhase { nKey := s.nKey, nIdCount := 0, mapInfo := [], mapAddr := [], vRandom := [], nTried := s.nTried, nNew := s.nNew, vvTried := List.replicate ADDRMAN_TRIED_BUCKET_COUNT [], vvNew := List.replicate ADDRMAN_NEW_BUCKET_COUNT [] } 0 (newRecsOf s) with nIdCount := (newPhase { nKey := s.nKey, nIdCount := 0, mapInfo := [], mapAddr := [], vRandom := [], nTried := s.nTried, nNew := s.nNew, vvTried := List.replicate ADDRMAN_TRIED_BUCKET_COUNT [], vvNew := List.replicate ADDRMAN_NEW_BUCKET_COUNT [] } 0 (newRecsOf s)).nNew } (triedRecsOf s) with nTried := (triedPhase B { newPhase { nKey := s.nKey, nIdCount := 0, mapInfo := [], mapAddr := [], vRandom := [], nTried := s.nTried, nNew := s.nNew, vvTried := List.replicate ADDRMAN_TRIED_BUCKET_COUNT [], vvNew := List.replicate ADDRMAN_NEW_BUCKET_COUNT [] } 0 (newRecsOf s) with nIdCount := (newPhase { nKey := s.nKey, nIdCount := 0, mapInfo := [], mapAddr := [], vRandom := [], nTried := s.nTried, nNew := s.nNew, vvTried := List.replicate ADDRMAN_TRIED_BUCKET_COUNT [], vvNew := List.replicate ADDRMAN_NEW_BUCKET_COUNT [] } 0 (newRecsOf s)).nNew } (triedRecsOf s)).nTried - ((0 : Nat) : Int) } 0
      (bucketBytesOf (rankBucketsOf s)) =
      Except.ok (bucketPhase { triedPhase B { newPhase { nKey := s.nKey, nIdCount := 0, mapInfo := [], mapAddr := [], vRandom := [], nTried := s.nTried, nNew := s.nNew, vvTried := List.replicate ADDRMAN_TRIED_BUCKET_COUNT [], vvNew := List.replicate ADDRMAN_NEW_BUCKET_COUNT [] } 0 (newRecsOf s) with nIdCount := (newPhase { nKey := s.nKey, nIdCount := 0, mapInfo := [], mapAddr := [], vRandom := [], nTried := s.nTried, nNew := s.nNew, vvTried := List.replicate ADDRMAN_TRIED_BUCKET_COUNT [], vvNew := List.replicate ADDRMAN_NEW_BUCKET_COUNT [] } 0 (newRecsOf s)).nNew } (triedRecsOf s) with nTried := (triedPhase B { newPhase { nKey := s.nKey, nIdCount := 0, mapInfo := [], mapAddr := [], vRandom := [], nTried := s.nTried, nNew := s.nNew, vvTried := List.replicate ADDRMAN_TRIED_BUCKET_COUNT [], vvNew := List.replicate ADDRMAN_NEW_BUCKET_COUNT [] } 0 (newRecsOf s) with nIdCount := (newPhase { nKey := s.nKey, nIdCount := 0, mapInfo := [], mapAddr := [], vRandom := [], nTried := s.nTried, nNew := s.nNew, vvTried := List.replicate ADDRMAN_TRIED_BUCKET_COUNT [], vvNew := List.replicate ADDRMAN_NEW_BUCKET_COUNT [] } 0 (newRecsOf s)).nNew } (triedRecsOf s)).nTried - ((0 : Nat) : Int) } (rankBucketsOf s) 0, ([] : List Nat)) := by
    rw [Int.toNat_natCast]
    exact hBL0
  have hvnlen2 : 0 + (rankBucketsOf s).length = (triedPhase B { newPhase { nKey := s.nKey, nIdCount := 0, mapInfo := [], mapAddr := [], vRandom := [], nTried := s.nTried, nNew := s.nNew, vvTried := List.replicate ADDRMAN_TRIED_BUCKET_COUNT [], vvNew := List.replicate ADDRMAN_NEW_BUCKET_COUNT [] } 0 (newRecsOf s) with nIdCount := (newPhase { nKey := s.nKey, nIdCount := 0, mapInfo := [], mapAddr := [], vRandom := [], nTried := s.nTried, nNew := s.nNew, vvTried := List.replicate ADDRMAN_TRIED_BUCKET_COUNT [], vvNew := List.replicate ADDRMAN_NEW_BUCKET_COUNT [] } 0 (newRecsOf s)).nNew } (triedRecsOf s)).vvNew.length := by
    rw [hvn2, List.length_replicate, hLLlen]
    omega
  have hvn3 : (bucketPhase { triedPhase B { newPhase { nKey := s.nKey, nIdCount := 0, mapInfo := [], mapAddr := [], vRandom := [], nTried := s.nTried, nNew := s.nNew, vvTried := List.replicate ADDRMAN_TRIED_BUCKET_COUNT [], vvNew := List.replicate ADDRMAN_NEW_BUCKET_COUNT [] } 0 (newRecsOf s) with nIdCount := (newPhase { nKey := s.nKey, nIdCount := 0, mapInfo := [], mapAddr := [], vRandom := [], nTried := s.nTried, nNew := s.nNew, vvTried := List.replicate ADDRMAN_TRIED_BUCKET_COUNT [], vvNew := List.replicate ADDRMAN_NEW_BUCKET_COUNT [] } 0 (newRecsOf s)).nNew } (triedRecsOf s) with nTried := (triedPhase B { newPhase { nKey := s.nKey, nIdCount := 0, mapInfo := [], mapAddr := [], vRandom := [], nTried := s.nTried, nNew := s.nNew, vvTried := List.replicate ADDRMAN_TRIED_BUCKET_COUNT [], vvNew := List.replicate ADDRMAN_NEW_BUCKET_COUNT [] } 0 (newRecsOf s) with nIdCount := (newPhase { nKey := s.nKey, nIdCount := 0, mapInfo := [], mapAddr := [], vRandom := [], nTried := s.nTried, nNew := s.nNew, vvTried := List.replicate ADDRMAN_TRIED_BUCKET_COUNT [], vvNew := List.replicate ADDRMAN_NEW_BUCKET_COUNT [] } 0 (newRecsOf s)).nNew } (triedRecsOf s)).nTried - ((0 : Nat) : Int) } (rankBucketsOf s) 0).vvNew = rankBucketsOf s := by
    have h9 := bucketPhase_vvNew (rankBucketsOf s) { triedPhase B { newPhase { nKey := s.nKey, nIdCount := 0, mapInfo := [], mapAddr := [], vRandom := [], nTried := s.nTried, nNew := s.nNew, vvTried := List.replicate ADDRMAN_TRIED_BUCKET_COUNT [], vvNew := List.replicate ADDRMAN_NEW_BUCKET_COUNT [] } 0 (newRecsOf s) with nIdCount := (newPhase { nKey := s.nKey, nIdCount := 0, mapInfo := [], mapAddr := [], vRandom := [], nTried := s.nTried, nNew := s.nNew, vvTried := List.replicate ADDRMAN_TRIED_BUCKET_COUNT [], vvNew := List.replicate ADDRMAN_NEW_BUCKET_COUNT [] } 0 (newRecsOf s)).nNew } (triedRecsOf s) with nTried := (triedPhase B { newPhase { nKey := s.nKey, nIdCount := 0, mapInfo := [], mapAddr := [], vRandom := [], nTried := s.nTried, nNew := s.nNew, vvTried := List.replicate ADDRMAN_TRIED_BUCKET_COUNT [], vvNew := List.replicate ADDRMAN_NEW_BUCKET_COUNT [] } 0 (newRecsOf s) with nIdCount := (newPhase { nKey := s.nKey, nIdCount := 0, mapInfo := [], mapAddr := [], vRandom := [], nTried := s.nTried, nNew := s.nNew, vvTried := List.replicate ADDRMAN_TRIED_BUCKET_COUNT [], vvNew := List.replicate ADDRMAN_NEW_BUCKET_COUNT [] } 0 (newRecsOf s)).nNew } (triedRecsOf s)).nTried - ((0 : Nat) : Int) } 0 hvnlen2 hb7
    rw [List.take_zero, List.nil_append] at h9
    exact h9
  have hsome : ∀ L ∈ rankBucketsOf s, ∀ idx ∈ L, (alFind (triedPhase B { newPhase { nKey := s.nKey, nIdCount := 0, mapInfo := [], mapAddr := [], vRandom := [], nTried := s.nTried, nNew := s.nNew, vvTried := List.replicate ADDRMAN_TRIED_BUCKET_COUNT [], vvNew := List.replicate ADDRMAN_NEW_BUCKET_COUNT [] } 0 (newRecsOf s) with nIdCount := (newPhase { nKey := s.nKey, nIdCount := 0, mapInfo := [], mapAddr := [], vRandom := [], nTried := s.nTried, nNew := s.nNew, vvTried := List.replicate ADDRMAN_TRIED_BUCKET_COUNT [], vvNew := List.replicate ADDRMAN_NEW_BUCKET_COUNT [] } 0 (newRecsOf s)).nNew } (triedRecsOf s)).mapInfo idx).isSome := by
    intro L hL idx hidx
    obtain ⟨info, hfind, h_⟩ := hb6 L hL idx hidx
    rw [hfind]
    rfl
  have hmi3 : (bucketPhase { triedPhase B { newPhase { nKey := s.nKey, nIdCount := 0, mapInfo := [], mapAddr := [], vRandom := [], nTried := s.nTried, nNew := s.nNew, vvTried := List.replicate ADDRMAN_TRIED_BUCKET_COUNT [], vvNew := List.replicate ADDRMAN_NEW_BUCKET_COUNT [] } 0 (newRecsOf s) with nIdCount := (newPhase { nKey := s.nKey, nIdCount := 0, mapInfo := [], mapAddr := [], vRandom := [], nTried := s.nTried, nNew := s.nNew, vvTried := List.replicate ADDRMAN_TRIED_BUCKET_COUNT [], vvNew := List.replicate ADDRMAN_NEW_BUCKET_COUNT [] } 0 (newRecsOf s)).nNew } (triedRecsOf s) with nTried := (triedPhase B { newPhase { nKey := s.nKey, nIdCount := 0, mapInfo := [], mapAddr := [], vRandom := [], nTried := s.nTried, nNew := s.nNew, vvTried := List.replicate ADDRMAN_TRIED_BUCKET_COUNT [], vvNew := List.replicate ADDRMAN_NEW_BUCKET_COUNT [] } 0 (newRecsOf s) with nIdCount := (newPhase { nKey := s.nKey, nIdCount := 0, mapInfo := [], mapAddr := [], vRandom := [], nTried := s.nTried, nNew := s.nNew, vvTried := List.replicate ADDRMAN_TRIED_BUCKET_COUNT [], vvNew := List.replicate ADDRMAN_NEW_BUCKET_COUNT [] } 0 (newRecsOf s)).nNew } (triedRecsOf s)).nTried - ((0 : Nat) : Int) } (rankBucketsOf s) 0).mapInfo =
      (enumNew 0 0 (newRecsOf s) ++ enumTried (((newInfos s).length : Nat) : Int) (newRecsOf s).length (triedRecsOf s)).map (fun p : Int × CAddrInfo => (p.1, { p.2 with nRefCount := p.2.nRefCount + ((occAll (rankBucketsOf s) p.1 : Nat) : Int) })) := by
    have h9 := bucketPhase_mapInfo (rankBucketsOf s) { triedPhase B { newPhase { nKey := s.nKey, nIdCount := 0, mapInfo := [], mapAddr := [], vRandom := [], nTried := s.nTried, nNew := s.nNew, vvTried := List.replicate ADDRMAN_TRIED_BUCKET_COUNT [], vvNew := List.replicate ADDRMAN_NEW_BUCKET_COUNT [] } 0 (newRecsOf s) with nIdCount := (newPhase { nKey := s.nKey, nIdCount := 0, mapInfo := [], mapAddr := [], vRandom := [], nTried := s.nTried, nNew := s.nNew, vvTried := List.replicate ADDRMAN_TRIED_BUCKET_COUNT [], vvNew := List.replicate ADDRMAN_NEW_BUCKET_COUNT [] } 0 (newRecsOf s)).nNew } (triedRecsOf s) with nTried := (triedPhase B { newPhase { nKey := s.nKey, nIdCount := 0, mapInfo := [], mapAddr := [], vRandom := [], nTried := s.nTried, nNew := s.nNew, vvTried := List.replicate ADDRMAN_TRIED_BUCKET_COUNT [], vvNew := List.replicate ADDRMAN_NEW_BUCKET_COUNT [] } 0 (newRecsOf s) with nIdCount := (newPhase { nKey := s.nKey, nIdCount := 0, mapInfo := [], mapAddr := [], vRandom := [], nTried := s.nTried, nNew := s.nNew, vvTried := List.replicate ADDRMAN_TRIED_BUCKET_COUNT [], vvNew := List.replicate ADDRMAN_NEW_BUCKET_COUNT [] } 0 (newRecsOf s)).nNew } (triedRecsOf s)).nTried - ((0 : Nat) : Int) } 0 hb2 hb3 hsome
    rw [h9]
    rw [show ({ triedPhase B { newPhase { nKey := s.nKey, nIdCount := 0, mapInfo := [], mapAddr := [], vRandom := [], nTried := s.nTried, nNew := s.nNew, vvTried := List.replicate ADDRMAN_TRIED_BUCKET_COUNT [], vvNew := List.replicate ADDRMAN_NEW_BUCKET_COUNT [] } 0 (newRecsOf s) with nIdCount := (newPhase { nKey := s.nKey, nIdCount := 0, mapInfo := [], mapAddr := [], vRandom := [], nTried := s.nTried, nNew := s.nNew, vvTried := List.replicate ADDRMAN_TRIED_BUCKET_COUNT [], vvNew := List.replicate ADDRMAN_NEW_BUCKET_COUNT [] } 0 (newRecsOf s)).nNew } (triedRecsOf s) with nTried := (triedPhase B { newPhase { nKey := s.nKey, nIdCount := 0, mapInfo := [], mapAddr := [], vRandom := [], nTried := s.nTried, nNew := s.nNew, vvTried := List.replicate ADDRMAN_TRIED_BUCKET_COUNT [], vvNew := List.replicate ADDRMAN_NEW_BUCKET_COUNT [] } 0 (newRecsOf s) with nIdCount := (newPhase { nKey := s.nKey, nIdCount := 0, mapInfo := [], mapAddr := [], vRandom := [], nTried := s.nTried, nNew := s.nNew, vvTried := List.replicate ADDRMAN_TRIED_BUCKET_COUNT [], vvNew := List.replicate ADDRMAN_NEW_BUCKET_COUNT [] } 0 (newRecsOf s)).nNew } (triedRecsOf s)).nTried - ((0 : Nat) : Int) } : CAddrMan).mapInfo = (enumNew 0 0 (newRecsOf s) ++ enumTried (((newInfos s).length : Nat) : Int) (newRecsOf s).length (triedRecsOf s)) from hmi2]
  have hfindS : ∀ id ∈ s.vvNew.flatten, (alFind s.mapInfo id).map (fun i => i.addr) =
      some (((newRecsOf s).getD ((newIdsOf s).indexOf id) defaultAddrInfo).addr) := by
    intro id hid
    rw [hpair id hid]
    rfl
  have hfind2 : ∀ id ∈ s.vvNew.flatten,
      (alFind (bucketPhase { triedPhase B { newPhase { nKey := s.nKey, nIdCount := 0, mapInfo := [], mapAddr := [], vRandom := [], nTried := s.nTried, nNew := s.nNew, vvTried := List.replicate ADDRMAN_TRIED_BUCKET_COUNT [], vvNew := List.replicate ADDRMAN_NEW_BUCKET_COUNT [] } 0 (newRecsOf s) with nIdCount := (newPhase { nKey := s.nKey, nIdCount := 0, mapInfo := [], mapAddr := [], vRandom := [], nTried := s.nTried, nNew := s.nNew, vvTried := List.replicate ADDRMAN_TRIED_BUCKET_COUNT [], vvNew := List.replicate ADDRMAN_NEW_BUCKET_COUNT [] } 0 (newRecsOf s)).nNew } (triedRecsOf s) with nTried := (triedPhase B { newPhase { nKey := s.nKey, nIdCount := 0, mapInfo := [], mapAddr := [], vRandom := [], nTried := s.nTried, nNew := s.nNew, vvTried := List.replicate ADDRMAN_TRIED_BUCKET_COUNT [], vvNew := List.replicate ADDRMAN_NEW_BUCKET_COUNT [] } 0 (newRecsOf s) with nIdCount := (newPhase { nKey := s.nKey, nIdCount := 0, mapInfo := [], mapAddr := [], vRandom := [], nTried := s.nTried, nNew := s.nNew, vvTried := List.replicate ADDRMAN_TRIED_BUCKET_COUNT [], vvNew := List.replicate ADDRMAN_NEW_BUCKET_COUNT [] } 0 (newRecsOf s)).nNew } (triedRecsOf s)).nTried - ((0 : Nat) : Int) } (rankBucketsOf s) 0).mapInfo
        (((newIdsOf s).indexOf id : Nat) : Int)).map (fun i => i.addr) =
      some (((newRecsOf s).getD ((newIdsOf s).indexOf id) defaultAddrInfo).addr) := by
    intro id hid
    have hamv := alFind_map_val2 (enumNew 0 0 (newRecsOf s) ++ enumTried (((newInfos s).length : Nat) : Int) (newRecsOf s).length (triedRecsOf s)) (fun p : Int × CAddrInfo => (p.1, { p.2 with nRefCount := p.2.nRefCount + ((occAll (rankBucketsOf s) p.1 : Nat) : Int) })) (fun p => rfl)
      (((newIdsOf s).indexOf id : Nat) : Int)
    rw [hmi3, hamv, hfindMAPS id hid]
    rfl
  have hflat : (rankBucketsOf s).flatten =
      s.vvNew.flatten.map (fun id => (((newIdsOf s).indexOf id : Nat) : Int)) := by
    rw [rankBucketsOf]
    exact (List.map_flatten _ _).symm
  refine ⟨bucketPhase { triedPhase B { newPhase { nKey := s.nKey, nIdCount := 0, mapInfo := [], mapAddr := [], vRandom := [], nTried := s.nTried, nNew := s.nNew, vvTried := List.replicate ADDRMAN_TRIED_BUCKET_COUNT [], vvNew := List.replicate ADDRMAN_NEW_BUCKET_COUNT [] } 0 (newRecsOf s) with nIdCount := (newPhase { nKey := s.nKey, nIdCount := 0, mapInfo := [], mapAddr := [], vRandom := [], nTried := s.nTried, nNew := s.nNew, vvTried := List.replicate ADDRMAN_TRIED_BUCKET_COUNT [], vvNew := List.replicate ADDRMAN_NEW_BUCKET_COUNT [] } 0 (newRecsOf s)).nNew } (triedRecsOf s) with nTried := (triedPhase B { newPhase { nKey := s.nKey, nIdCount := 0, mapInfo := [], mapAddr := [], vRandom := [], nTried := s.nTried, nNew := s.nNew, vvTried := List.replicate ADDRMAN_TRIED_BUCKET_COUNT [], vvNew := List.replicate ADDRMAN_NEW_BUCKET_COUNT [] } 0 (newRecsOf s) with nIdCount := (newPhase { nKey := s.nKey, nIdCount := 0, mapInfo := [], mapAddr := [], vRandom := [], nTried := s.nTried, nNew := s.nNew, vvTried := List.replicate ADDRMAN_TRIED_BUCKET_COUNT [], vvNew := List.replicate ADDRMAN_NEW_BUCKET_COUNT [] } 0 (newRecsOf s)).nNew } (triedRecsOf s)).nTried - ((0 : Nat) : Int) } (rankBucketsOf s) 0, ?_, ?_, ?_, ?_, ?_, ?_⟩
  · simp only [deserializeAddrMan, h1, h2, h3, h4, h5, hNL, hTL, hBL]
  · simp only [triedTuples, triedInfos]
    have hfmp := filter_map_pred (fun p : Int × CAddrInfo => (p.1, { p.2 with nRefCount := p.2.nRefCount + ((occAll (rankBucketsOf s) p.1 : Nat) : Int) })) (fun q : Int × CAddrInfo => q.2.fInTried)
      (fun p : Int × CAddrInfo => p.2.fInTried) (enumNew 0 0 (newRecsOf s) ++ enumTried (((newInfos s).length : Nat) : Int) (newRecsOf s).length (triedRecsOf s)) (fun p hp => rfl)
    rw [hmi3, hfmp, List.filter_append]
    have hfA : (enumNew 0 0 (newRecsOf s)).filter (fun p => p.2.fInTried) = [] := by
      rw [List.filter_eq_nil_iff]
      intro p hp
      obtain ⟨j, hj, rfl⟩ := enumNew_mem (newRecsOf s) 0 0 p hp
      show ¬(false = true)
      decide
    have hfB : (enumTried (((newInfos s).length : Nat) : Int) (newRecsOf s).length (triedRecsOf s)).filter (fun p => p.2.fInTried) = enumTried (((newInfos s).length : Nat) : Int) (newRecsOf s).length (triedRecsOf s) := by
      rw [List.filter_eq_self]
      intro p hp
      obtain ⟨j, hj, rfl⟩ := enumTried_mem (triedRecsOf s) _ _ p hp
      exact rfl
    rw [hfA, hfB, List.nil_append, List.map_map]
    have hmc : (enumTried (((newInfos s).length : Nat) : Int) (newRecsOf s).length (triedRecsOf s)).map ((fun p => infoTuple p.2) ∘ (fun p : Int × CAddrInfo => (p.1, { p.2 with nRefCount := p.2.nRefCount + ((occAll (rankBucketsOf s) p.1 : Nat) : Int) }))) =
        (enumTried (((newInfos s).length : Nat) : Int) (newRecsOf s).length (triedRecsOf s)).map (fun p => infoTuple p.2) := List.map_congr_left (fun p hp => rfl)
    rw [hmc, enumTried_tuple_map, triedRecsOf, List.map_map]
    exact List.map_congr_left (fun p hp => rfl)
  · simp only [newTuples, newInfos]
    have hpq : ∀ p ∈ (enumNew 0 0 (newRecsOf s) ++ enumTried (((newInfos s).length : Nat) : Int) (newRecsOf s).length (triedRecsOf s)), (((fun p : Int × CAddrInfo => (p.1, { p.2 with nRefCount := p.2.nRefCount + ((occAll (rankBucketsOf s) p.1 : Nat) : Int) })) p).2.nRefCount != 0) =
        (decide (p.1 < (((newInfos s).length : Nat) : Int))) := by
      intro p hp
      rcases List.mem_append.mp hp with hpA | hpB
      · obtain ⟨j, hj, rfl⟩ := enumNew_mem (newRecsOf s) 0 0 p hpA
        show ((0 : Int) + ((occAll (rankBucketsOf s) (0 + (j : Int)) : Nat) : Int) != 0) =
          decide ((0 + (j : Int)) < (((newInfos s).length : Nat) : Int))
        rw [show ((0 : Int) + (j : Int)) = ((j : Nat) : Int) from by omega]
        have hjN : j < (newIdsOf s).length := by
          rw [hNlenIds, ← hNlen]
          exact hj
        have hjI : j < (newInfos s).length := by
          rw [← hNlen]
          exact hj
        have hidmem : (newIdsOf s).get ⟨j, hjN⟩ ∈ newIdsOf s := List.get_mem _ _ _
        have hidx9 : (newIdsOf s).indexOf ((newIdsOf s).get ⟨j, hjN⟩) = j := hidxget j hjN
        have hocc9 : occAll (rankBucketsOf s)
            ((((newIdsOf s).indexOf ((newIdsOf s).get ⟨j, hjN⟩)) : Nat) : Int) =
            bucketOccurrences s.vvNew ((newIdsOf s).get ⟨j, hjN⟩) :=
          occAll_map_rank (newIdsOf s) s.vvNew _ hidmem hmemN
        rw [hidx9] at hocc9
        rw [hocc9]
        have hpair9 : ((newInfos s).get ⟨j, hjI⟩).1 = (newIdsOf s).get ⟨j, hjN⟩ := by
          show _ = ((newInfos s).map (fun p => p.1)).get ⟨j, by rw [List.length_map]; exact hjI⟩
          rw [List.get_eq_getElem, List.get_eq_getElem, List.getElem_map]
        have hmemf : (newInfos s).get ⟨j, hjI⟩ ∈ newInfos s := List.get_mem _ _ _
        have hpred := (List.mem_filter.mp hmemf).2
        have hocc10 : ((bucketOccurrences s.vvNew (((newInfos s).get ⟨j, hjI⟩).1) : Nat) : Int) =
            ((newInfos s).get ⟨j, hjI⟩).2.nRefCount :=
          hocc _ (List.mem_of_mem_filter hmemf) hpred
        rw [hpair9] at hocc10
        have hne : ((newInfos s).get ⟨j, hjI⟩).2.nRefCount ≠ 0 := bne_iff_ne.mp hpred
        have hjlt : ((j : Nat) : Int) < (((newInfos s).length : Nat) : Int) := by
          exact_mod_cast hjI
        rw [decide_eq_true hjlt, bne_iff_ne]
        omega
      · obtain ⟨j, hj, rfl⟩ := enumTried_mem (triedRecsOf s) _ _ p hpB
        show ((0 : Int) + ((occAll (rankBucketsOf s)
            ((((newInfos s).length : Nat) : Int) + (j : Int)) : Nat) : Int) != 0) =
          decide (((((newInfos s).length : Nat) : Int) + (j : Int)) <
            (((newInfos s).length : Nat) : Int))
        have hocc0 : occAll (rankBucketsOf s)
            ((((newInfos s).length : Nat) : Int) + (j : Int)) = 0 := by
          apply occAll_zero_of_notmem
          intro L hL hmemL
          rw [rankBucketsOf, List.mem_map] at hL
          obtain ⟨bkt, hbm, rfl⟩ := hL
          rw [List.mem_map] at hmemL
          obtain ⟨id, hidb, heq⟩ := hmemL
          have hlt : (newIdsOf s).indexOf id < (newIdsOf s).length :=
            List.indexOf_lt_length.mpr (hmemN bkt hbm id hidb)
          rw [hNlenIds] at hlt
          have hlt2 : ((((newIdsOf s).indexOf id) : Nat) : Int) <
              (((newInfos s).length : Nat) : Int) := by exact_mod_cast hlt
          omega
        rw [hocc0]
        have hnlt : ¬ (((((newInfos s).length : Nat) : Int) + (j : Int)) <
            (((newInfos s).length : Nat) : Int)) := by omega
        rw [decide_eq_false hnlt]
        decide
    have hfmp := filter_map_pred (fun p : Int × CAddrInfo => (p.1, { p.2 with nRefCount := p.2.nRefCount + ((occAll (rankBucketsOf s) p.1 : Nat) : Int) })) (fun q : Int × CAddrInfo => q.2.nRefCount != 0)
      (fun p : Int × CAddrInfo => decide (p.1 < (((newInfos s).length : Nat) : Int))) (enumNew 0 0 (newRecsOf s) ++ enumTried (((newInfos s).length : Nat) : Int) (newRecsOf s).length (triedRecsOf s)) hpq
    rw [hmi3, hfmp, List.filter_append]
    have hfA : (enumNew 0 0 (newRecsOf s)).filter (fun p => decide (p.1 < (((newInfos s).length : Nat) : Int))) =
        enumNew 0 0 (newRecsOf s) := by
      rw [List.filter_eq_self]
      intro p hp
      exact decide_eq_true (hkeysA p hp).2
    have hfB : (enumTried (((newInfos s).length : Nat) : Int) (newRecsOf s).length (triedRecsOf s)).filter (fun p => decide (p.1 < (((newInfos s).length : Nat) : Int))) =
        [] := by
      rw [List.filter_eq_nil_iff]
      intro p hp
      have h9 := hkeysB p hp
      intro hc
      have h10 := of_decide_eq_true hc
      omega
    rw [hfA, hfB, List.append_nil, List.map_map]
    have hmc : (enumNew 0 0 (newRecsOf s)).map ((fun p => infoTuple p.2) ∘ (fun p : Int × CAddrInfo => (p.1, { p.2 with nRefCount := p.2.nRefCount + ((occAll (rankBucketsOf s) p.1 : Nat) : Int) }))) =
        (enumNew 0 0 (newRecsOf s)).map (fun p => infoTuple p.2) := List.map_congr_left (fun p hp => rfl)
    rw [hmc, enumNew_tuple_map, newRecsOf, List.map_map]
    exact List.map_congr_left (fun p hp => rfl)
  · intro a
    simp only [newReachableAddrs]
    rw [hvn3]
    constructor
    · intro ha
      rw [List.mem_filterMap] at ha
      obtain ⟨idx, hidx, hf⟩ := ha
      rw [hflat, List.mem_map] at hidx
      obtain ⟨id, hid, rfl⟩ := hidx
      rw [List.mem_filterMap]
      refine ⟨id, hid, ?_⟩
      show (alFind s.mapInfo id).map (fun i => i.addr) = some a
      rw [hfindS id hid]
      have hf2 : (alFind (bucketPhase { triedPhase B { newPhase { nKey := s.nKey, nIdCount := 0, mapInfo := [], mapAddr := [], vRandom := [], nTried := s.nTried, nNew := s.nNew, vvTried := List.replicate ADDRMAN_TRIED_BUCKET_COUNT [], vvNew := List.replicate ADDRMAN_NEW_BUCKET_COUNT [] } 0 (newRecsOf s) with nIdCount := (newPhase { nKey := s.nKey, nIdCount := 0, mapInfo := [], mapAddr := [], vRandom := [], nTried := s.nTried, nNew := s.nNew, vvTried := List.replicate ADDRMAN_TRIED_BUCKET_COUNT [], vvNew := List.replicate ADDRMAN_NEW_BUCKET_COUNT [] } 0 (newRecsOf s)).nNew } (triedRecsOf s) with nTried := (triedPhase B { newPhase { nKey := s.nKey, nIdCount := 0, mapInfo := [], mapAddr := [], vRandom := [], nTried := s.nTried, nNew := s.nNew, vvTried := List.replicate ADDRMAN_TRIED_BUCKET_COUNT [], vvNew := List.replicate ADDRMAN_NEW_BUCKET_COUNT [] } 0 (newRecsOf s) with nIdCount := (newPhase { nKey := s.nKey, nIdCount := 0, mapInfo := [], mapAddr := [], vRandom := [], nTried := s.nTried, nNew := s.nNew, vvTried := List.replicate ADDRMAN_TRIED_BUCKET_COUNT [], vvNew := List.replicate ADDRMAN_NEW_BUCKET_COUNT [] } 0 (newRecsOf s)).nNew } (triedRecsOf s)).nTried - ((0 : Nat) : Int) } (rankBucketsOf s) 0).mapInfo
          (((newIdsOf s).indexOf id : Nat) : Int)).map (fun i => i.addr) = some a := hf
      rw [hfind2 id hid] at hf2
      exact hf2
    · intro ha
      rw [List.mem_filterMap] at ha
      obtain ⟨id, hid, hf⟩ := ha
      rw [List.mem_filterMap]
      refine ⟨(((newIdsOf s).indexOf id : Nat) : Int), ?_, ?_⟩
      · rw [hflat, List.mem_map]
        exact ⟨id, hid, rfl⟩
      · show (alFind (bucketPhase { triedPhase B { newPhase { nKey := s.nKey, nIdCount := 0, mapInfo := [], mapAddr := [], vRandom := [], nTried := s.nTried, nNew := s.nNew, vvTried := List.replicate ADDRMAN_TRIED_BUCKET_COUNT [], vvNew := List.replicate ADDRMAN_NEW_BUCKET_COUNT [] } 0 (newRecsOf s) with nIdCount := (newPhase { nKey := s.nKey, nIdCount := 0, mapInfo := [], mapAddr := [], vRandom := [], nTried := s.nTried, nNew := s.nNew, vvTried := List.replicate ADDRMAN_TRIED_BUCKET_COUNT [], vvNew := List.replicate ADDRMAN_NEW_BUCKET_COUNT [] } 0 (newRecsOf s)).nNew } (triedRecsOf s) with nTried := (triedPhase B { newPhase { nKey := s.nKey, nIdCount := 0, mapInfo := [], mapAddr := [], vRandom := [], nTried := s.nTried, nNew := s.nNew, vvTried := List.replicate ADDRMAN_TRIED_BUCKET_COUNT [], vvNew := List.replicate ADDRMAN_NEW_BUCKET_COUNT [] } 0 (newRecsOf s) with nIdCount := (newPhase { nKey := s.nKey, nIdCount := 0, mapInfo := [], mapAddr := [], vRandom := [], nTried := s.nTried, nNew := s.nNew, vvTried := List.replicate ADDRMAN_TRIED_BUCKET_COUNT [], vvNew := List.replicate ADDRMAN_NEW_BUCKET_COUNT [] } 0 (newRecsOf s)).nNew } (triedRecsOf s)).nTried - ((0 : Nat) : Int) } (rankBucketsOf s) 0).mapInfo
          (((newIdsOf s).indexOf id : Nat) : Int)).map (fun i => i.addr) = some a
        rw [hfind2 id hid]
        have hf2 : (alFind s.mapInfo id).map (fun i => i.addr) = some a := hf
        rw [hfindS id hid] at hf2
        exact hf2
  · have h9 := (bucketPhase_proj (rankBucketsOf s) { triedPhase B { newPhase { nKey := s.nKey, nIdCount := 0, mapInfo := [], mapAddr := [], vRandom := [], nTried := s.nTried, nNew := s.nNew, vvTried := List.replicate ADDRMAN_TRIED_BUCKET_COUNT [], vvNew := List.replicate ADDRMAN_NEW_BUCKET_COUNT [] } 0 (newRecsOf s) with nIdCount := (newPhase { nKey := s.nKey, nIdCount := 0, mapInfo := [], mapAddr := [], vRandom := [], nTried := s.nTried, nNew := s.nNew, vvTried := List.replicate ADDRMAN_TRIED_BUCKET_COUNT [], vvNew := List.replicate ADDRMAN_NEW_BUCKET_COUNT [] } 0 (newRecsOf s)).nNew } (triedRecsOf s) with nTried := (triedPhase B { newPhase { nKey := s.nKey, nIdCount := 0, mapInfo := [], mapAddr := [], vRandom := [], nTried := s.nTried, nNew := s.nNew, vvTried := List.replicate ADDRMAN_TRIED_BUCKET_COUNT [], vvNew := List.replicate ADDRMAN_NEW_BUCKET_COUNT [] } 0 (newRecsOf s) with nIdCount := (newPhase { nKey := s.nKey, nIdCount := 0, mapInfo := [], mapAddr := [], vRandom := [], nTried := s.nTried, nNew := s.nNew, vvTried := List.replicate ADDRMAN_TRIED_BUCKET_COUNT [], vvNew := List.replicate ADDRMAN_NEW_BUCKET_COUNT [] } 0 (newRecsOf s)).nNew } (triedRecsOf s)).nTried - ((0 : Nat) : Int) } 0).2.2.1
    rw [h9]
    show (triedPhase B { newPhase { nKey := s.nKey, nIdCount := 0, mapInfo := [], mapAddr := [], vRandom := [], nTried := s.nTried, nNew := s.nNew, vvTried := List.replicate ADDRMAN_TRIED_BUCKET_COUNT [], vvNew := List.replicate ADDRMAN_NEW_BUCKET_COUNT [] } 0 (newRecsOf s) with nIdCount := (newPhase { nKey := s.nKey, nIdCount := 0, mapInfo := [], mapAddr := [], vRandom := [], nTried := s.nTried, nNew := s.nNew, vvTried := List.replicate ADDRMAN_TRIED_BUCKET_COUNT [], vvNew := List.replicate ADDRMAN_NEW_BUCKET_COUNT [] } 0 (newRecsOf s)).nNew } (triedRecsOf s)).nTried - ((0 : Nat) : Int) = s.nTried
    rw [hnT2]
    simp
  · have h9 := (bucketPhase_proj (rankBucketsOf s) { triedPhase B { newPhase { nKey := s.nKey, nIdCount := 0, mapInfo := [], mapAddr := [], vRandom := [], nTried := s.nTried, nNew := s.nNew, vvTried := List.replicate ADDRMAN_TRIED_BUCKET_COUNT [], vvNew := List.replicate ADDRMAN_NEW_BUCKET_COUNT [] } 0 (newRecsOf s) with nIdCount := (newPhase { nKey := s.nKey, nIdCount := 0, mapInfo := [], mapAddr := [], vRandom := [], nTried := s.nTried, nNew := s.nNew, vvTried := List.replicate ADDRMAN_TRIED_BUCKET_COUNT [], vvNew := List.replicate ADDRMAN_NEW_BUCKET_COUNT [] } 0 (newRecsOf s)).nNew } (triedRecsOf s) with nTried := (triedPhase B { newPhase { nKey := s.nKey, nIdCount := 0, mapInfo := [], mapAddr := [], vRandom := [], nTried := s.nTried, nNew := s.nNew, vvTried := List.replicate ADDRMAN_TRIED_BUCKET_COUNT [], vvNew := List.replicate ADDRMAN_NEW_BUCKET_COUNT [] } 0 (newRecsOf s) with nIdCount := (newPhase { nKey := s.nKey, nIdCount := 0, mapInfo := [], mapAddr := [], vRandom := [], nTried := s.nTried, nNew := s.nNew, vvTried := List.replicate ADDRMAN_TRIED_BUCKET_COUNT [], vvNew := List.replicate ADDRMAN_NEW_BUCKET_COUNT [] } 0 (newRecsOf s)).nNew } (triedRecsOf s)).nTried - ((0 : Nat) : Int) } 0).2.1
    rw [h9]
    exact hnN2

set_option maxRecDepth 100000 in
/-- Witness for C1: the roundtrip theorem instantiated at the concrete
two-record state `addrManW` under the concrete bucket hash `bhW`. -/
theorem claim1_roundtrip_witness :
    ∃ s2, deserializeAddrMan bhW (serializeAddrMan addrManW) = Except.ok s2 ∧
      triedTuples s2 = triedTuples addrManW ∧ newTuples s2 = newTuples addrManW ∧
      (∀ a, a ∈ newReachableAddrs s2 ↔ a ∈ newReachableAddrs addrManW) ∧
      s2.nTried = addrManW.nTried ∧ s2.nNew = addrManW.nNew := by
  apply claim1_roundtrip bhW addrManW
  refine ⟨by decide, by decide, by decide, by decide, by decide, by decide, by decide,
    ?_, by decide, by decide, ?_, ?_, by decide, by decide⟩
  · intro p hp
    have hmi : addrManW.mapInfo = [(0, infoW0), (1, infoW1)] := rfl
    rw [hmi] at hp
    rcases List.mem_cons.mp hp with rfl | hp2
    · unfold RecWF
      decide
    · rcases List.mem_cons.mp hp2 with rfl | hp3
      · unfold RecWF
        decide
      · exact absurd hp3 (List.not_mem_nil _)
  · intro bkt hbm
    have hshape : ∀ x ∈ addrManW.vvNew, x = [] ∨ x = [(0 : Int)] := by decide
    rcases hshape bkt hbm with rfl | rfl
    · exact ⟨List.nodup_nil, fun id hid => absurd hid (List.not_mem_nil id)⟩
    · refine ⟨by decide, ?_⟩
      intro id hid
      rw [List.mem_singleton] at hid
      subst hid
      exact ⟨infoW0, by decide, by decide⟩
  · intro b
    exact le_trans (List.length_filter_le _ _) (by decide)



